import Mathlib

/-!
# Verification of the gonec AST constant-folding and bytecode lowering

A shallow embedding of the expression layer of the `ast` package
(`Simplify` constant folding and `BinTo`/`BinLetTo` bytecode lowering),
together with proofs about the documented properties of that layer.

Conventions:
* Pure Go functions become Lean functions; the append-only instruction
  buffer and the by-reference label counter are threaded explicitly
  (each lowering call returns the appended instructions and the new
  counter value).
* Go runtime panics inside `Simplify` (method call on a nil interface,
  failed single-value type assertion, out-of-range index) are modelled
  by an `Option` result, with `none` for a panic.
* Lowering can abort in two distinct ways: `panic(NewStringError …)`
  (a compile diagnostic) and a Go runtime panic from a failed interface
  conversion; the two are kept apart in `LowerErr`.
* The `builtins` value library, the `binstmt` instruction constructors
  and the statement layer are not part of the verified sources; they
  are modelled from the spec where marked.
-/

set_option maxHeartbeats 2000000

namespace Gonec

/-- Runtime values (`core.VMValuer`).  Modelled from the spec (§6.3):
the `builtins` package is outside the verified sources; the spec lists
the concrete value kinds.  A Go `nil` interface value (the zero
`VMValuer`, e.g. a missing map key) is `ifaceNil`.  A map value keeps
its entries as a list in iteration order. -/
inductive VMValuer where
  | int (i : Int)
  | dec (mant : Int) (exp : Int)
  | str (s : String)
  | bool (b : Bool)
  | null
  | nilv
  | ifaceNil
  | slice (xs : List VMValuer)
  | smap (entries : List (String × VMValuer))

/-- Modelled from the spec (§6.3): `VMUnarer` is an optional capability
of values; the numeric and boolean kinds evaluate unary operators. -/
def VMValuer.isUnarer : VMValuer → Bool
  | .int _ | .dec _ _ | .bool _ => true
  | _ => false

/-- Modelled from the spec (§6.3): `VMOperationer` is an optional
capability; the scalar kinds support binary operator evaluation. -/
def VMValuer.isOperationer : VMValuer → Bool
  | .int _ | .dec _ _ | .str _ | .bool _ => true
  | _ => false

/-- Modelled from the spec (§4.1, §6.3): only `VMBool` is a `VMBooler`
for the purposes of the ternary fold (`Native(Bool)`). -/
def VMValuer.asBooler : VMValuer → Option Bool
  | .bool b => some b
  | _ => none

/-- Modelled from the spec (§6.3): `EvalUnOp` on the kinds that support
it; any unsupported operator/value pair is an error result. -/
def VMValuer.evalUnOp : VMValuer → Char → Except Unit VMValuer
  | .int i, '-' => .ok (.int (-i))
  | .int i, '^' => .ok (.int (-(i + 1)))
  | .dec m e, '-' => .ok (.dec (-m) e)
  | .bool b, '!' => .ok (.bool !b)
  | _, _ => .error ()

/-- The numeric operator codes shared with the VM (`core.OperMap`
range).  `UNKNOWN` stands for the zero value a missing map key
produces. -/
inductive Oper where
  | ADD | SUB | MUL | QUO | REM | EQL | NEQ | GTR | GEQ | LSS | LEQ
  | LAND | LOR | POW | SHL | SHR | OR | AND | UNKNOWN
  deriving DecidableEq

/-- Modelled from the spec (§6.4): the textual operator table.  A key
outside the table yields the zero value, modelled as `UNKNOWN`. -/
def operMap : String → Oper
  | "+" => .ADD
  | "-" => .SUB
  | "*" => .MUL
  | "/" => .QUO
  | "%" => .REM
  | "==" => .EQL
  | "!=" => .NEQ
  | ">" => .GTR
  | ">=" => .GEQ
  | "<" => .LSS
  | "<=" => .LEQ
  | "&&" => .LAND
  | "||" => .LOR
  | "**" => .POW
  | "<<" => .SHL
  | ">>" => .SHR
  | "|" => .OR
  | "&" => .AND
  | _ => .UNKNOWN

/-- Modelled from the spec (§6.3): `EvalBinOp` on the common integer,
string and boolean cases; every other pair is conservatively an error
(the claims under verification never depend on a richer table). -/
def VMValuer.evalBinOp : VMValuer → Oper → VMValuer → Except Unit VMValuer
  | .int a, .ADD, .int b => .ok (.int (a + b))
  | .int a, .SUB, .int b => .ok (.int (a - b))
  | .int a, .MUL, .int b => .ok (.int (a * b))
  | .int a, .EQL, .int b => .ok (.bool (a == b))
  | .int a, .NEQ, .int b => .ok (.bool (a != b))
  | .int a, .LSS, .int b => .ok (.bool (decide (a < b)))
  | .int a, .LEQ, .int b => .ok (.bool (decide (a ≤ b)))
  | .int a, .GTR, .int b => .ok (.bool (decide (b < a)))
  | .int a, .GEQ, .int b => .ok (.bool (decide (b ≤ a)))
  | .str a, .ADD, .str b => .ok (.str (a ++ b))
  | .str a, .EQL, .str b => .ok (.bool (a == b))
  | .str a, .NEQ, .str b => .ok (.bool (a != b))
  | .bool a, .EQL, .bool b => .ok (.bool (a == b))
  | .bool a, .NEQ, .bool b => .ok (.bool (a != b))
  | _, _, _ => .error ()

/-- Digit-string value. -/
def digitsVal (l : List Char) : Nat :=
  l.foldl (fun a c => 10 * a + (c.toNat - '0'.toNat)) 0

/-- Modelled from the spec (§4.1): integer-literal parsing
(`VMInt.Parse`) — an optional sign followed by decimal digits; any
other shape fails.  Machine-word overflow is not modelled. -/
def parseIntLit (s : String) : Option Int :=
  match s.data with
  | [] => none
  | '-' :: rest =>
    if !rest.isEmpty && rest.all Char.isDigit then
      some (-(digitsVal rest : Int))
    else none
  | l =>
    if l.all Char.isDigit then some ((digitsVal l : Int)) else none

/-- Modelled from the spec (§4.1): decimal-literal parsing
(`VMDecimal.Parse`): `[-]digits[.digits][(e|E)[+|-]digits]` with at
least one digit in the mantissa; the value is kept as a mantissa and a
decimal exponent. -/
def parseDecLit (s : String) : Option VMValuer :=
  let (neg, l) :=
    match s.data with
    | '-' :: rest => (true, rest)
    | l => (false, l)
  let ip := l.takeWhile Char.isDigit
  let l1 := l.dropWhile Char.isDigit
  let (fp, l2) :=
    match l1 with
    | '.' :: r => (r.takeWhile Char.isDigit, r.dropWhile Char.isDigit)
    | _ => (([] : List Char), l1)
  if ip.isEmpty && fp.isEmpty then none
  else
    let mant : Int := if neg then -(digitsVal (ip ++ fp) : Int) else (digitsVal (ip ++ fp) : Int)
    match l2 with
    | [] => some (.dec mant (-(fp.length : Int)))
    | c :: r =>
      if c = 'e' ∨ c = 'E' then
        let (eneg, r1) :=
          match r with
          | '+' :: rr => (false, rr)
          | '-' :: rr => (true, rr)
          | rr => (false, rr)
        if !r1.isEmpty && r1.all Char.isDigit then
          some (.dec mant ((if eneg then -(digitsVal r1 : Int) else (digitsVal r1 : Int)) - (fp.length : Int)))
        else none
      else none

/-- Modelled from the spec: `strings.ToLower`, restricted to the ASCII
and Russian Cyrillic letters the `Const` keywords can contain. -/
def lowerChar (c : Char) : Char :=
  if 'A' ≤ c ∧ c ≤ 'Z' then Char.ofNat (c.toNat + 32)
  else if 'А' ≤ c ∧ c ≤ 'Я' then Char.ofNat (c.toNat + 32)
  else if c = 'Ё' then 'ё'
  else c

/-- Lower-casing of a whole string. -/
def goToLower (s : String) : String := String.mk (s.data.map lowerChar)

/-- `reflect.Chan` in Go's `reflect.Kind` enumeration. -/
def reflectChan : Nat := 18

/-- The emitted instructions (`binstmt` constructors).  Modelled from
the spec (§6.2) and the construction sites in the sources: only the
operand structure matters here. -/
inductive BinInstr where
  | LOAD (reg : Nat) (val : VMValuer) (immTyp : Bool)
  | CASTNUM (reg : Nat)
  | MAKESLICE (reg len cap : Nat)
  | MAKEMAP (reg n : Nat)
  | MAKECHAN (reg : Nat)
  | MAKEARR (reg capReg : Nat)
  | MAKE (reg : Nat)
  | SETIDX (sliceReg idx srcReg : Nat)
  | SETKEY (mapReg srcReg : Nat) (key : String)
  | GET (reg id : Nat)
  | SET (srcReg id : Nat)
  | UNARY (reg : Nat) (op : Char)
  | ADDRID (reg id : Nat)
  | ADDRMBR (reg name : Nat)
  | UNREFID (reg id : Nat)
  | UNREFMBR (reg name : Nat)
  | OPER (regL regR : Nat) (op : Oper)
  | CALL (name nargs argBase dst : Nat) (varArg goFlag : Bool)
  | FUNC (reg name : Nat) (args : List Nat) (varArg : Bool) (lblStart lblEnd : Nat)
  | GETMEMBER (reg name : Nat)
  | SETMEMBER (objReg name srcReg : Nat)
  | GETIDX (reg idxReg : Nat)
  | SETITEM (vReg iReg srcReg flagReg : Nat)
  | GETSUBSLICE (reg bReg eReg : Nat)
  | SETSLICE (vReg bReg eReg srcReg flagReg : Nat)
  | CHANRECV (chanReg dstReg : Nat)
  | CHANSEND (chanReg valReg : Nat)
  | ISKIND (reg kind : Nat)
  | MV (srcReg dstReg : Nat)
  | CASTTYPE (reg typeReg : Nat)
  | SETNAME (reg : Nat)
  | JMP (lbl : Nat)
  | JTRUE (reg lbl : Nat)
  | JFALSE (reg lbl : Nat)
  | LABEL (lbl : Nat)

/-- How a lowering run can abort: `diag` is a
`panic(binstmt.NewStringError …)` compile diagnostic, `goPanic` a raw
Go runtime panic (failed interface conversion, out-of-range index). -/
inductive LowerErr where
  | diag (msg : String)
  | goPanic
  deriving DecidableEq

mutual
/-- Expression nodes: one constructor per `ast` source struct.  Child
fields that can be a Go `nil` interface are `Option`s.  A map literal
keeps the Go map's contents as an entry list in iteration order. -/
inductive Expr where
  | noneE
  | number (lit : String)
  | string (lit : String)
  | array (exprs : List Expr)
  | pair (key : String) (value : Expr)
  | mapE (entries : List (String × Expr))
  | ident (lit : String) (id : Nat)
  | unary (operator : String) (expr : Expr)
  | addr (expr : Expr)
  | deref (expr : Expr)
  | paren (subExpr : Expr)
  | binOp (lhss : List Expr) (operator : String) (rhss : List Expr)
  | ternary (cond lhs rhs : Expr)
  | call (name : Nat) (subExprs : List Expr) (varArg goFlag : Bool)
  | anonCall (expr : Expr) (subExprs : List Expr) (varArg goFlag : Bool)
  | member (expr : Expr) (name : Nat)
  | item (value index : Expr)
  | slice (value beginE endE : Expr)
  | func (name : Nat) (stmts : List Stmt) (args : List Nat) (varArg : Bool)
  | letE (lhs rhs : Expr)
  | assoc (lhs : Expr) (operator : String) (rhs : Option Expr)
  | constE (value : String)
  | chan (lhs : Option Expr) (rhs : Expr)
  | typeCast (typ : Nat) (typeExpr : Option Expr) (castExpr : Expr)
  | makeE (typ : Nat) (typeExpr : Option Expr)
  | makeChan (sizeExpr : Option Expr)
  | makeArray (lenExpr : Expr) (capExpr : Option Expr)
  | native (value : VMValuer)

/-- Statement nodes.  Modelled from the spec (§3.3, §4.4): the
statement file is outside the verified sources; only the forms that
expression lowering interacts with are included (`LetsStmt`, which the
statement-context `==` rewrite targets, and plain expression
statements for function bodies). -/
inductive Stmt where
  | lets (lhss : List Expr) (operator : String) (rhss : List Expr)
  | exprStmt (expr : Expr)
end

/-- The `CanLetExpr` interface: exactly `Ident`, `Member`, `Item` and
`Slice` implement `BinLetTo`. -/
def Expr.isCanLet : Expr → Bool
  | .ident _ _ | .member _ _ | .item _ _ | .slice _ _ _ => true
  | _ => false

mutual
/-- Recursion budget for one `Simplify` run: one unit per visited node,
`max` over children.  `max` (rather than a sum) is what makes the
budget stable under the pass itself, which is needed because the
ternary case re-runs `Simplify` on an already-produced result. -/
def Expr.sfuel : Expr → Nat
  | .noneE => 1
  | .number _ => 1
  | .string _ => 1
  | .array es => 1 + sfuelList es
  | .pair _ v => 1 + v.sfuel
  | .mapE entries => 1 + sfuelEntries entries
  | .ident _ _ => 1
  | .unary _ e => 1 + e.sfuel
  | .addr e => 1 + e.sfuel
  | .deref e => 1 + e.sfuel
  | .paren s => 1 + s.sfuel
  | .binOp l _ r => 1 + max (sfuelList l) (sfuelList r)
  | .ternary c l r => 1 + max c.sfuel (max l.sfuel r.sfuel)
  | .call _ args _ _ => 1 + sfuelList args
  | .anonCall f args _ _ => 1 + max f.sfuel (sfuelList args)
  | .member e _ => 1 + e.sfuel
  | .item v i => 1 + max v.sfuel i.sfuel
  | .slice v b e => 1 + max v.sfuel (max b.sfuel e.sfuel)
  | .func _ ss _ _ => 1 + sfuelStmts ss
  | .letE l r => 1 + max l.sfuel r.sfuel
  | .assoc l _ r => 1 + max l.sfuel (sfuelOpt r)
  | .constE _ => 1
  | .chan l r => 1 + max (sfuelOpt l) r.sfuel
  | .typeCast _ te ce => 1 + max (sfuelOpt te) ce.sfuel
  | .makeE _ te => 1 + sfuelOpt te
  | .makeChan se => 1 + sfuelOpt se
  | .makeArray le ce => 1 + max le.sfuel (sfuelOpt ce)
  | .native _ => 1

/-- Budget of an expression list. -/
def sfuelList : List Expr → Nat
  | [] => 1
  | e :: rest => 1 + max e.sfuel (sfuelList rest)

/-- Budget of a map-entry list. -/
def sfuelEntries : List (String × Expr) → Nat
  | [] => 1
  | (_, v) :: rest => 1 + max v.sfuel (sfuelEntries rest)

/-- Budget of an optional child. -/
def sfuelOpt : Option Expr → Nat
  | none => 1
  | some e => 1 + e.sfuel

/-- Budget of a statement. -/
def Stmt.sfuel : Stmt → Nat
  | .lets l _ r => 1 + max (sfuelList l) (sfuelList r)
  | .exprStmt e => 1 + e.sfuel

/-- Budget of a statement list. -/
def sfuelStmts : List Stmt → Nat
  | [] => 1
  | s :: rest => 1 + max s.sfuel (sfuelStmts rest)
end

/-- The `waserrors` scan of `ArrayExpr.Simplify`: the collected values
when every element is already a `NativeExpr`. -/
def nativesOf : List Expr → Option (List VMValuer)
  | [] => some []
  | .native v :: rest => (nativesOf rest).map (v :: ·)
  | _ :: _ => none

/-- The `waserrors` scan of `MapExpr.Simplify`. -/
def entryNativesOf : List (String × Expr) → Option (List (String × VMValuer))
  | [] => some []
  | (k, .native v) :: rest => (entryNativesOf rest).map ((k, v) :: ·)
  | _ :: _ => none

mutual
/-- One fuel-bounded run of the `Simplify` pass, transcribed case by
case from the source `Simplify` methods.  `none` models a Go runtime
panic: the nil-interface `Simplify` calls (`Assoc.Rhs`, `Chan.Lhs`,
`TypeCast.TypeExpr`, `Make.TypeExpr`, `MakeChan.SizeExpr`,
`MakeArray.CapExpr`), the single-value `VMUnarer` assertion in
`UnaryExpr.Simplify`, the `Operator[0]` index on an empty operator,
and out-of-range constant index/slice folds.  The run is fuel-stable
from `Expr.sfuel` on (`simplifyF_stable`). -/
def simplifyF : Nat → Expr → Option Expr
  | 0, _ => none
  | n + 1, e =>
    match e with
    | .noneE => some .noneE
    | .number lit =>
      if lit.data.any (fun c => c = '.' || c = 'e' || c = 'E') then
        match parseDecLit lit with
        | some v => some (.native v)
        | none => some (.number lit)
      else
        match parseIntLit lit with
        | some i => some (.native (.int i))
        | none => some (.number lit)
    | .string lit => some (.native (.str lit))
    | .array es =>
      match simplifyListF n es with
      | none => none
      | some es' =>
        match nativesOf es' with
        | some vs => some (.native (.slice vs))
        | none => some (.array es')
    | .pair k v =>
      match simplifyF n v with
      | none => none
      | some v' => some (.pair k v')
    | .mapE entries =>
      match simplifyEntriesF n entries with
      | none => none
      | some entries' =>
        match entryNativesOf entries' with
        | some m => some (.native (.smap m))
        | none => some (.mapE entries')
    | .ident l i => some (.ident l i)
    | .unary op e1 =>
      match simplifyF n e1 with
      | none => none
      | some e' =>
        match e' with
        | .native v =>
          if v.isUnarer then
            match op.data with
            | [] => none
            | c :: _ =>
              match v.evalUnOp c with
              | .ok rv => some (.native rv)
              | .error _ => some (.unary op (.native v))
          else none
        | _ => some (.unary op e')
    | .addr e1 =>
      match simplifyF n e1 with
      | none => none
      | some e' => some (.addr e')
    | .deref e1 =>
      match simplifyF n e1 with
      | none => none
      | some e' => some (.deref e')
    | .paren s =>
      match simplifyF n s with
      | none => none
      | some s' =>
        match s' with
        | .native v => some (.native v)
        | _ => some (.paren s')
    | .binOp lhss op rhss =>
      match simplifyListF n lhss with
      | none => none
      | some ls =>
        match simplifyListF n rhss with
        | none => none
        | some rs =>
          match ls, rs with
          | [.native v1], [.native v2] =>
            if v1.isOperationer && v2.isOperationer then
              match v1.evalBinOp (operMap op) v2 with
              | .ok rv => some (.native rv)
              | .error _ => some (.binOp ls op rs)
            else some (.binOp ls op rs)
          | _, _ => some (.binOp ls op rs)
    | .ternary c _ _ =>
      match simplifyF n c with
      | none => none
      | some c1 =>
        match simplifyF n c1 with
        | none => none
        | some l1 =>
          match simplifyF n c1 with
          | none => none
          | some r1 =>
            match c1 with
            | .native v =>
              match v.asBooler with
              | some b => some (if b then l1 else r1)
              | none => some (.ternary c1 l1 r1)
            | _ => some (.ternary c1 l1 r1)
    | .call nm args va g =>
      match simplifyListF n args with
      | none => none
      | some args' => some (.call nm args' va g)
    | .anonCall f args va g =>
      match simplifyF n f with
      | none => none
      | some f' =>
        match simplifyListF n args with
        | none => none
        | some args' => some (.anonCall f' args' va g)
    | .member e1 nm =>
      match simplifyF n e1 with
      | none => none
      | some e' => some (.member e' nm)
    | .item v i =>
      match simplifyF n v with
      | none => none
      | some v' =>
        match simplifyF n i with
        | none => none
        | some i' =>
          match v', i' with
          | .native (.slice xs), .native (.int ii) =>
            if ii < 0 then none
            else
              match xs[ii.toNat]? with
              | some x => some (.native x)
              | none => none
          | .native (.smap m), .native (.str s) =>
            some (.native (((m.find? (fun p => p.1 == s)).map Prod.snd).getD .ifaceNil))
          | _, _ => some (.item v' i')
    | .slice v b e2 =>
      match simplifyF n v with
      | none => none
      | some v' =>
        match simplifyF n b with
        | none => none
        | some b' =>
          match simplifyF n e2 with
          | none => none
          | some e' =>
            match v', b', e' with
            | .native (.slice xs), .native (.int ib), .native (.int ie) =>
              if 0 ≤ ib ∧ ib ≤ ie ∧ ie ≤ (xs.length : Int) then
                some (.native (.slice ((xs.drop ib.toNat).take (ie - ib).toNat)))
              else none
            | _, _, _ => some (.slice v' b' e')
    | .func nm ss args va =>
      match simplifyStmtsF n ss with
      | none => none
      | some ss' => some (.func nm ss' args va)
    | .letE l r =>
      match simplifyF n l with
      | none => none
      | some l' =>
        match simplifyF n r with
        | none => none
        | some r' => some (.letE l' r')
    | .assoc l op r =>
      match simplifyF n l with
      | none => none
      | some l' =>
        match r with
        | none => none
        | some r0 =>
          match simplifyF n r0 with
          | none => none
          | some r' => some (.assoc l' op (some r'))
    | .constE s =>
      match goToLower s with
      | "истина" | "true" => some (.native (.bool true))
      | "ложь" | "false" => some (.native (.bool false))
      | "null" => some (.native .null)
      | _ => some (.constE s)
    | .chan l r =>
      match l with
      | none => none
      | some l0 =>
        match simplifyF n l0 with
        | none => none
        | some l' =>
          match simplifyF n r with
          | none => none
          | some r' => some (.chan (some l') r')
    | .typeCast t te ce =>
      match te with
      | none => none
      | some te0 =>
        match simplifyF n te0 with
        | none => none
        | some te' =>
          match simplifyF n ce with
          | none => none
          | some ce' => some (.typeCast t (some te') ce')
    | .makeE t te =>
      match te with
      | none => none
      | some te0 =>
        match simplifyF n te0 with
        | none => none
        | some te' => some (.makeE t (some te'))
    | .makeChan se =>
      match se with
      | none => none
      | some se0 =>
        match simplifyF n se0 with
        | none => none
        | some se' => some (.makeChan (some se'))
    | .makeArray le ce =>
      match simplifyF n le with
      | none => none
      | some le' =>
        match ce with
        | none => none
        | some ce0 =>
          match simplifyF n ce0 with
          | none => none
          | some ce' => some (.makeArray le' (some ce'))
    | .native v => some (.native v)

/-- Elementwise simplification of an expression list. -/
def simplifyListF : Nat → List Expr → Option (List Expr)
  | 0, _ => none
  | _ + 1, [] => some []
  | n + 1, e :: rest =>
    match simplifyF n e with
    | none => none
    | some e' =>
      match simplifyListF n rest with
      | none => none
      | some rest' => some (e' :: rest')

/-- Valuewise simplification of a map-entry list. -/
def simplifyEntriesF : Nat → List (String × Expr) → Option (List (String × Expr))
  | 0, _ => none
  | _ + 1, [] => some []
  | n + 1, (k, v) :: rest =>
    match simplifyF n v with
    | none => none
    | some v' =>
      match simplifyEntriesF n rest with
      | none => none
      | some rest' => some ((k, v') :: rest')

/-- Modelled from the spec (§3.3): statement simplification recurses
into the statement's expressions. -/
def simplifyStmtF : Nat → Stmt → Option Stmt
  | 0, _ => none
  | n + 1, .lets l op r =>
    match simplifyListF n l with
    | none => none
    | some l' =>
      match simplifyListF n r with
      | none => none
      | some r' => some (.lets l' op r')
  | n + 1, .exprStmt e =>
    match simplifyF n e with
    | none => none
    | some e' => some (.exprStmt e')

/-- Simplification of a statement list. -/
def simplifyStmtsF : Nat → List Stmt → Option (List Stmt)
  | 0, _ => none
  | _ + 1, [] => some []
  | n + 1, s :: rest =>
    match simplifyStmtF n s with
    | none => none
    | some s' =>
      match simplifyStmtsF n rest with
      | none => none
      | some rest' => some (s' :: rest')
end

/-- `Expr.Simplify`: the constant-folding pass, with enough fuel for
the whole run.  `none` models a Go runtime panic. -/
def Expr.Simplify (e : Expr) : Option Expr := simplifyF e.sfuel e

/-- Sequencing of lowering steps: a panic propagates, otherwise the
appended instructions and the new label-counter value flow on (the Go
control flow around the append-only buffer and `*lid`). -/
def bindLow (x : Except LowerErr (List BinInstr × Nat))
    (f : List BinInstr → Nat → Except LowerErr (List BinInstr × Nat)) :
    Except LowerErr (List BinInstr × Nat) :=
  match x with
  | .error err => .error err
  | .ok (c, l) => f c l

@[simp] theorem bindLow_ok (c : List BinInstr) (l : Nat) (f) :
    bindLow (.ok (c, l)) f = f c l := rfl

@[simp] theorem bindLow_error (err : LowerErr) (f) :
    bindLow (.error err) f = .error err := rfl

/-- The statement-context `==`-as-assignment test of `BinOpExpr.BinTo`
(`inStmt && oper == EQL`), selecting between its two lowering paths. -/
def lowSel (inStmt : Bool) (oper : Oper)
    (eqlPath exprPath : Except LowerErr (List BinInstr × Nat)) :
    Except LowerErr (List BinInstr × Nat) :=
  match inStmt, oper with
  | true, .EQL => eqlPath
  | _, _ => exprPath

@[simp] theorem lowSel_eql (a b) : lowSel true .EQL a b = a := rfl

theorem lowSel_not (inStmt : Bool) (oper : Oper) (a b)
    (h : ¬(inStmt = true ∧ oper = .EQL)) : lowSel inStmt oper a b = b := by
  cases inStmt <;> cases oper <;> first | rfl | exact absurd ⟨rfl, rfl⟩ h

/-- The three-way operator dispatch of `BinOpExpr.BinTo` (`LOR`,
`LAND`, everything else). -/
def operSel (oper : Oper)
    (orPath andPath defPath : Except LowerErr (List BinInstr × Nat)) :
    Except LowerErr (List BinInstr × Nat) :=
  match oper with
  | .LOR => orPath
  | .LAND => andPath
  | _ => defPath

@[simp] theorem operSel_or (a b c) : operSel .LOR a b c = a := rfl

@[simp] theorem operSel_and (a b c) : operSel .LAND a b c = b := rfl

theorem operSel_def (oper : Oper) (a b c) (h1 : oper ≠ .LOR) (h2 : oper ≠ .LAND) :
    operSel oper a b c = c := by
  cases oper <;> first | rfl | exact absurd rfl h1 | exact absurd rfl h2

/-- `CallExpr.BinTo`'s `regoff`: `1` for an anonymous call (`Name == 0`). -/
def regoffOf (nm : Nat) : Nat := if nm = 0 then 1 else 0

/-- `CallExpr.BinTo`'s `sliceoff`: `1` when the arguments are
materialized into a slice (more than one argument). -/
def sliceoffOf (nargs : Nat) : Nat := if 1 < nargs then 1 else 0

/-- The `MAKESLICE` prefix emitted when the argument slice is
materialized. -/
def makeSliceIf (sliceoff reg n : Nat) : List BinInstr :=
  if sliceoff = 1 then [.MAKESLICE reg n n] else []

/-- The `SETIDX` step of the argument loop, emitted only when the
argument slice is materialized. -/
def setIdxIf (sliceoff setReg idx argReg : Nat) : List BinInstr :=
  if sliceoff = 1 then [.SETIDX setReg idx argReg] else []

/-- The keyword switch of `ConstExpr.BinTo`: any unrecognized text —
including `nil` — loads `VMNil`. -/
def constLoadValue (s : String) : VMValuer :=
  match goToLower s with
  | "истина" | "true" => .bool true
  | "ложь" | "false" => .bool false
  | "null" => .null
  | _ => .nilv

/-- Discriminator for the modelled `AssocExpr` lowering. -/
inductive AssocKind where
  | incr | decr | compound
  deriving DecidableEq

/-- The operator dispatch of the modelled `AssocExpr` lowering. -/
def assocKind : String → AssocKind
  | "++" => .incr
  | "--" => .decr
  | _ => .compound

/-- The first-character extraction of `UnaryExpr.BinTo`
(`rune(e.Operator[0])`): indexing an empty operator string is a Go
runtime panic. -/
def unaryInstr (op : String) (reg : Nat) (c : List BinInstr) (l : Nat) :
    Except LowerErr (List BinInstr × Nat) :=
  match op.data with
  | [] => .error .goPanic
  | ch :: _ => .ok (c ++ [.UNARY reg ch], l)

/-- Three-way selection on an `AssocKind`. -/
def assocSel (k : AssocKind)
    (incrPath decrPath compoundPath : Except LowerErr (List BinInstr × Nat)) :
    Except LowerErr (List BinInstr × Nat) :=
  match k with
  | .incr => incrPath
  | .decr => decrPath
  | .compound => compoundPath

@[simp] theorem assocSel_incr (a b c) : assocSel .incr a b c = a := rfl

@[simp] theorem assocSel_decr (a b c) : assocSel .decr a b c = b := rfl

@[simp] theorem assocSel_compound (a b c) : assocSel .compound a b c = c := rfl


mutual
/-- `Expr.BinTo expr reg lid inStmt`: bytecode lowering, transcribed
case by case from the source `BinTo` methods.  The result is the
instruction sequence appended to the buffer together with the final
label-counter value.  The `AssocExpr` case is marked where modelled. -/
def Expr.BinTo : Expr → Nat → Nat → Bool → Except LowerErr (List BinInstr × Nat)
  | .noneE, reg, lid, _ => .ok ([.LOAD reg .ifaceNil false], lid)
  | .number lit, reg, lid, _ =>
    .ok ([.LOAD reg (.str lit) false, .CASTNUM reg], lid)
  | .string lit, reg, lid, _ => .ok ([.LOAD reg (.str lit) false], lid)
  | .array es, reg, lid, _ =>
    bindLow (arrayItemsBinTo es reg 0 lid) fun c l =>
      .ok (.MAKESLICE reg es.length es.length :: c, l)
  | .pair _ _, _, lid, _ => .ok ([], lid)
  | .mapE entries, reg, lid, _ =>
    bindLow (mapItemsBinTo entries reg lid) fun c l =>
      .ok (.MAKEMAP reg entries.length :: c, l)
  | .ident _ id, reg, lid, _ => .ok ([.GET reg id], lid)
  | .unary op e, reg, lid, _ =>
    bindLow (e.BinTo reg lid false) fun c l => unaryInstr op reg c l
  | .addr e, reg, lid, _ =>
    match e with
    | .ident _ id => .ok ([.ADDRID reg id], lid)
    | .member me nm =>
      bindLow (me.BinTo reg lid false) fun c l => .ok (c ++ [.ADDRMBR reg nm], l)
    | _ => .error (.diag "Неверная операция над значением")
  | .deref e, reg, lid, _ =>
    match e with
    | .ident _ id => .ok ([.UNREFID reg id], lid)
    | .member me nm =>
      bindLow (me.BinTo reg lid false) fun c l => .ok (c ++ [.UNREFMBR reg nm], l)
    | _ => .error (.diag "Неверная операция над значением")
  | .paren s, reg, lid, _ => s.BinTo reg lid false
  | .binOp lhss op rhss, reg, lid, inStmt =>
    lowSel inStmt (operMap op)
      (bindLow (letsRhssBinTo rhss (reg + 1) lid) fun c1 l1 =>
       bindLow (letsLhssBinTo lhss (reg + 1) l1) fun c2 l2 =>
         .ok (c1 ++ c2, l2))
      (match lhss, rhss with
       | [l], [r] =>
         bindLow (l.BinTo reg lid false) fun c1 l1 =>
           operSel (operMap op)
             (bindLow (r.BinTo reg (l1 + 1) false) fun c2 l2 =>
               .ok (c1 ++ [.JTRUE reg (l1 + 1)] ++ c2 ++ [.LABEL (l1 + 1)], l2))
             (bindLow (r.BinTo reg (l1 + 1) false) fun c2 l2 =>
               .ok (c1 ++ [.JFALSE reg (l1 + 1)] ++ c2 ++ [.LABEL (l1 + 1)], l2))
             (bindLow (r.BinTo (reg + 1) l1 false) fun c2 l2 =>
               .ok (c1 ++ c2 ++ [.OPER reg (reg + 1) (operMap op)], l2))
       | _, _ =>
         .error (.diag "С каждой стороны операции может быть только одно выражение"))
  | .ternary c lhs rhs, reg, lid, _ =>
    bindLow (c.BinTo reg lid false) fun c0 l0 =>
    bindLow (lhs.BinTo reg (l0 + 1) false) fun c1 l1 =>
    bindLow (rhs.BinTo reg (l1 + 1) false) fun c2 l2 =>
      .ok (c0 ++ [.JFALSE reg (l0 + 1)] ++ c1
            ++ [.JMP (l1 + 1), .LABEL (l0 + 1)] ++ c2
            ++ [.LABEL (l1 + 1)], l2)
  | .call nm args va g, reg, lid, _ =>
    bindLow (callArgsBinTo args (reg + sliceoffOf args.length + regoffOf nm)
        (reg + regoffOf nm) (sliceoffOf args.length) 0 lid) fun c l =>
      .ok (makeSliceIf (sliceoffOf args.length) (reg + regoffOf nm) args.length
            ++ c ++ [.CALL nm args.length reg reg va g], l)
  | .anonCall f args va g, reg, lid, _ =>
    bindLow (f.BinTo reg lid false) fun c0 l0 =>
    bindLow (callArgsBinTo args (reg + sliceoffOf args.length + 1)
        (reg + 1) (sliceoffOf args.length) 0 l0) fun c l =>
      .ok (c0 ++ (makeSliceIf (sliceoffOf args.length) (reg + 1) args.length
            ++ c ++ [.CALL 0 args.length reg reg va g]), l)
  | .member e nm, reg, lid, _ =>
    bindLow (e.BinTo reg lid false) fun c l => .ok (c ++ [.GETMEMBER reg nm], l)
  | .item v i, reg, lid, _ =>
    bindLow (v.BinTo reg lid false) fun cv l1 =>
    bindLow (i.BinTo (reg + 1) l1 false) fun ci l2 =>
      .ok (cv ++ ci ++ [.GETIDX reg (reg + 1)], l2)
  | .slice v b e, reg, lid, _ =>
    bindLow (v.BinTo reg lid false) fun cv l1 =>
    bindLow (b.BinTo (reg + 1) l1 false) fun cb l2 =>
    bindLow (e.BinTo (reg + 2) l2 false) fun ce l3 =>
      .ok (cv ++ cb ++ ce ++ [.GETSUBSLICE reg (reg + 1) (reg + 2)], l3)
  | .func nm ss args va, reg, lid, _ =>
    bindLow (stmtsBinTo ss reg (lid + 2)) fun c l =>
      .ok (.FUNC reg nm args va (lid + 1) (lid + 2) :: .LABEL (lid + 1) :: c
            ++ [.LABEL (lid + 2)], l)
  | .letE lhs rhs, reg, lid, _ =>
    bindLow (rhs.BinTo reg lid false) fun c1 l1 =>
    bindLow (lhs.BinLetTo reg l1) fun c2 l2 =>
      .ok (c1 ++ c2, l2)
  | .assoc lhs op rhs, reg, lid, _ =>
    -- Modelled from the spec: `AssocExpr`'s `BinTo` is outside the
    -- provided sources (only its `Simplify` is); §3.2 lists the
    -- compound assignments `+= -= *= /= &= |= ++ --`, lowered here as
    -- the matching read-modify-write through `BinLetTo`.
    assocSel (assocKind op)
      (bindLow (lhs.BinTo reg lid false) fun c1 l1 =>
       bindLow (lhs.BinLetTo reg l1) fun c2 l2 =>
         .ok (c1 ++ [.LOAD (reg + 1) (.int 1) false, .OPER reg (reg + 1) .ADD] ++ c2, l2))
      (bindLow (lhs.BinTo reg lid false) fun c1 l1 =>
       bindLow (lhs.BinLetTo reg l1) fun c2 l2 =>
         .ok (c1 ++ [.LOAD (reg + 1) (.int 1) false, .OPER reg (reg + 1) .SUB] ++ c2, l2))
      (match rhs with
       | none => .error .goPanic
       | some r =>
         bindLow (lhs.BinTo reg lid false) fun c1 l1 =>
         bindLow (r.BinTo (reg + 1) l1 false) fun c2 l2 =>
         bindLow (lhs.BinLetTo reg l2) fun c3 l3 =>
           .ok (c1 ++ c2 ++ [.OPER reg (reg + 1) (operMap (String.mk op.data.dropLast))] ++ c3, l3))
  | .constE s, reg, lid, _ =>
    .ok ([.LOAD reg (constLoadValue s) false], lid)
  | .chan lhs rhs, reg, lid, _ =>
    bindLow (rhs.BinTo (reg + 1) lid false) fun cr l1 =>
      match lhs with
      | none => .ok (cr ++ [.CHANRECV (reg + 1) reg], l1)
      | some le =>
        bindLow (le.BinTo (reg + 2) l1 false) fun cl l2 =>
        bindLow (le.BinLetTo reg (l2 + 2)) fun clet l3 =>
          .ok (cr ++ cl
                ++ [.MV (reg + 2) (reg + 3), .ISKIND (reg + 3) reflectChan,
                    .JFALSE (reg + 3) (l2 + 1), .CHANSEND (reg + 2) (reg + 1),
                    .LOAD reg (.bool true) false, .JMP (l2 + 2),
                    .LABEL (l2 + 1), .CHANRECV (reg + 1) reg]
                ++ clet ++ [.LABEL (l2 + 2)], l3)
  | .typeCast t te ce, reg, lid, _ =>
    bindLow (ce.BinTo reg lid false) fun cc l1 =>
      match te with
      | none => .ok (cc ++ [.LOAD (reg + 1) (.int t) true, .CASTTYPE reg (reg + 1)], l1)
      | some tex =>
        bindLow (tex.BinTo (reg + 1) l1 false) fun ct l2 =>
          .ok (cc ++ ct ++ [.SETNAME (reg + 1), .CASTTYPE reg (reg + 1)], l2)
  | .makeE t te, reg, lid, _ =>
    match te with
    | none => .ok ([.LOAD reg (.int t) true, .MAKE reg], lid)
    | some tex =>
      bindLow (tex.BinTo reg lid false) fun ct l => .ok (ct ++ [.SETNAME reg, .MAKE reg], l)
  | .makeChan se, reg, lid, _ =>
    match se with
    | none => .ok ([.LOAD reg (.int 0) false, .MAKECHAN reg], lid)
    | some sz =>
      bindLow (sz.BinTo reg lid false) fun c l => .ok (c ++ [.MAKECHAN reg], l)
  | .makeArray le ce, reg, lid, _ =>
    bindLow (le.BinTo reg lid false) fun c1 l1 =>
      match ce with
      | none => .ok (c1 ++ [.MV reg (reg + 1), .MAKEARR reg (reg + 1)], l1)
      | some cap =>
        bindLow (cap.BinTo (reg + 1) l1 false) fun c2 l2 =>
          .ok (c1 ++ c2 ++ [.MAKEARR reg (reg + 1)], l2)
  | .native v, reg, lid, _ => .ok ([.LOAD reg v false], lid)

/-- `Expr.BinLetTo target reg lid`: assignment lowering, from the four
`BinLetTo` methods in the source.  Every other variant hits the
unchecked `.(CanLetExpr)` interface conversion: a Go runtime panic. -/
def Expr.BinLetTo : Expr → Nat → Nat → Except LowerErr (List BinInstr × Nat)
  | .ident _ id, reg, lid => .ok ([.SET reg id], lid)
  | .member e nm, reg, lid =>
    bindLow (e.BinTo (reg + 1) lid false) fun c l =>
      .ok (c ++ [.SETMEMBER (reg + 1) nm reg], l)
  | .item v i, reg, lid =>
    bindLow (v.BinTo (reg + 1) (lid + 1) false) fun cv l1 =>
    bindLow (i.BinTo (reg + 2) l1 false) fun ci l2 =>
    bindLow (v.BinLetTo (reg + 1) l2) fun cl l3 =>
      .ok (cv ++ ci
            ++ [.SETITEM (reg + 1) (reg + 2) reg (reg + 3),
                .JFALSE (reg + 3) (lid + 1)]
            ++ cl ++ [.LABEL (lid + 1)], l3)
  | .slice v b e, reg, lid =>
    bindLow (v.BinTo (reg + 1) (lid + 1) false) fun cv l1 =>
    bindLow (b.BinTo (reg + 2) l1 false) fun cb l2 =>
    bindLow (e.BinTo (reg + 3) l2 false) fun ce l3 =>
    bindLow (v.BinLetTo (reg + 1) l3) fun cl l4 =>
      .ok (cv ++ cb ++ ce
            ++ [.SETSLICE (reg + 1) (reg + 2) (reg + 3) reg (reg + 4),
                .JFALSE (reg + 4) (lid + 1)]
            ++ cl ++ [.LABEL (lid + 1)], l4)
  | _, _, _ => .error .goPanic

/-- `ArrayExpr` element loop: each element into `reg+1`, then
`SETIDX reg i (reg+1)`. -/
def arrayItemsBinTo : List Expr → Nat → Nat → Nat → Except LowerErr (List BinInstr × Nat)
  | [], _, _, lid => .ok ([], lid)
  | e :: rest, reg, idx, lid =>
    bindLow (e.BinTo (reg + 1) lid false) fun c l1 =>
    bindLow (arrayItemsBinTo rest reg (idx + 1) l1) fun cs l2 =>
      .ok (c ++ [.SETIDX reg idx (reg + 1)] ++ cs, l2)

/-- `MapExpr` entry loop in iteration order: each value into `reg+1`,
then `SETKEY reg (reg+1) key`. -/
def mapItemsBinTo : List (String × Expr) → Nat → Nat → Except LowerErr (List BinInstr × Nat)
  | [], _, lid => .ok ([], lid)
  | (k, e) :: rest, reg, lid =>
    bindLow (e.BinTo (reg + 1) lid false) fun c l1 =>
    bindLow (mapItemsBinTo rest reg l1) fun cs l2 =>
      .ok (c ++ [.SETKEY reg (reg + 1) k] ++ cs, l2)

/-- `CallExpr` argument loop: each argument into `argReg`, plus a
`SETIDX setReg i argReg` when the argument slice is materialized. -/
def callArgsBinTo : List Expr → Nat → Nat → Nat → Nat → Nat → Except LowerErr (List BinInstr × Nat)
  | [], _, _, _, _, lid => .ok ([], lid)
  | e :: rest, argReg, setReg, sliceoff, idx, lid =>
    bindLow (e.BinTo argReg lid false) fun c l1 =>
    bindLow (callArgsBinTo rest argReg setReg sliceoff (idx + 1) l1) fun cs l2 =>
      .ok (c ++ setIdxIf sliceoff setReg idx argReg ++ cs, l2)

/-- Modelled from the spec (§4.4): `LetsStmt` lowering evaluates each
rhs into the consecutive temporaries `reg+1, reg+2, …`. -/
def letsRhssBinTo : List Expr → Nat → Nat → Except LowerErr (List BinInstr × Nat)
  | [], _, lid => .ok ([], lid)
  | e :: rest, tmp, lid =>
    bindLow (e.BinTo tmp lid false) fun c l1 =>
    bindLow (letsRhssBinTo rest (tmp + 1) l1) fun cs l2 =>
      .ok (c ++ cs, l2)

/-- Modelled from the spec (§4.4): …then assigns each lhs from its
temporary via `BinLetTo`. -/
def letsLhssBinTo : List Expr → Nat → Nat → Except LowerErr (List BinInstr × Nat)
  | [], _, lid => .ok ([], lid)
  | e :: rest, tmp, lid =>
    bindLow (e.BinLetTo tmp lid) fun c l1 =>
    bindLow (letsLhssBinTo rest (tmp + 1) l1) fun cs l2 =>
      .ok (c ++ cs, l2)

/-- Modelled from the spec (§4.4): statement lowering for the two
modelled forms; an expression statement lowers its expression in
statement context. -/
def Stmt.BinTo : Stmt → Nat → Nat → Except LowerErr (List BinInstr × Nat)
  | .lets lhss _ rhss, reg, lid =>
    bindLow (letsRhssBinTo rhss (reg + 1) lid) fun c1 l1 =>
    bindLow (letsLhssBinTo lhss (reg + 1) l1) fun c2 l2 =>
      .ok (c1 ++ c2, l2)
  | .exprStmt e, reg, lid => e.BinTo reg lid true

/-- Sequential lowering of a statement list. -/
def stmtsBinTo : List Stmt → Nat → Nat → Except LowerErr (List BinInstr × Nat)
  | [], _, lid => .ok ([], lid)
  | s :: rest, reg, lid =>
    bindLow (s.BinTo reg lid) fun c l1 =>
    bindLow (stmtsBinTo rest reg l1) fun cs l2 =>
      .ok (c ++ cs, l2)
end

/-! Hand-written unfolding equations for the lowering family, one per
source-level case, each definitional. -/

@[simp] theorem eqBinTo_noneE (reg lid : Nat) (s : Bool) :
    Expr.BinTo .noneE reg lid s = .ok ([.LOAD reg .ifaceNil false], lid) := rfl

@[simp] theorem eqBinTo_number (lit : String) (reg lid : Nat) (s : Bool) :
    Expr.BinTo (.number lit) reg lid s
      = .ok ([.LOAD reg (.str lit) false, .CASTNUM reg], lid) := rfl

@[simp] theorem eqBinTo_string (lit : String) (reg lid : Nat) (s : Bool) :
    Expr.BinTo (.string lit) reg lid s = .ok ([.LOAD reg (.str lit) false], lid) := rfl

@[simp] theorem eqBinTo_array (es : List Expr) (reg lid : Nat) (s : Bool) :
    Expr.BinTo (.array es) reg lid s
      = bindLow (arrayItemsBinTo es reg 0 lid) fun c l =>
          .ok (.MAKESLICE reg es.length es.length :: c, l) := rfl

@[simp] theorem eqBinTo_pair (k : String) (v : Expr) (reg lid : Nat) (s : Bool) :
    Expr.BinTo (.pair k v) reg lid s = .ok ([], lid) := rfl

@[simp] theorem eqBinTo_mapE (entries : List (String × Expr)) (reg lid : Nat) (s : Bool) :
    Expr.BinTo (.mapE entries) reg lid s
      = bindLow (mapItemsBinTo entries reg lid) fun c l =>
          .ok (.MAKEMAP reg entries.length :: c, l) := rfl

@[simp] theorem eqBinTo_ident (lit : String) (id : Nat) (reg lid : Nat) (s : Bool) :
    Expr.BinTo (.ident lit id) reg lid s = .ok ([.GET reg id], lid) := rfl

@[simp] theorem eqBinTo_unary (op : String) (e : Expr) (reg lid : Nat) (s : Bool) :
    Expr.BinTo (.unary op e) reg lid s
      = bindLow (e.BinTo reg lid false) fun c l => unaryInstr op reg c l := rfl

@[simp] theorem eqBinTo_addr_ident (lit : String) (id : Nat) (reg lid : Nat) (s : Bool) :
    Expr.BinTo (.addr (.ident lit id)) reg lid s = .ok ([.ADDRID reg id], lid) := rfl

@[simp] theorem eqBinTo_addr_member (me : Expr) (nm : Nat) (reg lid : Nat) (s : Bool) :
    Expr.BinTo (.addr (.member me nm)) reg lid s
      = bindLow (me.BinTo reg lid false) fun c l => .ok (c ++ [.ADDRMBR reg nm], l) := rfl

theorem eqBinTo_addr_other (e : Expr) (reg lid : Nat) (s : Bool)
    (h1 : ∀ lit id, e ≠ .ident lit id) (h2 : ∀ me nm, e ≠ .member me nm) :
    Expr.BinTo (.addr e) reg lid s
      = .error (.diag "Неверная операция над значением") := by
  cases e <;> first
    | rfl
    | exact absurd rfl (h1 _ _)
    | exact absurd rfl (h2 _ _)

@[simp] theorem eqBinTo_deref_ident (lit : String) (id : Nat) (reg lid : Nat) (s : Bool) :
    Expr.BinTo (.deref (.ident lit id)) reg lid s = .ok ([.UNREFID reg id], lid) := rfl

@[simp] theorem eqBinTo_deref_member (me : Expr) (nm : Nat) (reg lid : Nat) (s : Bool) :
    Expr.BinTo (.deref (.member me nm)) reg lid s
      = bindLow (me.BinTo reg lid false) fun c l => .ok (c ++ [.UNREFMBR reg nm], l) := rfl

theorem eqBinTo_deref_other (e : Expr) (reg lid : Nat) (s : Bool)
    (h1 : ∀ lit id, e ≠ .ident lit id) (h2 : ∀ me nm, e ≠ .member me nm) :
    Expr.BinTo (.deref e) reg lid s
      = .error (.diag "Неверная операция над значением") := by
  cases e <;> first
    | rfl
    | exact absurd rfl (h1 _ _)
    | exact absurd rfl (h2 _ _)

@[simp] theorem eqBinTo_paren (e : Expr) (reg lid : Nat) (s : Bool) :
    Expr.BinTo (.paren e) reg lid s = e.BinTo reg lid false := rfl

@[simp] theorem eqBinTo_binOp_single (l : Expr) (op : String) (r : Expr)
    (reg lid : Nat) (inStmt : Bool) :
    Expr.BinTo (.binOp [l] op [r]) reg lid inStmt
      = lowSel inStmt (operMap op)
          (bindLow (letsRhssBinTo [r] (reg + 1) lid) fun c1 l1 =>
           bindLow (letsLhssBinTo [l] (reg + 1) l1) fun c2 l2 =>
             .ok (c1 ++ c2, l2))
          (bindLow (l.BinTo reg lid false) fun c1 l1 =>
             operSel (operMap op)
               (bindLow (r.BinTo reg (l1 + 1) false) fun c2 l2 =>
                 .ok (c1 ++ [.JTRUE reg (l1 + 1)] ++ c2 ++ [.LABEL (l1 + 1)], l2))
               (bindLow (r.BinTo reg (l1 + 1) false) fun c2 l2 =>
                 .ok (c1 ++ [.JFALSE reg (l1 + 1)] ++ c2 ++ [.LABEL (l1 + 1)], l2))
               (bindLow (r.BinTo (reg + 1) l1 false) fun c2 l2 =>
                 .ok (c1 ++ c2 ++ [.OPER reg (reg + 1) (operMap op)], l2))) := rfl

theorem eqBinTo_binOp_multi (lhss : List Expr) (op : String) (rhss : List Expr)
    (reg lid : Nat) (inStmt : Bool)
    (h : ¬∃ l r, lhss = [l] ∧ rhss = [r]) :
    Expr.BinTo (.binOp lhss op rhss) reg lid inStmt
      = lowSel inStmt (operMap op)
          (bindLow (letsRhssBinTo rhss (reg + 1) lid) fun c1 l1 =>
           bindLow (letsLhssBinTo lhss (reg + 1) l1) fun c2 l2 =>
             .ok (c1 ++ c2, l2))
          (.error (.diag "С каждой стороны операции может быть только одно выражение")) := by
  rcases lhss with _ | ⟨l, _ | ⟨l2, ls⟩⟩ <;> rcases rhss with _ | ⟨r, _ | ⟨r2, rs⟩⟩ <;>
    first
      | rfl
      | exact absurd ⟨_, _, rfl, rfl⟩ h

@[simp] theorem eqBinTo_ternary (c lhs rhs : Expr) (reg lid : Nat) (s : Bool) :
    Expr.BinTo (.ternary c lhs rhs) reg lid s
      = (bindLow (c.BinTo reg lid false) fun c0 l0 =>
         bindLow (lhs.BinTo reg (l0 + 1) false) fun c1 l1 =>
         bindLow (rhs.BinTo reg (l1 + 1) false) fun c2 l2 =>
           .ok (c0 ++ [.JFALSE reg (l0 + 1)] ++ c1
                 ++ [.JMP (l1 + 1), .LABEL (l0 + 1)] ++ c2
                 ++ [.LABEL (l1 + 1)], l2)) := rfl

@[simp] theorem eqBinTo_call (nm : Nat) (args : List Expr) (va g : Bool)
    (reg lid : Nat) (s : Bool) :
    Expr.BinTo (.call nm args va g) reg lid s
      = (bindLow (callArgsBinTo args (reg + sliceoffOf args.length + regoffOf nm)
            (reg + regoffOf nm) (sliceoffOf args.length) 0 lid) fun c l =>
          .ok (makeSliceIf (sliceoffOf args.length) (reg + regoffOf nm) args.length
                ++ c ++ [.CALL nm args.length reg reg va g], l)) := rfl

@[simp] theorem eqBinTo_anonCall (f : Expr) (args : List Expr) (va g : Bool)
    (reg lid : Nat) (s : Bool) :
    Expr.BinTo (.anonCall f args va g) reg lid s
      = (bindLow (f.BinTo reg lid false) fun c0 l0 =>
         bindLow (callArgsBinTo args (reg + sliceoffOf args.length + 1)
            (reg + 1) (sliceoffOf args.length) 0 l0) fun c l =>
          .ok (c0 ++ (makeSliceIf (sliceoffOf args.length) (reg + 1) args.length
                ++ c ++ [.CALL 0 args.length reg reg va g]), l)) := rfl

@[simp] theorem eqBinTo_member (e : Expr) (nm : Nat) (reg lid : Nat) (s : Bool) :
    Expr.BinTo (.member e nm) reg lid s
      = (bindLow (e.BinTo reg lid false) fun c l =>
          .ok (c ++ [.GETMEMBER reg nm], l)) := rfl

@[simp] theorem eqBinTo_item (v i : Expr) (reg lid : Nat) (s : Bool) :
    Expr.BinTo (.item v i) reg lid s
      = (bindLow (v.BinTo reg lid false) fun cv l1 =>
         bindLow (i.BinTo (reg + 1) l1 false) fun ci l2 =>
           .ok (cv ++ ci ++ [.GETIDX reg (reg + 1)], l2)) := rfl

@[simp] theorem eqBinTo_slice (v b e : Expr) (reg lid : Nat) (s : Bool) :
    Expr.BinTo (.slice v b e) reg lid s
      = (bindLow (v.BinTo reg lid false) fun cv l1 =>
         bindLow (b.BinTo (reg + 1) l1 false) fun cb l2 =>
         bindLow (e.BinTo (reg + 2) l2 false) fun ce l3 =>
           .ok (cv ++ cb ++ ce ++ [.GETSUBSLICE reg (reg + 1) (reg + 2)], l3)) := rfl

@[simp] theorem eqBinTo_func (nm : Nat) (ss : List Stmt) (args : List Nat)
    (va : Bool) (reg lid : Nat) (s : Bool) :
    Expr.BinTo (.func nm ss args va) reg lid s
      = (bindLow (stmtsBinTo ss reg (lid + 2)) fun c l =>
          .ok (.FUNC reg nm args va (lid + 1) (lid + 2) :: .LABEL (lid + 1) :: c
                ++ [.LABEL (lid + 2)], l)) := rfl

@[simp] theorem eqBinTo_letE (lhs rhs : Expr) (reg lid : Nat) (s : Bool) :
    Expr.BinTo (.letE lhs rhs) reg lid s
      = (bindLow (rhs.BinTo reg lid false) fun c1 l1 =>
         bindLow (lhs.BinLetTo reg l1) fun c2 l2 =>
           .ok (c1 ++ c2, l2)) := rfl

@[simp] theorem eqBinTo_assoc_none (lhs : Expr) (op : String) (reg lid : Nat) (s : Bool) :
    Expr.BinTo (.assoc lhs op none) reg lid s
      = assocSel (assocKind op)
          (bindLow (lhs.BinTo reg lid false) fun c1 l1 =>
           bindLow (lhs.BinLetTo reg l1) fun c2 l2 =>
             .ok (c1 ++ [.LOAD (reg + 1) (.int 1) false, .OPER reg (reg + 1) .ADD] ++ c2, l2))
          (bindLow (lhs.BinTo reg lid false) fun c1 l1 =>
           bindLow (lhs.BinLetTo reg l1) fun c2 l2 =>
             .ok (c1 ++ [.LOAD (reg + 1) (.int 1) false, .OPER reg (reg + 1) .SUB] ++ c2, l2))
          (.error .goPanic) := rfl

@[simp] theorem eqBinTo_assoc_some (lhs : Expr) (op : String) (r : Expr)
    (reg lid : Nat) (s : Bool) :
    Expr.BinTo (.assoc lhs op (some r)) reg lid s
      = assocSel (assocKind op)
          (bindLow (lhs.BinTo reg lid false) fun c1 l1 =>
           bindLow (lhs.BinLetTo reg l1) fun c2 l2 =>
             .ok (c1 ++ [.LOAD (reg + 1) (.int 1) false, .OPER reg (reg + 1) .ADD] ++ c2, l2))
          (bindLow (lhs.BinTo reg lid false) fun c1 l1 =>
           bindLow (lhs.BinLetTo reg l1) fun c2 l2 =>
             .ok (c1 ++ [.LOAD (reg + 1) (.int 1) false, .OPER reg (reg + 1) .SUB] ++ c2, l2))
          (bindLow (lhs.BinTo reg lid false) fun c1 l1 =>
           bindLow (r.BinTo (reg + 1) l1 false) fun c2 l2 =>
           bindLow (lhs.BinLetTo reg l2) fun c3 l3 =>
             .ok (c1 ++ c2 ++ [.OPER reg (reg + 1) (operMap (String.mk op.data.dropLast))]
                   ++ c3, l3)) := rfl

@[simp] theorem eqBinTo_constE (s : String) (reg lid : Nat) (st : Bool) :
    Expr.BinTo (.constE s) reg lid st
      = .ok ([.LOAD reg (constLoadValue s) false], lid) := rfl

@[simp] theorem eqBinTo_chan_none (rhs : Expr) (reg lid : Nat) (s : Bool) :
    Expr.BinTo (.chan none rhs) reg lid s
      = (bindLow (rhs.BinTo (reg + 1) lid false) fun cr l1 =>
          .ok (cr ++ [.CHANRECV (reg + 1) reg], l1)) := rfl

@[simp] theorem eqBinTo_chan_some (le rhs : Expr) (reg lid : Nat) (s : Bool) :
    Expr.BinTo (.chan (some le) rhs) reg lid s
      = (bindLow (rhs.BinTo (reg + 1) lid false) fun cr l1 =>
         bindLow (le.BinTo (reg + 2) l1 false) fun cl l2 =>
         bindLow (le.BinLetTo reg (l2 + 2)) fun clet l3 =>
           .ok (cr ++ cl
                 ++ [.MV (reg + 2) (reg + 3), .ISKIND (reg + 3) reflectChan,
                     .JFALSE (reg + 3) (l2 + 1), .CHANSEND (reg + 2) (reg + 1),
                     .LOAD reg (.bool true) false, .JMP (l2 + 2),
                     .LABEL (l2 + 1), .CHANRECV (reg + 1) reg]
                 ++ clet ++ [.LABEL (l2 + 2)], l3)) := rfl

@[simp] theorem eqBinTo_typeCast_none (t : Nat) (ce : Expr) (reg lid : Nat) (s : Bool) :
    Expr.BinTo (.typeCast t none ce) reg lid s
      = (bindLow (ce.BinTo reg lid false) fun cc l1 =>
          .ok (cc ++ [.LOAD (reg + 1) (.int t) true, .CASTTYPE reg (reg + 1)], l1)) := rfl

@[simp] theorem eqBinTo_typeCast_some (t : Nat) (tex ce : Expr) (reg lid : Nat) (s : Bool) :
    Expr.BinTo (.typeCast t (some tex) ce) reg lid s
      = (bindLow (ce.BinTo reg lid false) fun cc l1 =>
         bindLow (tex.BinTo (reg + 1) l1 false) fun ct l2 =>
           .ok (cc ++ ct ++ [.SETNAME (reg + 1), .CASTTYPE reg (reg + 1)], l2)) := rfl

@[simp] theorem eqBinTo_makeE_none (t : Nat) (reg lid : Nat) (s : Bool) :
    Expr.BinTo (.makeE t none) reg lid s
      = .ok ([.LOAD reg (.int t) true, .MAKE reg], lid) := rfl

@[simp] theorem eqBinTo_makeE_some (t : Nat) (tex : Expr) (reg lid : Nat) (s : Bool) :
    Expr.BinTo (.makeE t (some tex)) reg lid s
      = (bindLow (tex.BinTo reg lid false) fun ct l =>
          .ok (ct ++ [.SETNAME reg, .MAKE reg], l)) := rfl

@[simp] theorem eqBinTo_makeChan_none (reg lid : Nat) (s : Bool) :
    Expr.BinTo (.makeChan none) reg lid s
      = .ok ([.LOAD reg (.int 0) false, .MAKECHAN reg], lid) := rfl

@[simp] theorem eqBinTo_makeChan_some (sz : Expr) (reg lid : Nat) (s : Bool) :
    Expr.BinTo (.makeChan (some sz)) reg lid s
      = (bindLow (sz.BinTo reg lid false) fun c l =>
          .ok (c ++ [.MAKECHAN reg], l)) := rfl

@[simp] theorem eqBinTo_makeArray_none (le : Expr) (reg lid : Nat) (s : Bool) :
    Expr.BinTo (.makeArray le none) reg lid s
      = (bindLow (le.BinTo reg lid false) fun c1 l1 =>
          .ok (c1 ++ [.MV reg (reg + 1), .MAKEARR reg (reg + 1)], l1)) := rfl

@[simp] theorem eqBinTo_makeArray_some (le cap : Expr) (reg lid : Nat) (s : Bool) :
    Expr.BinTo (.makeArray le (some cap)) reg lid s
      = (bindLow (le.BinTo reg lid false) fun c1 l1 =>
         bindLow (cap.BinTo (reg + 1) l1 false) fun c2 l2 =>
           .ok (c1 ++ c2 ++ [.MAKEARR reg (reg + 1)], l2)) := rfl

@[simp] theorem eqBinTo_native (v : VMValuer) (reg lid : Nat) (s : Bool) :
    Expr.BinTo (.native v) reg lid s = .ok ([.LOAD reg v false], lid) := rfl

@[simp] theorem eqBinLetTo_ident (lit : String) (id : Nat) (reg lid : Nat) :
    Expr.BinLetTo (.ident lit id) reg lid = .ok ([.SET reg id], lid) := rfl

@[simp] theorem eqBinLetTo_member (e : Expr) (nm : Nat) (reg lid : Nat) :
    Expr.BinLetTo (.member e nm) reg lid
      = (bindLow (e.BinTo (reg + 1) lid false) fun c l =>
          .ok (c ++ [.SETMEMBER (reg + 1) nm reg], l)) := rfl

@[simp] theorem eqBinLetTo_item (v i : Expr) (reg lid : Nat) :
    Expr.BinLetTo (.item v i) reg lid
      = (bindLow (v.BinTo (reg + 1) (lid + 1) false) fun cv l1 =>
         bindLow (i.BinTo (reg + 2) l1 false) fun ci l2 =>
         bindLow (v.BinLetTo (reg + 1) l2) fun cl l3 =>
           .ok (cv ++ ci
                 ++ [.SETITEM (reg + 1) (reg + 2) reg (reg + 3),
                     .JFALSE (reg + 3) (lid + 1)]
                 ++ cl ++ [.LABEL (lid + 1)], l3)) := rfl

@[simp] theorem eqBinLetTo_slice (v b e : Expr) (reg lid : Nat) :
    Expr.BinLetTo (.slice v b e) reg lid
      = (bindLow (v.BinTo (reg + 1) (lid + 1) false) fun cv l1 =>
         bindLow (b.BinTo (reg + 2) l1 false) fun cb l2 =>
         bindLow (e.BinTo (reg + 3) l2 false) fun ce l3 =>
         bindLow (v.BinLetTo (reg + 1) l3) fun cl l4 =>
           .ok (cv ++ cb ++ ce
                 ++ [.SETSLICE (reg + 1) (reg + 2) (reg + 3) reg (reg + 4),
                     .JFALSE (reg + 4) (lid + 1)]
                 ++ cl ++ [.LABEL (lid + 1)], l4)) := rfl

@[simp] theorem eqArrayItems_nil (reg idx lid : Nat) :
    arrayItemsBinTo [] reg idx lid = .ok ([], lid) := rfl

@[simp] theorem eqArrayItems_cons (e : Expr) (rest : List Expr) (reg idx lid : Nat) :
    arrayItemsBinTo (e :: rest) reg idx lid
      = (bindLow (e.BinTo (reg + 1) lid false) fun c l1 =>
         bindLow (arrayItemsBinTo rest reg (idx + 1) l1) fun cs l2 =>
           .ok (c ++ [.SETIDX reg idx (reg + 1)] ++ cs, l2)) := rfl

@[simp] theorem eqMapItems_nil (reg lid : Nat) :
    mapItemsBinTo [] reg lid = .ok ([], lid) := rfl

@[simp] theorem eqMapItems_cons (k : String) (e : Expr)
    (rest : List (String × Expr)) (reg lid : Nat) :
    mapItemsBinTo ((k, e) :: rest) reg lid
      = (bindLow (e.BinTo (reg + 1) lid false) fun c l1 =>
         bindLow (mapItemsBinTo rest reg l1) fun cs l2 =>
           .ok (c ++ [.SETKEY reg (reg + 1) k] ++ cs, l2)) := rfl

@[simp] theorem eqCallArgs_nil (argReg setReg sliceoff idx lid : Nat) :
    callArgsBinTo [] argReg setReg sliceoff idx lid = .ok ([], lid) := rfl

@[simp] theorem eqCallArgs_cons (e : Expr) (rest : List Expr)
    (argReg setReg sliceoff idx lid : Nat) :
    callArgsBinTo (e :: rest) argReg setReg sliceoff idx lid
      = (bindLow (e.BinTo argReg lid false) fun c l1 =>
         bindLow (callArgsBinTo rest argReg setReg sliceoff (idx + 1) l1) fun cs l2 =>
           .ok (c ++ setIdxIf sliceoff setReg idx argReg ++ cs, l2)) := rfl

@[simp] theorem eqLetsRhss_nil (tmp lid : Nat) :
    letsRhssBinTo [] tmp lid = .ok ([], lid) := rfl

@[simp] theorem eqLetsRhss_cons (e : Expr) (rest : List Expr) (tmp lid : Nat) :
    letsRhssBinTo (e :: rest) tmp lid
      = (bindLow (e.BinTo tmp lid false) fun c l1 =>
         bindLow (letsRhssBinTo rest (tmp + 1) l1) fun cs l2 =>
           .ok (c ++ cs, l2)) := rfl

@[simp] theorem eqLetsLhss_nil (tmp lid : Nat) :
    letsLhssBinTo [] tmp lid = .ok ([], lid) := rfl

@[simp] theorem eqLetsLhss_cons (e : Expr) (rest : List Expr) (tmp lid : Nat) :
    letsLhssBinTo (e :: rest) tmp lid
      = (bindLow (e.BinLetTo tmp lid) fun c l1 =>
         bindLow (letsLhssBinTo rest (tmp + 1) l1) fun cs l2 =>
           .ok (c ++ cs, l2)) := rfl

@[simp] theorem eqStmtBinTo_lets (lhss : List Expr) (op : String) (rhss : List Expr)
    (reg lid : Nat) :
    Stmt.BinTo (.lets lhss op rhss) reg lid
      = (bindLow (letsRhssBinTo rhss (reg + 1) lid) fun c1 l1 =>
         bindLow (letsLhssBinTo lhss (reg + 1) l1) fun c2 l2 =>
           .ok (c1 ++ c2, l2)) := rfl

@[simp] theorem eqStmtBinTo_exprStmt (e : Expr) (reg lid : Nat) :
    Stmt.BinTo (.exprStmt e) reg lid = e.BinTo reg lid true := rfl

@[simp] theorem eqStmts_nil (reg lid : Nat) :
    stmtsBinTo [] reg lid = .ok ([], lid) := rfl

@[simp] theorem eqStmts_cons (s : Stmt) (rest : List Stmt) (reg lid : Nat) :
    stmtsBinTo (s :: rest) reg lid
      = (bindLow (s.BinTo reg lid) fun c l1 =>
         bindLow (stmtsBinTo rest reg l1) fun cs l2 =>
           .ok (c ++ cs, l2)) := rfl


/-! ## Label bookkeeping for the lowering invariants -/

/-- The label referenced by a conditional or unconditional jump. -/
def jmpTarget : BinInstr → Option Nat
  | .JMP l => some l
  | .JTRUE _ l => some l
  | .JFALSE _ l => some l
  | _ => none

/-- The label defined by a `LABEL` marker. -/
def labelOf : BinInstr → Option Nat
  | .LABEL l => some l
  | _ => none

/-- All labels defined in a buffer, in emission order. -/
def labDefs : List BinInstr → List Nat
  | [] => []
  | i :: rest =>
    match labelOf i with
    | some l => l :: labDefs rest
    | none => labDefs rest

@[simp] theorem labDefs_nil : labDefs [] = [] := rfl

theorem labDefs_cons (i : BinInstr) (c : List BinInstr) :
    labDefs (i :: c) = (labelOf i).toList ++ labDefs c := by
  cases i <;> rfl

@[simp] theorem labDefs_label_cons (l : Nat) (c : List BinInstr) :
    labDefs (.LABEL l :: c) = l :: labDefs c := rfl

theorem labDefs_append (a b : List BinInstr) :
    labDefs (a ++ b) = labDefs a ++ labDefs b := by
  induction a with
  | nil => rfl
  | cons i rest ih =>
    rw [List.cons_append, labDefs_cons, labDefs_cons, ih, List.append_assoc]

/-- A jump instruction is matched against a pool of label definitions:
its target must occur exactly once. -/
def jumpOK (ls : List Nat) (i : BinInstr) : Bool :=
  match jmpTarget i with
  | some l => ls.count l == 1
  | none => true

theorem jumpOK_none (ls : List Nat) (i : BinInstr) (h : jmpTarget i = none) :
    jumpOK ls i = true := by
  unfold jumpOK
  rw [h]

/-- Every jump in the buffer, checked against the labels defined later
in the buffer plus the surrounding context `ctx`. -/
def jumpsMatchedCtx (ctx : List Nat) : List BinInstr → Bool
  | [] => true
  | i :: rest => jumpOK (labDefs rest ++ ctx) i && jumpsMatchedCtx ctx rest

/-- **The spec's forward-jump discipline:** every jump's label is
defined by exactly one later `LABEL`. -/
def jumpsMatchedB (c : List BinInstr) : Bool := jumpsMatchedCtx [] c

@[simp] theorem jumpsMatchedCtx_nil (ctx : List Nat) :
    jumpsMatchedCtx ctx [] = true := rfl

@[simp] theorem jumpsMatchedCtx_cons (ctx : List Nat) (i : BinInstr) (rest : List BinInstr) :
    jumpsMatchedCtx ctx (i :: rest)
      = (jumpOK (labDefs rest ++ ctx) i && jumpsMatchedCtx ctx rest) := rfl

theorem jumpsMatchedCtx_append (ctx : List Nat) (a b : List BinInstr) :
    jumpsMatchedCtx ctx (a ++ b)
      = (jumpsMatchedCtx (labDefs b ++ ctx) a && jumpsMatchedCtx ctx b) := by
  induction a with
  | nil => simp
  | cons i rest ih =>
    rw [List.cons_append, jumpsMatchedCtx_cons, jumpsMatchedCtx_cons, ih,
        labDefs_append, List.append_assoc, Bool.and_assoc]

theorem jumpsMatchedCtx_of_noJumps (c : List BinInstr)
    (h : ∀ i ∈ c, jmpTarget i = none) (ctx : List Nat) :
    jumpsMatchedCtx ctx c = true := by
  induction c with
  | nil => rfl
  | cons i rest ih =>
    rw [jumpsMatchedCtx_cons, jumpOK_none _ _ (h i (List.mem_cons_self _ _)),
        ih (fun j hj => h j (List.mem_cons_of_mem _ hj)), Bool.and_self]

theorem jumpsMatchedCtx_of_disjoint (a : List BinInstr) (ctx : List Nat)
    (h : ∀ i ∈ a, ∀ l, jmpTarget i = some l → l ∉ ctx) :
    jumpsMatchedCtx ctx a = jumpsMatchedCtx [] a := by
  induction a with
  | nil => rfl
  | cons i rest ih =>
    rw [jumpsMatchedCtx_cons, jumpsMatchedCtx_cons,
        ih (fun j hj => h j (List.mem_cons_of_mem _ hj))]
    have : jumpOK (labDefs rest ++ ctx) i = jumpOK (labDefs rest ++ []) i := by
      unfold jumpOK
      cases hj : jmpTarget i with
      | none => rfl
      | some l =>
        show (List.count l (labDefs rest ++ ctx) == 1)
          = (List.count l (labDefs rest ++ []) == 1)
        rw [List.count_append, List.count_append,
            List.count_eq_zero.mpr (h i (List.mem_cons_self _ _) l hj), List.count_nil]
    rw [this]

/-- The label-freshness invariant of one lowering run from counter
`lid` to counter `lid'`: labels defined in the emitted code are the
freshly allocated ids (all in `(lid, lid']`, pairwise distinct), every
jump targets a freshly allocated id, and every jump is matched by
exactly one later `LABEL`. -/
structure Seg (lid lid' : Nat) (code : List BinInstr) : Prop where
  mono : lid ≤ lid'
  defsIn : ∀ l ∈ labDefs code, lid < l ∧ l ≤ lid'
  nodup : (labDefs code).Nodup
  jumpsIn : ∀ i ∈ code, ∀ l, jmpTarget i = some l → lid < l ∧ l ≤ lid'
  matched : jumpsMatchedB code = true

theorem Seg.weaken {l1 l2 : Nat} {c : List BinInstr} (h : Seg l1 l2 c)
    {l0 l3 : Nat} (ha : l0 ≤ l1) (hb : l2 ≤ l3) : Seg l0 l3 c where
  mono := le_trans ha (le_trans h.mono hb)
  defsIn l hl := ⟨lt_of_le_of_lt ha (h.defsIn l hl).1, le_trans (h.defsIn l hl).2 hb⟩
  nodup := h.nodup
  jumpsIn i hi l hl := ⟨lt_of_le_of_lt ha (h.jumpsIn i hi l hl).1,
    le_trans (h.jumpsIn i hi l hl).2 hb⟩
  matched := h.matched

theorem Seg.append {lid l1 l2 : Nat} {c1 c2 : List BinInstr}
    (h1 : Seg lid l1 c1) (h2 : Seg l1 l2 c2) : Seg lid l2 (c1 ++ c2) where
  mono := le_trans h1.mono h2.mono
  defsIn := by
    intro l hl
    rw [labDefs_append] at hl
    rcases List.mem_append.mp hl with hm | hm
    · exact ⟨(h1.defsIn l hm).1, le_trans (h1.defsIn l hm).2 h2.mono⟩
    · exact ⟨lt_of_le_of_lt h1.mono (h2.defsIn l hm).1, (h2.defsIn l hm).2⟩
  nodup := by
    rw [labDefs_append]
    refine List.Nodup.append h1.nodup h2.nodup ?_
    intro l hm1 hm2
    have ha := (h1.defsIn l hm1).2
    have hb := (h2.defsIn l hm2).1
    omega
  jumpsIn := by
    intro i hi l hl
    rcases List.mem_append.mp hi with hm | hm
    · exact ⟨(h1.jumpsIn i hm l hl).1, le_trans (h1.jumpsIn i hm l hl).2 h2.mono⟩
    · exact ⟨lt_of_le_of_lt h1.mono (h2.jumpsIn i hm l hl).1, (h2.jumpsIn i hm l hl).2⟩
  matched := by
    have m1 : jumpsMatchedCtx [] c1 = true := h1.matched
    have m2 : jumpsMatchedCtx [] c2 = true := h2.matched
    show jumpsMatchedCtx [] (c1 ++ c2) = true
    rw [jumpsMatchedCtx_append, List.append_nil,
        jumpsMatchedCtx_of_disjoint c1 (labDefs c2) ?_, m1, m2, Bool.and_self]
    intro i hi l hl hmem
    have ha := (h1.jumpsIn i hi l hl).2
    have hb := (h2.defsIn l hmem).1
    omega

theorem Seg.plain (lid : Nat) (c : List BinInstr)
    (hl : labDefs c = []) (hj : ∀ i ∈ c, jmpTarget i = none) : Seg lid lid c where
  mono := le_refl _
  defsIn := by rw [hl]; intro l h; cases h
  nodup := by rw [hl]; exact List.nodup_nil
  jumpsIn i hi l hjt := absurd (hj i hi ▸ hjt) (by simp)
  matched := jumpsMatchedCtx_of_noJumps c hj []

theorem Seg.one (lid : Nat) (i : BinInstr)
    (h1 : labelOf i = none) (h2 : jmpTarget i = none) : Seg lid lid [i] := by
  refine Seg.plain lid [i] ?_ ?_
  · rw [labDefs_cons, h1]; rfl
  · intro j hj
    rw [List.mem_singleton] at hj
    subst hj
    exact h2

theorem Seg.two (lid : Nat) (i j : BinInstr)
    (h1 : labelOf i = none) (h2 : jmpTarget i = none)
    (h3 : labelOf j = none) (h4 : jmpTarget j = none) : Seg lid lid [i, j] := by
  refine Seg.plain lid [i, j] ?_ ?_
  · rw [labDefs_cons, h1, labDefs_cons, h3]; rfl
  · intro x hx
    rcases List.mem_cons.mp hx with rfl | hx
    · exact h2
    · rw [List.mem_singleton] at hx
      subst hx
      exact h4

theorem labDefs_makeSliceIf (a b c : Nat) : labDefs (makeSliceIf a b c) = [] := by
  unfold makeSliceIf
  split <;> rfl

theorem jmp_makeSliceIf (a b c : Nat) : ∀ i ∈ makeSliceIf a b c, jmpTarget i = none := by
  unfold makeSliceIf
  split
  · intro i hi
    rw [List.mem_singleton] at hi
    subst hi
    rfl
  · intro i hi
    cases hi

theorem Seg.makeSlice (lid a b c : Nat) : Seg lid lid (makeSliceIf a b c) :=
  Seg.plain lid _ (labDefs_makeSliceIf a b c) (jmp_makeSliceIf a b c)

theorem labDefs_setIdxIf (a b c d : Nat) : labDefs (setIdxIf a b c d) = [] := by
  unfold setIdxIf
  split <;> rfl

theorem jmp_setIdxIf (a b c d : Nat) : ∀ i ∈ setIdxIf a b c d, jmpTarget i = none := by
  unfold setIdxIf
  split
  · intro i hi
    rw [List.mem_singleton] at hi
    subst hi
    rfl
  · intro i hi
    cases hi

theorem Seg.setIdx (lid a b c d : Nat) : Seg lid lid (setIdxIf a b c d) :=
  Seg.plain lid _ (labDefs_setIdxIf a b c d) (jmp_setIdxIf a b c d)

theorem count_labDefs_zero_of_le {c : List BinInstr} {lo : Nat}
    (hdef : ∀ l ∈ labDefs c, lo < l) {t : Nat} (ht : t ≤ lo) :
    (labDefs c).count t = 0 :=
  List.count_eq_zero.mpr (fun hm => absurd (hdef t hm) (by omega))

theorem count_labDefs_zero_of_gt {c : List BinInstr} {hi : Nat}
    (hdef : ∀ l ∈ labDefs c, l ≤ hi) {t : Nat} (ht : hi < t) :
    (labDefs c).count t = 0 :=
  List.count_eq_zero.mpr (fun hm => absurd (hdef t hm) (by omega))

/-- The `||`/`&&` shape: left code, one forward jump to the fresh
label, right code, the label. -/
theorem Seg.jumpWrap {lid l1 l2 : Nat} {c1 c2 : List BinInstr}
    (h1 : Seg lid l1 c1) (h2 : Seg (l1 + 1) l2 c2)
    (i : BinInstr) (hi : jmpTarget i = some (l1 + 1)) (hli : labelOf i = none) :
    Seg lid l2 (c1 ++ [i] ++ c2 ++ [.LABEL (l1 + 1)]) := by
  have hm1 := h1.mono
  have hm2 := h2.mono
  have hldi : labDefs [i] = [] := by rw [labDefs_cons i, hli]; rfl
  have hlds : labDefs (c1 ++ [i] ++ c2 ++ [.LABEL (l1 + 1)])
      = labDefs c1 ++ labDefs c2 ++ [l1 + 1] := by
    rw [labDefs_append, labDefs_append, labDefs_append, hldi, List.append_nil,
        labDefs_label_cons, labDefs_nil]
  constructor
  · omega
  · intro l hl
    rw [hlds] at hl
    rcases List.mem_append.mp hl with hl | hl
    · rcases List.mem_append.mp hl with hl | hl
      · have := h1.defsIn l hl
        omega
      · have := h2.defsIn l hl
        omega
    · rw [List.mem_singleton] at hl
      omega
  · rw [hlds]
    refine List.Nodup.append (List.Nodup.append h1.nodup h2.nodup ?_)
      (List.nodup_singleton _) ?_
    · intro l ha hb
      have := (h1.defsIn l ha).2
      have := (h2.defsIn l hb).1
      omega
    · intro l ha hb
      rw [List.mem_singleton] at hb
      subst hb
      rcases List.mem_append.mp ha with hl | hl
      · have := (h1.defsIn _ hl).2
        omega
      · have := (h2.defsIn _ hl).1
        omega
  · intro j hj l hl
    rcases List.mem_append.mp hj with hj | hj
    · rcases List.mem_append.mp hj with hj | hj
      · rcases List.mem_append.mp hj with hj | hj
        · have := h1.jumpsIn j hj l hl
          omega
        · rw [List.mem_singleton] at hj
          subst hj
          rw [hi] at hl
          injection hl with hl
          omega
      · have := h2.jumpsIn j hj l hl
        omega
    · rw [List.mem_singleton] at hj
      subst hj
      cases hl
  · have m1 : jumpsMatchedCtx [] c1 = true := h1.matched
    have m2 : jumpsMatchedCtx [] c2 = true := h2.matched
    have e1 : jumpsMatchedCtx [] [BinInstr.LABEL (l1 + 1)] = true := rfl
    have e2 : labDefs [BinInstr.LABEL (l1 + 1)] = [l1 + 1] := rfl
    show jumpsMatchedCtx [] _ = true
    rw [jumpsMatchedCtx_append, e1, e2, Bool.and_true, List.append_nil,
        jumpsMatchedCtx_append,
        jumpsMatchedCtx_of_disjoint c2 [l1 + 1]
          (fun j hj l hl hm => by
            rw [List.mem_singleton] at hm
            subst hm
            have := (h2.jumpsIn j hj _ hl).1
            omega),
        m2, Bool.and_true,
        jumpsMatchedCtx_append, hldi, List.nil_append,
        jumpsMatchedCtx_of_disjoint c1 (labDefs c2 ++ [l1 + 1])
          (fun j hj l hl hm => by
            have hle := (h1.jumpsIn j hj _ hl).2
            rcases List.mem_append.mp hm with hm | hm
            · have := (h2.defsIn _ hm).1
              omega
            · rw [List.mem_singleton] at hm
              omega),
        m1, Bool.true_and, jumpsMatchedCtx_cons, jumpsMatchedCtx_nil, Bool.and_true]
    unfold jumpOK
    rw [hi]
    show (List.count (l1 + 1) (labDefs [] ++ (labDefs c2 ++ [l1 + 1])) == 1) = true
    rw [labDefs_nil, List.nil_append, List.count_append,
        count_labDefs_zero_of_le (fun l hl => (h2.defsIn l hl).1) (le_refl _)]
    simp

/-- The `Item`/`Slice` `BinLetTo` shape: the label is allocated before
the sub-lowerings, a plain instruction and a conditional jump to it sit
between the reads and the recursive assignment, and its `LABEL` closes
the buffer. -/
theorem Seg.preLabelWrap {lid la lb : Nat} {A B : List BinInstr}
    (hA : Seg (lid + 1) la A) (hB : Seg la lb B)
    (i j : BinInstr) (hli : labelOf i = none) (hji : jmpTarget i = none)
    (hlj : labelOf j = none) (hjj : jmpTarget j = some (lid + 1)) :
    Seg lid lb (A ++ [i, j] ++ B ++ [.LABEL (lid + 1)]) := by
  have hmA := hA.mono
  have hmB := hB.mono
  have hldij : labDefs [i, j] = [] := by
    rw [labDefs_cons i, hli, labDefs_cons j, hlj]
    rfl
  have hlds : labDefs (A ++ [i, j] ++ B ++ [.LABEL (lid + 1)])
      = labDefs A ++ labDefs B ++ [lid + 1] := by
    rw [labDefs_append, labDefs_append, labDefs_append, hldij, List.append_nil,
        labDefs_label_cons, labDefs_nil]
  constructor
  · omega
  · intro l hl
    rw [hlds] at hl
    rcases List.mem_append.mp hl with hl | hl
    · rcases List.mem_append.mp hl with hl | hl
      · have := hA.defsIn l hl
        omega
      · have := hB.defsIn l hl
        omega
    · rw [List.mem_singleton] at hl
      omega
  · rw [hlds]
    refine List.Nodup.append (List.Nodup.append hA.nodup hB.nodup ?_)
      (List.nodup_singleton _) ?_
    · intro l ha hb
      have := (hA.defsIn l ha).2
      have := (hB.defsIn l hb).1
      omega
    · intro l ha hb
      rw [List.mem_singleton] at hb
      subst hb
      rcases List.mem_append.mp ha with hl | hl
      · have := (hA.defsIn _ hl).1
        omega
      · have := (hB.defsIn _ hl).1
        omega
  · intro x hx l hl
    rcases List.mem_append.mp hx with hx | hx
    · rcases List.mem_append.mp hx with hx | hx
      · rcases List.mem_append.mp hx with hx | hx
        · have := hA.jumpsIn x hx l hl
          omega
        · rcases List.mem_cons.mp hx with rfl | hx
          · rw [hji] at hl
            cases hl
          · rw [List.mem_singleton] at hx
            subst hx
            rw [hjj] at hl
            injection hl with hl
            omega
      · have := hB.jumpsIn x hx l hl
        omega
    · rw [List.mem_singleton] at hx
      subst hx
      cases hl
  · have mA : jumpsMatchedCtx [] A = true := hA.matched
    have mB : jumpsMatchedCtx [] B = true := hB.matched
    have e1 : jumpsMatchedCtx [] [BinInstr.LABEL (lid + 1)] = true := rfl
    have e2 : labDefs [BinInstr.LABEL (lid + 1)] = [lid + 1] := rfl
    show jumpsMatchedCtx [] _ = true
    rw [jumpsMatchedCtx_append, e1, e2, Bool.and_true, List.append_nil,
        jumpsMatchedCtx_append,
        jumpsMatchedCtx_of_disjoint B [lid + 1]
          (fun x hx l hl hm => by
            rw [List.mem_singleton] at hm
            subst hm
            have := (hB.jumpsIn x hx _ hl).1
            omega),
        mB, Bool.and_true,
        jumpsMatchedCtx_append, hldij, List.nil_append,
        jumpsMatchedCtx_of_disjoint A (labDefs B ++ [lid + 1])
          (fun x hx l hl hm => by
            have hlo := (hA.jumpsIn x hx _ hl).1
            have hhi := (hA.jumpsIn x hx _ hl).2
            rcases List.mem_append.mp hm with hm | hm
            · have := (hB.defsIn _ hm).1
              omega
            · rw [List.mem_singleton] at hm
              omega),
        mA, Bool.true_and, jumpsMatchedCtx_cons, jumpsMatchedCtx_cons,
        jumpsMatchedCtx_nil, Bool.and_true,
        jumpOK_none _ _ hji, Bool.true_and]
    unfold jumpOK
    rw [hjj]
    show (List.count (lid + 1) (labDefs [] ++ (labDefs B ++ [lid + 1])) == 1) = true
    rw [labDefs_nil, List.nil_append, List.count_append,
        count_labDefs_zero_of_le (fun l hl => (hB.defsIn l hl).1) hmA]
    simp

/-- The `FuncExpr` shape: a header instruction, the start label, the
body, the end label (both labels allocated before the body). -/
theorem Seg.funcShape {lid l : Nat} {c : List BinInstr}
    (hc : Seg (lid + 2) l c) (i : BinInstr)
    (hli : labelOf i = none) (hji : jmpTarget i = none) :
    Seg lid l (i :: .LABEL (lid + 1) :: c ++ [.LABEL (lid + 2)]) := by
  have hm := hc.mono
  have hlds : labDefs (i :: .LABEL (lid + 1) :: c ++ [.LABEL (lid + 2)])
      = (lid + 1) :: labDefs c ++ [lid + 2] := by
    rw [labDefs_append, labDefs_cons i, hli,
        show Option.toList (none : Option Nat) = [] from rfl, labDefs_label_cons,
        show labDefs [BinInstr.LABEL (lid + 2)] = [lid + 2] from rfl, List.nil_append]
  constructor
  · omega
  · intro l2 hl
    rw [hlds] at hl
    rcases List.mem_append.mp hl with hl | hl
    · rcases List.mem_cons.mp hl with rfl | hl
      · omega
      · have := hc.defsIn l2 hl
        omega
    · rw [List.mem_singleton] at hl
      omega
  · rw [hlds]
    refine List.Nodup.append (List.nodup_cons.mpr ⟨?_, hc.nodup⟩)
      (List.nodup_singleton _) ?_
    · intro hm2
      have := (hc.defsIn _ hm2).1
      omega
    · intro x ha hb
      rw [List.mem_singleton] at hb
      subst hb
      rcases List.mem_cons.mp ha with h | h
      · omega
      · have := (hc.defsIn _ h).1
        omega
  · intro x hx t ht
    rcases List.mem_append.mp hx with hx | hx
    · rcases List.mem_cons.mp hx with rfl | hx
      · rw [hji] at ht
        cases ht
      · rcases List.mem_cons.mp hx with rfl | hx
        · cases ht
        · have := hc.jumpsIn x hx t ht
          omega
    · rw [List.mem_singleton] at hx
      subst hx
      cases ht
  · have mc : jumpsMatchedCtx [] c = true := hc.matched
    show jumpsMatchedCtx [] _ = true
    rw [jumpsMatchedCtx_append,
        show labDefs [BinInstr.LABEL (lid + 2)] = [lid + 2] from rfl,
        List.append_nil, jumpsMatchedCtx_cons, jumpOK_none _ _ hji, Bool.true_and,
        jumpsMatchedCtx_cons,
        jumpOK_none _ _ (show jmpTarget (BinInstr.LABEL (lid + 1)) = none from rfl),
        Bool.true_and,
        jumpsMatchedCtx_of_disjoint c [lid + 2]
          (fun x hx t ht hm2 => by
            rw [List.mem_singleton] at hm2
            subst hm2
            have := (hc.jumpsIn x hx _ ht).1
            omega),
        mc,
        show jumpsMatchedCtx [] [BinInstr.LABEL (lid + 2)] = true from rfl,
        Bool.and_self]

/-- The `TernaryOpExpr` shape: condition, `JFALSE` to the else label,
then branch, `JMP` to the end label, else label, else branch, end
label. -/
theorem Seg.ternaryShape {lid l0 l1 l2 : Nat} {c0 c1 c2 : List BinInstr}
    (h0 : Seg lid l0 c0) (h1 : Seg (l0 + 1) l1 c1) (h2 : Seg (l1 + 1) l2 c2)
    (reg : Nat) :
    Seg lid l2 (c0 ++ [.JFALSE reg (l0 + 1)] ++ c1
      ++ [.JMP (l1 + 1), .LABEL (l0 + 1)] ++ c2 ++ [.LABEL (l1 + 1)]) := by
  have hm0 := h0.mono
  have hm1 := h1.mono
  have hm2 := h2.mono
  have hlds : labDefs (c0 ++ [.JFALSE reg (l0 + 1)] ++ c1
      ++ [.JMP (l1 + 1), .LABEL (l0 + 1)] ++ c2 ++ [.LABEL (l1 + 1)])
      = labDefs c0 ++ labDefs c1 ++ [l0 + 1] ++ labDefs c2 ++ [l1 + 1] := by
    rw [labDefs_append, labDefs_append, labDefs_append, labDefs_append,
        labDefs_append,
        show labDefs [BinInstr.JFALSE reg (l0 + 1)] = [] from rfl,
        show labDefs [BinInstr.JMP (l1 + 1), BinInstr.LABEL (l0 + 1)] = [l0 + 1] from rfl,
        show labDefs [BinInstr.LABEL (l1 + 1)] = [l1 + 1] from rfl,
        List.append_nil]
  constructor
  · omega
  · intro t ht
    rw [hlds] at ht
    rcases List.mem_append.mp ht with ht | ht
    · rcases List.mem_append.mp ht with ht | ht
      · rcases List.mem_append.mp ht with ht | ht
        · rcases List.mem_append.mp ht with ht | ht
          · have := h0.defsIn t ht
            omega
          · have := h1.defsIn t ht
            omega
        · rw [List.mem_singleton] at ht
          omega
      · have := h2.defsIn t ht
        omega
    · rw [List.mem_singleton] at ht
      omega
  · rw [hlds]
    have d0 := fun t ht => h0.defsIn t ht
    have d1 := fun t ht => h1.defsIn t ht
    have d2 := fun t ht => h2.defsIn t ht
    refine List.Nodup.append (List.Nodup.append (List.Nodup.append
      (List.Nodup.append h0.nodup h1.nodup ?_) (List.nodup_singleton _) ?_)
      h2.nodup ?_) (List.nodup_singleton _) ?_
    · intro t ha hb
      have := (d0 t ha).2
      have := (d1 t hb).1
      omega
    · intro t ha hb
      rw [List.mem_singleton] at hb
      subst hb
      rcases List.mem_append.mp ha with ht | ht
      · have := (d0 _ ht).2
        omega
      · have := (d1 _ ht).1
        omega
    · intro t ha hb
      have hb2 := (d2 t hb).1
      rcases List.mem_append.mp ha with ht | ht
      · rcases List.mem_append.mp ht with ht | ht
        · have := (d0 t ht).2
          omega
        · have := (d1 t ht).2
          omega
      · rw [List.mem_singleton] at ht
        omega
    · intro t ha hb
      rw [List.mem_singleton] at hb
      subst hb
      rcases List.mem_append.mp ha with ht | ht
      · rcases List.mem_append.mp ht with ht | ht
        · rcases List.mem_append.mp ht with ht | ht
          · have := (d0 _ ht).2
            omega
          · have := (d1 _ ht).2
            omega
        · rw [List.mem_singleton] at ht
          omega
      · have := (d2 _ ht).1
        omega
  · intro x hx t ht
    rcases List.mem_append.mp hx with hx | hx
    · rcases List.mem_append.mp hx with hx | hx
      · rcases List.mem_append.mp hx with hx | hx
        · rcases List.mem_append.mp hx with hx | hx
          · rcases List.mem_append.mp hx with hx | hx
            · have := h0.jumpsIn x hx t ht
              omega
            · rw [List.mem_singleton] at hx
              subst hx
              injection ht with ht
              omega
          · have := h1.jumpsIn x hx t ht
            omega
        · rcases List.mem_cons.mp hx with rfl | hx
          · injection ht with ht
            omega
          · rw [List.mem_singleton] at hx
            subst hx
            cases ht
      · have := h2.jumpsIn x hx t ht
        omega
    · rw [List.mem_singleton] at hx
      subst hx
      cases ht
  · have m0 : jumpsMatchedCtx [] c0 = true := h0.matched
    have m1 : jumpsMatchedCtx [] c1 = true := h1.matched
    have m2 : jumpsMatchedCtx [] c2 = true := h2.matched
    have z2a : List.count (l0 + 1) (labDefs c2) = 0 :=
      count_labDefs_zero_of_le (fun t ht => (h2.defsIn t ht).1) (by omega)
    have z2b : List.count (l1 + 1) (labDefs c2) = 0 :=
      count_labDefs_zero_of_le (fun t ht => (h2.defsIn t ht).1) (le_refl _)
    have z1a : List.count (l0 + 1) (labDefs c1) = 0 :=
      count_labDefs_zero_of_le (fun t ht => (h1.defsIn t ht).1) (le_refl _)
    have hne : l0 + 1 ≠ l1 + 1 := by omega
    show jumpsMatchedCtx [] _ = true
    rw [jumpsMatchedCtx_append,
        show labDefs [BinInstr.LABEL (l1 + 1)] = [l1 + 1] from rfl,
        show jumpsMatchedCtx [] [BinInstr.LABEL (l1 + 1)] = true from rfl,
        Bool.and_true, List.append_nil,
        jumpsMatchedCtx_append,
        jumpsMatchedCtx_of_disjoint c2 [l1 + 1]
          (fun x hx t ht hm => by
            rw [List.mem_singleton] at hm
            subst hm
            have := (h2.jumpsIn x hx _ ht).1
            omega),
        m2, Bool.and_true,
        jumpsMatchedCtx_append,
        show labDefs [BinInstr.JMP (l1 + 1), BinInstr.LABEL (l0 + 1)] = [l0 + 1] from rfl]
    have hJchunk : jumpsMatchedCtx (labDefs c2 ++ [l1 + 1])
        [BinInstr.JMP (l1 + 1), BinInstr.LABEL (l0 + 1)] = true := by
      rw [jumpsMatchedCtx_cons, jumpsMatchedCtx_cons, jumpsMatchedCtx_nil,
          jumpOK_none _ _ (show jmpTarget (BinInstr.LABEL (l0 + 1)) = none from rfl),
          Bool.and_true, Bool.and_true]
      unfold jumpOK
      show (List.count (l1 + 1)
        (labDefs [BinInstr.LABEL (l0 + 1)] ++ (labDefs c2 ++ [l1 + 1])) == 1) = true
      rw [show labDefs [BinInstr.LABEL (l0 + 1)] = [l0 + 1] from rfl,
          List.count_append, List.count_append, z2b]
      simp [hne.symm]
    rw [hJchunk, Bool.and_true,
        jumpsMatchedCtx_append,
        jumpsMatchedCtx_of_disjoint c1 ([l0 + 1] ++ (labDefs c2 ++ [l1 + 1]))
          (fun x hx t ht hm => by
            have hb := h1.jumpsIn x hx t ht
            rcases List.mem_append.mp hm with hm | hm
            · rw [List.mem_singleton] at hm
              omega
            · rcases List.mem_append.mp hm with hm | hm
              · have := (h2.defsIn _ hm).1
                omega
              · rw [List.mem_singleton] at hm
                omega),
        m1, Bool.and_true,
        jumpsMatchedCtx_append,
        show labDefs [BinInstr.JFALSE reg (l0 + 1)] = [] from rfl,
        List.nil_append]
    have hJF : jumpsMatchedCtx (labDefs c1 ++ ([l0 + 1] ++ (labDefs c2 ++ [l1 + 1])))
        [BinInstr.JFALSE reg (l0 + 1)] = true := by
      rw [jumpsMatchedCtx_cons, jumpsMatchedCtx_nil, Bool.and_true]
      unfold jumpOK
      show (List.count (l0 + 1)
        (labDefs [] ++ (labDefs c1 ++ ([l0 + 1] ++ (labDefs c2 ++ [l1 + 1]))))
          == 1) = true
      rw [labDefs_nil, List.nil_append, List.count_append, List.count_append,
          List.count_append, z1a, z2a]
      simp [hne]
    rw [hJF, Bool.and_true,
        jumpsMatchedCtx_of_disjoint c0
          (labDefs c1 ++ ([l0 + 1] ++ (labDefs c2 ++ [l1 + 1])))
          (fun x hx t ht hm => by
            have hb := h0.jumpsIn x hx t ht
            rcases List.mem_append.mp hm with hm | hm
            · have := (h1.defsIn _ hm).1
              omega
            · rcases List.mem_append.mp hm with hm | hm
              · rw [List.mem_singleton] at hm
                omega
              · rcases List.mem_append.mp hm with hm | hm
                · have := (h2.defsIn _ hm).1
                  omega
                · rw [List.mem_singleton] at hm
                  omega),
        m0]

/-- The `ChanExpr` send/receive shape: rhs and lhs code, the runtime
kind dispatch with its two fresh labels, then the receive-assignment
via `BinLetTo` and the end label. -/
theorem Seg.chanShape {lid l1 l2 l3 : Nat} {cr cl clet : List BinInstr}
    (hr : Seg lid l1 cr) (hl : Seg l1 l2 cl) (hlet : Seg (l2 + 2) l3 clet)
    (reg : Nat) :
    Seg lid l3 (cr ++ cl
      ++ [.MV (reg + 2) (reg + 3), .ISKIND (reg + 3) reflectChan,
          .JFALSE (reg + 3) (l2 + 1), .CHANSEND (reg + 2) (reg + 1),
          .LOAD reg (.bool true) false, .JMP (l2 + 2),
          .LABEL (l2 + 1), .CHANRECV (reg + 1) reg]
      ++ clet ++ [.LABEL (l2 + 2)]) := by
  have hmr := hr.mono
  have hml := hl.mono
  have hmlet := hlet.mono
  have hlds : labDefs (cr ++ cl
      ++ [.MV (reg + 2) (reg + 3), .ISKIND (reg + 3) reflectChan,
          .JFALSE (reg + 3) (l2 + 1), .CHANSEND (reg + 2) (reg + 1),
          .LOAD reg (.bool true) false, .JMP (l2 + 2),
          .LABEL (l2 + 1), .CHANRECV (reg + 1) reg]
      ++ clet ++ [.LABEL (l2 + 2)])
      = labDefs cr ++ labDefs cl ++ [l2 + 1] ++ labDefs clet ++ [l2 + 2] := by
    rw [labDefs_append, labDefs_append, labDefs_append, labDefs_append,
        show labDefs [BinInstr.MV (reg + 2) (reg + 3),
          BinInstr.ISKIND (reg + 3) reflectChan,
          BinInstr.JFALSE (reg + 3) (l2 + 1), BinInstr.CHANSEND (reg + 2) (reg + 1),
          BinInstr.LOAD reg (.bool true) false, BinInstr.JMP (l2 + 2),
          BinInstr.LABEL (l2 + 1), BinInstr.CHANRECV (reg + 1) reg] = [l2 + 1] from rfl,
        show labDefs [BinInstr.LABEL (l2 + 2)] = [l2 + 2] from rfl]
  constructor
  · omega
  · intro t ht
    rw [hlds] at ht
    rcases List.mem_append.mp ht with ht | ht
    · rcases List.mem_append.mp ht with ht | ht
      · rcases List.mem_append.mp ht with ht | ht
        · rcases List.mem_append.mp ht with ht | ht
          · have := hr.defsIn t ht
            omega
          · have := hl.defsIn t ht
            omega
        · rw [List.mem_singleton] at ht
          omega
      · have := hlet.defsIn t ht
        omega
    · rw [List.mem_singleton] at ht
      omega
  · rw [hlds]
    refine List.Nodup.append (List.Nodup.append (List.Nodup.append
      (List.Nodup.append hr.nodup hl.nodup ?_) (List.nodup_singleton _) ?_)
      hlet.nodup ?_) (List.nodup_singleton _) ?_
    · intro t ha hb
      have := (hr.defsIn t ha).2
      have := (hl.defsIn t hb).1
      omega
    · intro t ha hb
      rw [List.mem_singleton] at hb
      subst hb
      rcases List.mem_append.mp ha with ht | ht
      · have := (hr.defsIn _ ht).2
        omega
      · have := (hl.defsIn _ ht).2
        omega
    · intro t ha hb
      have hb2 := (hlet.defsIn t hb).1
      rcases List.mem_append.mp ha with ht | ht
      · rcases List.mem_append.mp ht with ht | ht
        · have := (hr.defsIn t ht).2
          omega
        · have := (hl.defsIn t ht).2
          omega
      · rw [List.mem_singleton] at ht
        omega
    · intro t ha hb
      rw [List.mem_singleton] at hb
      subst hb
      rcases List.mem_append.mp ha with ht | ht
      · rcases List.mem_append.mp ht with ht | ht
        · rcases List.mem_append.mp ht with ht | ht
          · have := (hr.defsIn _ ht).2
            omega
          · have := (hl.defsIn _ ht).2
            omega
        · rw [List.mem_singleton] at ht
          omega
      · have := (hlet.defsIn _ ht).1
        omega
  · intro x hx t ht
    rcases List.mem_append.mp hx with hx | hx
    · rcases List.mem_append.mp hx with hx | hx
      · rcases List.mem_append.mp hx with hx | hx
        · rcases List.mem_append.mp hx with hx | hx
          · have := hr.jumpsIn x hx t ht
            omega
          · have := hl.jumpsIn x hx t ht
            omega
        · rcases List.mem_cons.mp hx with rfl | hx
          · cases ht
          · rcases List.mem_cons.mp hx with rfl | hx
            · cases ht
            · rcases List.mem_cons.mp hx with rfl | hx
              · injection ht with ht
                omega
              · rcases List.mem_cons.mp hx with rfl | hx
                · cases ht
                · rcases List.mem_cons.mp hx with rfl | hx
                  · cases ht
                  · rcases List.mem_cons.mp hx with rfl | hx
                    · injection ht with ht
                      omega
                    · rcases List.mem_cons.mp hx with rfl | hx
                      · cases ht
                      · rw [List.mem_singleton] at hx
                        subst hx
                        cases ht
      · have := hlet.jumpsIn x hx t ht
        omega
    · rw [List.mem_singleton] at hx
      subst hx
      cases ht
  · have mr : jumpsMatchedCtx [] cr = true := hr.matched
    have ml : jumpsMatchedCtx [] cl = true := hl.matched
    have mlet : jumpsMatchedCtx [] clet = true := hlet.matched
    have zlet1 : List.count (l2 + 1) (labDefs clet) = 0 :=
      count_labDefs_zero_of_le (fun t ht => (hlet.defsIn t ht).1) (by omega)
    have zlet2 : List.count (l2 + 2) (labDefs clet) = 0 :=
      count_labDefs_zero_of_le (fun t ht => (hlet.defsIn t ht).1) (le_refl _)
    have hne : l2 + 2 ≠ l2 + 1 := by omega
    show jumpsMatchedCtx [] _ = true
    rw [jumpsMatchedCtx_append,
        show labDefs [BinInstr.LABEL (l2 + 2)] = [l2 + 2] from rfl,
        show jumpsMatchedCtx [] [BinInstr.LABEL (l2 + 2)] = true from rfl,
        Bool.and_true, List.append_nil,
        jumpsMatchedCtx_append,
        jumpsMatchedCtx_of_disjoint clet [l2 + 2]
          (fun x hx t ht hm => by
            rw [List.mem_singleton] at hm
            subst hm
            have := (hlet.jumpsIn x hx _ ht).1
            omega),
        mlet, Bool.and_true,
        jumpsMatchedCtx_append,
        show labDefs [BinInstr.MV (reg + 2) (reg + 3),
          BinInstr.ISKIND (reg + 3) reflectChan,
          BinInstr.JFALSE (reg + 3) (l2 + 1), BinInstr.CHANSEND (reg + 2) (reg + 1),
          BinInstr.LOAD reg (.bool true) false, BinInstr.JMP (l2 + 2),
          BinInstr.LABEL (l2 + 1), BinInstr.CHANRECV (reg + 1) reg] = [l2 + 1] from rfl]
    have hJF : jumpOK (labDefs [BinInstr.CHANSEND (reg + 2) (reg + 1),
        BinInstr.LOAD reg (.bool true) false, BinInstr.JMP (l2 + 2),
        BinInstr.LABEL (l2 + 1), BinInstr.CHANRECV (reg + 1) reg]
        ++ (labDefs clet ++ [l2 + 2])) (BinInstr.JFALSE (reg + 3) (l2 + 1)) = true := by
      unfold jumpOK
      show (List.count (l2 + 1) (labDefs [BinInstr.CHANSEND (reg + 2) (reg + 1),
        BinInstr.LOAD reg (.bool true) false, BinInstr.JMP (l2 + 2),
        BinInstr.LABEL (l2 + 1), BinInstr.CHANRECV (reg + 1) reg]
        ++ (labDefs clet ++ [l2 + 2])) == 1) = true
      rw [show labDefs [BinInstr.CHANSEND (reg + 2) (reg + 1),
        BinInstr.LOAD reg (.bool true) false, BinInstr.JMP (l2 + 2),
        BinInstr.LABEL (l2 + 1), BinInstr.CHANRECV (reg + 1) reg] = [l2 + 1] from rfl,
          List.count_append, List.count_append, zlet1]
      simp [hne]
    have hJMP : jumpOK (labDefs [BinInstr.LABEL (l2 + 1), BinInstr.CHANRECV (reg + 1) reg]
        ++ (labDefs clet ++ [l2 + 2])) (BinInstr.JMP (l2 + 2)) = true := by
      unfold jumpOK
      show (List.count (l2 + 2)
        (labDefs [BinInstr.LABEL (l2 + 1), BinInstr.CHANRECV (reg + 1) reg]
          ++ (labDefs clet ++ [l2 + 2])) == 1) = true
      rw [show labDefs [BinInstr.LABEL (l2 + 1), BinInstr.CHANRECV (reg + 1) reg]
            = [l2 + 1] from rfl,
          List.count_append, List.count_append, zlet2]
      simp [hne.symm]
    have hCH : jumpsMatchedCtx (labDefs clet ++ [l2 + 2])
        [BinInstr.MV (reg + 2) (reg + 3), BinInstr.ISKIND (reg + 3) reflectChan,
         BinInstr.JFALSE (reg + 3) (l2 + 1), BinInstr.CHANSEND (reg + 2) (reg + 1),
         BinInstr.LOAD reg (.bool true) false, BinInstr.JMP (l2 + 2),
         BinInstr.LABEL (l2 + 1), BinInstr.CHANRECV (reg + 1) reg] = true := by
      rw [jumpsMatchedCtx_cons, jumpsMatchedCtx_cons, jumpsMatchedCtx_cons,
          jumpsMatchedCtx_cons, jumpsMatchedCtx_cons, jumpsMatchedCtx_cons,
          jumpsMatchedCtx_cons, jumpsMatchedCtx_cons, jumpsMatchedCtx_nil,
          jumpOK_none _ _ (show jmpTarget (BinInstr.MV (reg + 2) (reg + 3)) = none from rfl),
          jumpOK_none _ _
            (show jmpTarget (BinInstr.ISKIND (reg + 3) reflectChan) = none from rfl),
          jumpOK_none _ _
            (show jmpTarget (BinInstr.CHANSEND (reg + 2) (reg + 1)) = none from rfl),
          jumpOK_none _ _
            (show jmpTarget (BinInstr.LOAD reg (.bool true) false) = none from rfl),
          jumpOK_none _ _ (show jmpTarget (BinInstr.LABEL (l2 + 1)) = none from rfl),
          jumpOK_none _ _ (show jmpTarget (BinInstr.CHANRECV (reg + 1) reg) = none from rfl),
          hJF, hJMP]
      rfl
    rw [hCH, Bool.and_true,
        jumpsMatchedCtx_append,
        jumpsMatchedCtx_of_disjoint cl ([l2 + 1] ++ (labDefs clet ++ [l2 + 2]))
          (fun x hx t ht hm => by
            have hb := hl.jumpsIn x hx t ht
            rcases List.mem_append.mp hm with hm | hm
            · rw [List.mem_singleton] at hm
              omega
            · rcases List.mem_append.mp hm with hm | hm
              · have := (hlet.defsIn _ hm).1
                omega
              · rw [List.mem_singleton] at hm
                omega),
        ml, Bool.and_true,
        jumpsMatchedCtx_of_disjoint cr
          (labDefs cl ++ ([l2 + 1] ++ (labDefs clet ++ [l2 + 2])))
          (fun x hx t ht hm => by
            have hb := hr.jumpsIn x hx t ht
            rcases List.mem_append.mp hm with hm | hm
            · have := (hl.defsIn _ hm).1
              omega
            · rcases List.mem_append.mp hm with hm | hm
              · rw [List.mem_singleton] at hm
                omega
              · rcases List.mem_append.mp hm with hm | hm
                · have := (hlet.defsIn _ hm).1
                  omega
                · rw [List.mem_singleton] at hm
                  omega),
        mr]

theorem bindLow_ok_iff {m : Except LowerErr (List BinInstr × Nat)}
    {f : List BinInstr → Nat → Except LowerErr (List BinInstr × Nat)}
    {r : List BinInstr × Nat} :
    bindLow m f = .ok r ↔ ∃ c l, m = .ok (c, l) ∧ f c l = .ok r := by
  cases m with
  | error e =>
    rw [bindLow_error]
    constructor
    · intro h
      cases h
    · rintro ⟨c, l, he, h2⟩
      cases he
  | ok p =>
    cases p with
    | mk c l =>
      rw [bindLow_ok]
      constructor
      · intro h
        exact ⟨c, l, rfl, h⟩
      · rintro ⟨c2, l2, he, h2⟩
        simp only [Except.ok.injEq, Prod.mk.injEq] at he
        obtain ⟨rfl, rfl⟩ := he
        exact h2

theorem segSizePosE (e : Expr) : 0 < sizeOf e := by
  cases e <;> simp_arith

theorem segSizePosS (s : Stmt) : 0 < sizeOf s := by
  cases s <;> simp_arith

theorem segSizePosLE (es : List Expr) : 0 < sizeOf es := by
  cases es <;> simp_arith

theorem segSizePosLP (ps : List (String × Expr)) : 0 < sizeOf ps := by
  cases ps <;> simp_arith

theorem segSizePosLS (ss : List Stmt) : 0 < sizeOf ss := by
  cases ss <;> simp_arith

/-- A variant outside `Ident`/`Member`/`Item`/`Slice` has no
`BinLetTo`: the `.(CanLetExpr)` interface conversion panics. -/
theorem binLetTo_goPanic (t : Expr) (ht : t.isCanLet = false) (reg lid : Nat) :
    Expr.BinLetTo t reg lid = .error .goPanic := by
  cases t <;> first
    | rfl
    | simp [Expr.isCanLet] at ht

theorem binToSeg : ∀ k : Nat,
    (∀ e : Expr, sizeOf e ≤ k → ∀ reg lid inStmt code lid',
       Expr.BinTo e reg lid inStmt = .ok (code, lid') → Seg lid lid' code)
  ∧ (∀ t : Expr, sizeOf t ≤ k → ∀ reg lid code lid',
       Expr.BinLetTo t reg lid = .ok (code, lid') → Seg lid lid' code)
  ∧ (∀ es : List Expr, sizeOf es ≤ k → ∀ reg idx lid code lid',
       arrayItemsBinTo es reg idx lid = .ok (code, lid') → Seg lid lid' code)
  ∧ (∀ ps : List (String × Expr), sizeOf ps ≤ k → ∀ reg lid code lid',
       mapItemsBinTo ps reg lid = .ok (code, lid') → Seg lid lid' code)
  ∧ (∀ es : List Expr, sizeOf es ≤ k → ∀ argReg setReg so idx lid code lid',
       callArgsBinTo es argReg setReg so idx lid = .ok (code, lid') → Seg lid lid' code)
  ∧ (∀ es : List Expr, sizeOf es ≤ k → ∀ tmp lid code lid',
       letsRhssBinTo es tmp lid = .ok (code, lid') → Seg lid lid' code)
  ∧ (∀ es : List Expr, sizeOf es ≤ k → ∀ tmp lid code lid',
       letsLhssBinTo es tmp lid = .ok (code, lid') → Seg lid lid' code)
  ∧ (∀ s : Stmt, sizeOf s ≤ k → ∀ reg lid code lid',
       Stmt.BinTo s reg lid = .ok (code, lid') → Seg lid lid' code)
  ∧ (∀ ss : List Stmt, sizeOf ss ≤ k → ∀ reg lid code lid',
       stmtsBinTo ss reg lid = .ok (code, lid') → Seg lid lid' code) := by
  intro k
  induction k with
  | zero =>
    refine ⟨?_, ?_, ?_, ?_, ?_, ?_, ?_, ?_, ?_⟩ <;> intro x hx
    · exact absurd hx (by have := segSizePosE x; omega)
    · exact absurd hx (by have := segSizePosE x; omega)
    · exact absurd hx (by have := segSizePosLE x; omega)
    · exact absurd hx (by have := segSizePosLP x; omega)
    · exact absurd hx (by have := segSizePosLE x; omega)
    · exact absurd hx (by have := segSizePosLE x; omega)
    · exact absurd hx (by have := segSizePosLE x; omega)
    · exact absurd hx (by have := segSizePosS x; omega)
    · exact absurd hx (by have := segSizePosLS x; omega)
  | succ k ih =>
    obtain ⟨ihE, ihLet, ihArr, ihMap, ihCall, ihRhss, ihLhss, ihStmt, ihStmts⟩ := ih
    refine ⟨?_, ?_, ?_, ?_, ?_, ?_, ?_, ?_, ?_⟩
    · -- Expr.BinTo
      intro e hsz reg lid inStmt code lid' h
      cases e with
      | noneE =>
        rw [eqBinTo_noneE] at h
        simp only [Except.ok.injEq, Prod.mk.injEq] at h
        obtain ⟨rfl, rfl⟩ := h
        exact Seg.one _ _ rfl rfl
      | number lit =>
        rw [eqBinTo_number] at h
        simp only [Except.ok.injEq, Prod.mk.injEq] at h
        obtain ⟨rfl, rfl⟩ := h
        exact Seg.two _ _ _ rfl rfl rfl rfl
      | string lit =>
        rw [eqBinTo_string] at h
        simp only [Except.ok.injEq, Prod.mk.injEq] at h
        obtain ⟨rfl, rfl⟩ := h
        exact Seg.one _ _ rfl rfl
      | array es =>
        rw [eqBinTo_array] at h
        obtain ⟨c, l, h1, h⟩ := bindLow_ok_iff.mp h
        simp only [Except.ok.injEq, Prod.mk.injEq] at h
        obtain ⟨rfl, rfl⟩ := h
        exact Seg.append (Seg.one _ (.MAKESLICE reg es.length es.length) rfl rfl)
          (ihArr es (by simp at hsz; omega) reg 0 lid c l h1)
      | pair key v =>
        rw [eqBinTo_pair] at h
        simp only [Except.ok.injEq, Prod.mk.injEq] at h
        obtain ⟨rfl, rfl⟩ := h
        exact Seg.plain _ [] rfl (by intro i hi; cases hi)
      | mapE entries =>
        rw [eqBinTo_mapE] at h
        obtain ⟨c, l, h1, h⟩ := bindLow_ok_iff.mp h
        simp only [Except.ok.injEq, Prod.mk.injEq] at h
        obtain ⟨rfl, rfl⟩ := h
        exact Seg.append (Seg.one _ (.MAKEMAP reg entries.length) rfl rfl)
          (ihMap entries (by simp at hsz; omega) reg lid c l h1)
      | ident lit id =>
        rw [eqBinTo_ident] at h
        simp only [Except.ok.injEq, Prod.mk.injEq] at h
        obtain ⟨rfl, rfl⟩ := h
        exact Seg.one _ _ rfl rfl
      | unary op e1 =>
        rw [eqBinTo_unary] at h
        obtain ⟨c, l, h1, h⟩ := bindLow_ok_iff.mp h
        rcases hop : op.data with _ | ⟨ch, cs⟩
        · have hu : unaryInstr op reg c l = Except.error .goPanic := by
            unfold unaryInstr
            rw [hop]
          rw [hu] at h
          exact Except.noConfusion h
        · have hu : unaryInstr op reg c l = .ok (c ++ [.UNARY reg ch], l) := by
            unfold unaryInstr
            rw [hop]
          rw [hu] at h
          simp only [Except.ok.injEq, Prod.mk.injEq] at h
          obtain ⟨rfl, rfl⟩ := h
          exact Seg.append (ihE e1 (by simp at hsz; omega) reg lid false c l h1)
            (Seg.one _ _ rfl rfl)
      | addr e1 =>
        cases e1 with
        | ident lit id =>
          rw [eqBinTo_addr_ident] at h
          simp only [Except.ok.injEq, Prod.mk.injEq] at h
          obtain ⟨rfl, rfl⟩ := h
          exact Seg.one _ _ rfl rfl
        | member me nm =>
          rw [eqBinTo_addr_member] at h
          obtain ⟨c, l, h1, h⟩ := bindLow_ok_iff.mp h
          simp only [Except.ok.injEq, Prod.mk.injEq] at h
          obtain ⟨rfl, rfl⟩ := h
          exact Seg.append (ihE me (by simp at hsz; omega) reg lid false c l h1)
            (Seg.one _ _ rfl rfl)
        | _ =>
          rw [eqBinTo_addr_other _ _ _ _ (by rintro _ _ ⟨⟩) (by rintro _ _ ⟨⟩)] at h
          exact Except.noConfusion h
      | deref e1 =>
        cases e1 with
        | ident lit id =>
          rw [eqBinTo_deref_ident] at h
          simp only [Except.ok.injEq, Prod.mk.injEq] at h
          obtain ⟨rfl, rfl⟩ := h
          exact Seg.one _ _ rfl rfl
        | member me nm =>
          rw [eqBinTo_deref_member] at h
          obtain ⟨c, l, h1, h⟩ := bindLow_ok_iff.mp h
          simp only [Except.ok.injEq, Prod.mk.injEq] at h
          obtain ⟨rfl, rfl⟩ := h
          exact Seg.append (ihE me (by simp at hsz; omega) reg lid false c l h1)
            (Seg.one _ _ rfl rfl)
        | _ =>
          rw [eqBinTo_deref_other _ _ _ _ (by rintro _ _ ⟨⟩) (by rintro _ _ ⟨⟩)] at h
          exact Except.noConfusion h
      | paren s =>
        rw [eqBinTo_paren] at h
        exact ihE s (by simp at hsz; omega) reg lid false code lid' h
      | binOp lhss op rhss =>
        by_cases hs : ∃ l r, lhss = [l] ∧ rhss = [r]
        · obtain ⟨l, r, rfl, rfl⟩ := hs
          rw [eqBinTo_binOp_single] at h
          by_cases hbo : inStmt = true ∧ operMap op = Oper.EQL
          · obtain ⟨hb, hoe⟩ := hbo
            subst hb
            rw [hoe, lowSel_eql] at h
            obtain ⟨c1, l1, hA, h⟩ := bindLow_ok_iff.mp h
            obtain ⟨c2, l2, hB, h⟩ := bindLow_ok_iff.mp h
            simp only [Except.ok.injEq, Prod.mk.injEq] at h
            obtain ⟨rfl, rfl⟩ := h
            exact Seg.append (ihRhss [r] (by simp at hsz ⊢; omega) (reg + 1) lid c1 l1 hA)
              (ihLhss [l] (by simp at hsz ⊢; omega) (reg + 1) l1 c2 l2 hB)
          · rw [lowSel_not _ _ _ _ hbo] at h
            obtain ⟨c1, l1, hL, h⟩ := bindLow_ok_iff.mp h
            by_cases ho1 : operMap op = Oper.LOR
            · rw [ho1, operSel_or] at h
              obtain ⟨c2, l2, hR, h⟩ := bindLow_ok_iff.mp h
              simp only [Except.ok.injEq, Prod.mk.injEq] at h
              obtain ⟨rfl, rfl⟩ := h
              exact Seg.jumpWrap (ihE l (by simp at hsz; omega) reg lid false c1 l1 hL)
                (ihE r (by simp at hsz; omega) reg (l1 + 1) false c2 l2 hR) _ rfl rfl
            · by_cases ho2 : operMap op = Oper.LAND
              · rw [ho2, operSel_and] at h
                obtain ⟨c2, l2, hR, h⟩ := bindLow_ok_iff.mp h
                simp only [Except.ok.injEq, Prod.mk.injEq] at h
                obtain ⟨rfl, rfl⟩ := h
                exact Seg.jumpWrap (ihE l (by simp at hsz; omega) reg lid false c1 l1 hL)
                  (ihE r (by simp at hsz; omega) reg (l1 + 1) false c2 l2 hR) _ rfl rfl
              · rw [operSel_def _ _ _ _ ho1 ho2] at h
                obtain ⟨c2, l2, hR, h⟩ := bindLow_ok_iff.mp h
                simp only [Except.ok.injEq, Prod.mk.injEq] at h
                obtain ⟨rfl, rfl⟩ := h
                exact Seg.append (Seg.append
                  (ihE l (by simp at hsz; omega) reg lid false c1 l1 hL)
                  (ihE r (by simp at hsz; omega) (reg + 1) l1 false c2 l2 hR))
                  (Seg.one _ _ rfl rfl)
        · rw [eqBinTo_binOp_multi _ _ _ _ _ _ hs] at h
          by_cases hbo : inStmt = true ∧ operMap op = Oper.EQL
          · obtain ⟨hb, hoe⟩ := hbo
            subst hb
            rw [hoe, lowSel_eql] at h
            obtain ⟨c1, l1, hA, h⟩ := bindLow_ok_iff.mp h
            obtain ⟨c2, l2, hB, h⟩ := bindLow_ok_iff.mp h
            simp only [Except.ok.injEq, Prod.mk.injEq] at h
            obtain ⟨rfl, rfl⟩ := h
            exact Seg.append (ihRhss rhss (by simp at hsz; omega) (reg + 1) lid c1 l1 hA)
              (ihLhss lhss (by simp at hsz; omega) (reg + 1) l1 c2 l2 hB)
          · rw [lowSel_not _ _ _ _ hbo] at h
            exact Except.noConfusion h
      | ternary cnd lhs rhs =>
        rw [eqBinTo_ternary] at h
        obtain ⟨c0, l0, h0, h⟩ := bindLow_ok_iff.mp h
        obtain ⟨c1, l1, h1, h⟩ := bindLow_ok_iff.mp h
        obtain ⟨c2, l2, h2, h⟩ := bindLow_ok_iff.mp h
        simp only [Except.ok.injEq, Prod.mk.injEq] at h
        obtain ⟨rfl, rfl⟩ := h
        exact Seg.ternaryShape (ihE cnd (by simp at hsz; omega) reg lid false c0 l0 h0)
          (ihE lhs (by simp at hsz; omega) reg (l0 + 1) false c1 l1 h1)
          (ihE rhs (by simp at hsz; omega) reg (l1 + 1) false c2 l2 h2) reg
      | call nm args va g =>
        rw [eqBinTo_call] at h
        obtain ⟨c, l, h1, h⟩ := bindLow_ok_iff.mp h
        simp only [Except.ok.injEq, Prod.mk.injEq] at h
        obtain ⟨rfl, rfl⟩ := h
        exact Seg.append (Seg.append (Seg.makeSlice _ _ _ _)
          (ihCall args (by simp at hsz; omega) _ _ _ 0 lid c l h1))
          (Seg.one _ (.CALL nm args.length reg reg va g) rfl rfl)
      | anonCall f args va g =>
        rw [eqBinTo_anonCall] at h
        obtain ⟨c0, l0, h0, h⟩ := bindLow_ok_iff.mp h
        obtain ⟨c, l, h1, h⟩ := bindLow_ok_iff.mp h
        simp only [Except.ok.injEq, Prod.mk.injEq] at h
        obtain ⟨rfl, rfl⟩ := h
        exact Seg.append (ihE f (by simp at hsz; omega) reg lid false c0 l0 h0)
          (Seg.append (Seg.append (Seg.makeSlice _ _ _ _)
            (ihCall args (by simp at hsz; omega) _ _ _ 0 l0 c l h1))
            (Seg.one _ (.CALL 0 args.length reg reg va g) rfl rfl))
      | member e1 nm =>
        rw [eqBinTo_member] at h
        obtain ⟨c, l, h1, h⟩ := bindLow_ok_iff.mp h
        simp only [Except.ok.injEq, Prod.mk.injEq] at h
        obtain ⟨rfl, rfl⟩ := h
        exact Seg.append (ihE e1 (by simp at hsz; omega) reg lid false c l h1)
          (Seg.one _ _ rfl rfl)
      | item v i =>
        rw [eqBinTo_item] at h
        obtain ⟨cv, l1, h1, h⟩ := bindLow_ok_iff.mp h
        obtain ⟨ci, l2, h2, h⟩ := bindLow_ok_iff.mp h
        simp only [Except.ok.injEq, Prod.mk.injEq] at h
        obtain ⟨rfl, rfl⟩ := h
        exact Seg.append (Seg.append (ihE v (by simp at hsz; omega) reg lid false cv l1 h1)
          (ihE i (by simp at hsz; omega) (reg + 1) l1 false ci l2 h2))
          (Seg.one _ _ rfl rfl)
      | slice v b e1 =>
        rw [eqBinTo_slice] at h
        obtain ⟨cv, l1, h1, h⟩ := bindLow_ok_iff.mp h
        obtain ⟨cb, l2, h2, h⟩ := bindLow_ok_iff.mp h
        obtain ⟨ce, l3, h3, h⟩ := bindLow_ok_iff.mp h
        simp only [Except.ok.injEq, Prod.mk.injEq] at h
        obtain ⟨rfl, rfl⟩ := h
        exact Seg.append (Seg.append (Seg.append
          (ihE v (by simp at hsz; omega) reg lid false cv l1 h1)
          (ihE b (by simp at hsz; omega) (reg + 1) l1 false cb l2 h2))
          (ihE e1 (by simp at hsz; omega) (reg + 2) l2 false ce l3 h3))
          (Seg.one _ _ rfl rfl)
      | func nm ss args va =>
        rw [eqBinTo_func] at h
        obtain ⟨c, l, h1, h⟩ := bindLow_ok_iff.mp h
        simp only [Except.ok.injEq, Prod.mk.injEq] at h
        obtain ⟨rfl, rfl⟩ := h
        exact Seg.funcShape (ihStmts ss (by simp at hsz; omega) reg (lid + 2) c l h1)
          _ rfl rfl
      | letE lhs rhs =>
        rw [eqBinTo_letE] at h
        obtain ⟨c1, l1, h1, h⟩ := bindLow_ok_iff.mp h
        obtain ⟨c2, l2, h2, h⟩ := bindLow_ok_iff.mp h
        simp only [Except.ok.injEq, Prod.mk.injEq] at h
        obtain ⟨rfl, rfl⟩ := h
        exact Seg.append (ihE rhs (by simp at hsz; omega) reg lid false c1 l1 h1)
          (ihLet lhs (by simp at hsz; omega) reg l1 c2 l2 h2)
      | assoc lhs op rhs =>
        cases rhs with
        | none =>
          rw [eqBinTo_assoc_none] at h
          cases hk : assocKind op with
          | incr =>
            rw [hk, assocSel_incr] at h
            obtain ⟨c1, l1, h1, h⟩ := bindLow_ok_iff.mp h
            obtain ⟨c2, l2, h2, h⟩ := bindLow_ok_iff.mp h
            simp only [Except.ok.injEq, Prod.mk.injEq] at h
            obtain ⟨rfl, rfl⟩ := h
            exact Seg.append (Seg.append
              (ihE lhs (by simp at hsz; omega) reg lid false c1 l1 h1)
              (Seg.two _ _ _ rfl rfl rfl rfl))
              (ihLet lhs (by simp at hsz; omega) reg l1 c2 l2 h2)
          | decr =>
            rw [hk, assocSel_decr] at h
            obtain ⟨c1, l1, h1, h⟩ := bindLow_ok_iff.mp h
            obtain ⟨c2, l2, h2, h⟩ := bindLow_ok_iff.mp h
            simp only [Except.ok.injEq, Prod.mk.injEq] at h
            obtain ⟨rfl, rfl⟩ := h
            exact Seg.append (Seg.append
              (ihE lhs (by simp at hsz; omega) reg lid false c1 l1 h1)
              (Seg.two _ _ _ rfl rfl rfl rfl))
              (ihLet lhs (by simp at hsz; omega) reg l1 c2 l2 h2)
          | compound =>
            rw [hk, assocSel_compound] at h
            exact Except.noConfusion h
        | some r =>
          rw [eqBinTo_assoc_some] at h
          cases hk : assocKind op with
          | incr =>
            rw [hk, assocSel_incr] at h
            obtain ⟨c1, l1, h1, h⟩ := bindLow_ok_iff.mp h
            obtain ⟨c2, l2, h2, h⟩ := bindLow_ok_iff.mp h
            simp only [Except.ok.injEq, Prod.mk.injEq] at h
            obtain ⟨rfl, rfl⟩ := h
            exact Seg.append (Seg.append
              (ihE lhs (by simp at hsz; omega) reg lid false c1 l1 h1)
              (Seg.two _ _ _ rfl rfl rfl rfl))
              (ihLet lhs (by simp at hsz; omega) reg l1 c2 l2 h2)
          | decr =>
            rw [hk, assocSel_decr] at h
            obtain ⟨c1, l1, h1, h⟩ := bindLow_ok_iff.mp h
            obtain ⟨c2, l2, h2, h⟩ := bindLow_ok_iff.mp h
            simp only [Except.ok.injEq, Prod.mk.injEq] at h
            obtain ⟨rfl, rfl⟩ := h
            exact Seg.append (Seg.append
              (ihE lhs (by simp at hsz; omega) reg lid false c1 l1 h1)
              (Seg.two _ _ _ rfl rfl rfl rfl))
              (ihLet lhs (by simp at hsz; omega) reg l1 c2 l2 h2)
          | compound =>
            rw [hk, assocSel_compound] at h
            obtain ⟨c1, l1, h1, h⟩ := bindLow_ok_iff.mp h
            obtain ⟨c2, l2, h2, h⟩ := bindLow_ok_iff.mp h
            obtain ⟨c3, l3, h3, h⟩ := bindLow_ok_iff.mp h
            simp only [Except.ok.injEq, Prod.mk.injEq] at h
            obtain ⟨rfl, rfl⟩ := h
            exact Seg.append (Seg.append (Seg.append
              (ihE lhs (by simp at hsz; omega) reg lid false c1 l1 h1)
              (ihE r (by simp at hsz; omega) (reg + 1) l1 false c2 l2 h2))
              (Seg.one _ _ rfl rfl))
              (ihLet lhs (by simp at hsz; omega) reg l2 c3 l3 h3)
      | constE s =>
        rw [eqBinTo_constE] at h
        simp only [Except.ok.injEq, Prod.mk.injEq] at h
        obtain ⟨rfl, rfl⟩ := h
        exact Seg.one _ _ rfl rfl
      | chan lhs rhs =>
        cases lhs with
        | none =>
          rw [eqBinTo_chan_none] at h
          obtain ⟨cr, l1, h1, h⟩ := bindLow_ok_iff.mp h
          simp only [Except.ok.injEq, Prod.mk.injEq] at h
          obtain ⟨rfl, rfl⟩ := h
          exact Seg.append (ihE rhs (by simp at hsz; omega) (reg + 1) lid false cr l1 h1)
            (Seg.one _ _ rfl rfl)
        | some le =>
          rw [eqBinTo_chan_some] at h
          obtain ⟨cr, l1, h1, h⟩ := bindLow_ok_iff.mp h
          obtain ⟨cl, l2, h2, h⟩ := bindLow_ok_iff.mp h
          obtain ⟨clet, l3, h3, h⟩ := bindLow_ok_iff.mp h
          simp only [Except.ok.injEq, Prod.mk.injEq] at h
          obtain ⟨rfl, rfl⟩ := h
          exact Seg.chanShape (ihE rhs (by simp at hsz; omega) (reg + 1) lid false cr l1 h1)
            (ihE le (by simp at hsz; omega) (reg + 2) l1 false cl l2 h2)
            (ihLet le (by simp at hsz; omega) reg (l2 + 2) clet l3 h3) reg
      | typeCast t te ce =>
        cases te with
        | none =>
          rw [eqBinTo_typeCast_none] at h
          obtain ⟨cc, l1, h1, h⟩ := bindLow_ok_iff.mp h
          simp only [Except.ok.injEq, Prod.mk.injEq] at h
          obtain ⟨rfl, rfl⟩ := h
          exact Seg.append (ihE ce (by simp at hsz; omega) reg lid false cc l1 h1)
            (Seg.two _ _ _ rfl rfl rfl rfl)
        | some tex =>
          rw [eqBinTo_typeCast_some] at h
          obtain ⟨cc, l1, h1, h⟩ := bindLow_ok_iff.mp h
          obtain ⟨ct, l2, h2, h⟩ := bindLow_ok_iff.mp h
          simp only [Except.ok.injEq, Prod.mk.injEq] at h
          obtain ⟨rfl, rfl⟩ := h
          exact Seg.append (Seg.append
            (ihE ce (by simp at hsz; omega) reg lid false cc l1 h1)
            (ihE tex (by simp at hsz; omega) (reg + 1) l1 false ct l2 h2))
            (Seg.two _ _ _ rfl rfl rfl rfl)
      | makeE t te =>
        cases te with
        | none =>
          rw [eqBinTo_makeE_none] at h
          simp only [Except.ok.injEq, Prod.mk.injEq] at h
          obtain ⟨rfl, rfl⟩ := h
          exact Seg.two _ _ _ rfl rfl rfl rfl
        | some tex =>
          rw [eqBinTo_makeE_some] at h
          obtain ⟨ct, l, h1, h⟩ := bindLow_ok_iff.mp h
          simp only [Except.ok.injEq, Prod.mk.injEq] at h
          obtain ⟨rfl, rfl⟩ := h
          exact Seg.append (ihE tex (by simp at hsz; omega) reg lid false ct l h1)
            (Seg.two _ _ _ rfl rfl rfl rfl)
      | makeChan se =>
        cases se with
        | none =>
          rw [eqBinTo_makeChan_none] at h
          simp only [Except.ok.injEq, Prod.mk.injEq] at h
          obtain ⟨rfl, rfl⟩ := h
          exact Seg.two _ _ _ rfl rfl rfl rfl
        | some sz =>
          rw [eqBinTo_makeChan_some] at h
          obtain ⟨c, l, h1, h⟩ := bindLow_ok_iff.mp h
          simp only [Except.ok.injEq, Prod.mk.injEq] at h
          obtain ⟨rfl, rfl⟩ := h
          exact Seg.append (ihE sz (by simp at hsz; omega) reg lid false c l h1)
            (Seg.one _ _ rfl rfl)
      | makeArray le ce =>
        cases ce with
        | none =>
          rw [eqBinTo_makeArray_none] at h
          obtain ⟨c1, l1, h1, h⟩ := bindLow_ok_iff.mp h
          simp only [Except.ok.injEq, Prod.mk.injEq] at h
          obtain ⟨rfl, rfl⟩ := h
          exact Seg.append (ihE le (by simp at hsz; omega) reg lid false c1 l1 h1)
            (Seg.two _ _ _ rfl rfl rfl rfl)
        | some cap =>
          rw [eqBinTo_makeArray_some] at h
          obtain ⟨c1, l1, h1, h⟩ := bindLow_ok_iff.mp h
          obtain ⟨c2, l2, h2, h⟩ := bindLow_ok_iff.mp h
          simp only [Except.ok.injEq, Prod.mk.injEq] at h
          obtain ⟨rfl, rfl⟩ := h
          exact Seg.append (Seg.append
            (ihE le (by simp at hsz; omega) reg lid false c1 l1 h1)
            (ihE cap (by simp at hsz; omega) (reg + 1) l1 false c2 l2 h2))
            (Seg.one _ _ rfl rfl)
      | native v =>
        rw [eqBinTo_native] at h
        simp only [Except.ok.injEq, Prod.mk.injEq] at h
        obtain ⟨rfl, rfl⟩ := h
        exact Seg.one _ _ rfl rfl
    · -- Expr.BinLetTo
      intro t hsz reg lid code lid' h
      cases t with
      | ident lit id =>
        rw [eqBinLetTo_ident] at h
        simp only [Except.ok.injEq, Prod.mk.injEq] at h
        obtain ⟨rfl, rfl⟩ := h
        exact Seg.one _ _ rfl rfl
      | member e1 nm =>
        rw [eqBinLetTo_member] at h
        obtain ⟨c, l, h1, h⟩ := bindLow_ok_iff.mp h
        simp only [Except.ok.injEq, Prod.mk.injEq] at h
        obtain ⟨rfl, rfl⟩ := h
        exact Seg.append (ihE e1 (by simp at hsz; omega) (reg + 1) lid false c l h1)
          (Seg.one _ _ rfl rfl)
      | item v i =>
        rw [eqBinLetTo_item] at h
        obtain ⟨cv, l1, h1, h⟩ := bindLow_ok_iff.mp h
        obtain ⟨ci, l2, h2, h⟩ := bindLow_ok_iff.mp h
        obtain ⟨cl, l3, h3, h⟩ := bindLow_ok_iff.mp h
        simp only [Except.ok.injEq, Prod.mk.injEq] at h
        obtain ⟨rfl, rfl⟩ := h
        exact Seg.preLabelWrap
          (Seg.append (ihE v (by simp at hsz; omega) (reg + 1) (lid + 1) false cv l1 h1)
            (ihE i (by simp at hsz; omega) (reg + 2) l1 false ci l2 h2))
          (ihLet v (by simp at hsz; omega) (reg + 1) l2 cl l3 h3)
          (.SETITEM (reg + 1) (reg + 2) reg (reg + 3)) (.JFALSE (reg + 3) (lid + 1))
          rfl rfl rfl rfl
      | slice v b e1 =>
        rw [eqBinLetTo_slice] at h
        obtain ⟨cv, l1, h1, h⟩ := bindLow_ok_iff.mp h
        obtain ⟨cb, l2, h2, h⟩ := bindLow_ok_iff.mp h
        obtain ⟨ce, l3, h3, h⟩ := bindLow_ok_iff.mp h
        obtain ⟨cl, l4, h4, h⟩ := bindLow_ok_iff.mp h
        simp only [Except.ok.injEq, Prod.mk.injEq] at h
        obtain ⟨rfl, rfl⟩ := h
        exact Seg.preLabelWrap
          (Seg.append (Seg.append
            (ihE v (by simp at hsz; omega) (reg + 1) (lid + 1) false cv l1 h1)
            (ihE b (by simp at hsz; omega) (reg + 2) l1 false cb l2 h2))
            (ihE e1 (by simp at hsz; omega) (reg + 3) l2 false ce l3 h3))
          (ihLet v (by simp at hsz; omega) (reg + 1) l3 cl l4 h4)
          (.SETSLICE (reg + 1) (reg + 2) (reg + 3) reg (reg + 4))
          (.JFALSE (reg + 4) (lid + 1))
          rfl rfl rfl rfl
      | noneE =>
        rw [binLetTo_goPanic (.noneE) rfl] at h
        exact Except.noConfusion h
      | number lit =>
        rw [binLetTo_goPanic (.number lit) rfl] at h
        exact Except.noConfusion h
      | string lit =>
        rw [binLetTo_goPanic (.string lit) rfl] at h
        exact Except.noConfusion h
      | array es =>
        rw [binLetTo_goPanic (.array es) rfl] at h
        exact Except.noConfusion h
      | pair key v =>
        rw [binLetTo_goPanic (.pair key v) rfl] at h
        exact Except.noConfusion h
      | mapE entries =>
        rw [binLetTo_goPanic (.mapE entries) rfl] at h
        exact Except.noConfusion h
      | unary op e1 =>
        rw [binLetTo_goPanic (.unary op e1) rfl] at h
        exact Except.noConfusion h
      | addr e1 =>
        rw [binLetTo_goPanic (.addr e1) rfl] at h
        exact Except.noConfusion h
      | deref e1 =>
        rw [binLetTo_goPanic (.deref e1) rfl] at h
        exact Except.noConfusion h
      | paren s =>
        rw [binLetTo_goPanic (.paren s) rfl] at h
        exact Except.noConfusion h
      | binOp lhss op rhss =>
        rw [binLetTo_goPanic (.binOp lhss op rhss) rfl] at h
        exact Except.noConfusion h
      | ternary cnd tl tr =>
        rw [binLetTo_goPanic (.ternary cnd tl tr) rfl] at h
        exact Except.noConfusion h
      | call nm args va g =>
        rw [binLetTo_goPanic (.call nm args va g) rfl] at h
        exact Except.noConfusion h
      | anonCall f args va g =>
        rw [binLetTo_goPanic (.anonCall f args va g) rfl] at h
        exact Except.noConfusion h
      | func nm ss args va =>
        rw [binLetTo_goPanic (.func nm ss args va) rfl] at h
        exact Except.noConfusion h
      | letE lhs rhs =>
        rw [binLetTo_goPanic (.letE lhs rhs) rfl] at h
        exact Except.noConfusion h
      | assoc lhs op rhs =>
        rw [binLetTo_goPanic (.assoc lhs op rhs) rfl] at h
        exact Except.noConfusion h
      | constE s =>
        rw [binLetTo_goPanic (.constE s) rfl] at h
        exact Except.noConfusion h
      | chan clhs crhs =>
        rw [binLetTo_goPanic (.chan clhs crhs) rfl] at h
        exact Except.noConfusion h
      | typeCast ty te ce =>
        rw [binLetTo_goPanic (.typeCast ty te ce) rfl] at h
        exact Except.noConfusion h
      | makeE ty te =>
        rw [binLetTo_goPanic (.makeE ty te) rfl] at h
        exact Except.noConfusion h
      | makeChan se =>
        rw [binLetTo_goPanic (.makeChan se) rfl] at h
        exact Except.noConfusion h
      | makeArray le ce =>
        rw [binLetTo_goPanic (.makeArray le ce) rfl] at h
        exact Except.noConfusion h
      | native v =>
        rw [binLetTo_goPanic (.native v) rfl] at h
        exact Except.noConfusion h
    · -- arrayItemsBinTo
      intro es hsz reg idx lid code lid' h
      cases es with
      | nil =>
        rw [eqArrayItems_nil] at h
        simp only [Except.ok.injEq, Prod.mk.injEq] at h
        obtain ⟨rfl, rfl⟩ := h
        exact Seg.plain _ [] rfl (by intro i hi; cases hi)
      | cons e rest =>
        rw [eqArrayItems_cons] at h
        obtain ⟨c, l1, h1, h⟩ := bindLow_ok_iff.mp h
        obtain ⟨cs, l2, h2, h⟩ := bindLow_ok_iff.mp h
        simp only [Except.ok.injEq, Prod.mk.injEq] at h
        obtain ⟨rfl, rfl⟩ := h
        exact Seg.append (Seg.append
          (ihE e (by simp at hsz; omega) (reg + 1) lid false c l1 h1)
          (Seg.one _ (.SETIDX reg idx (reg + 1)) rfl rfl))
          (ihArr rest (by simp at hsz; omega) reg (idx + 1) l1 cs l2 h2)
    · -- mapItemsBinTo
      intro ps hsz reg lid code lid' h
      cases ps with
      | nil =>
        rw [eqMapItems_nil] at h
        simp only [Except.ok.injEq, Prod.mk.injEq] at h
        obtain ⟨rfl, rfl⟩ := h
        exact Seg.plain _ [] rfl (by intro i hi; cases hi)
      | cons p rest =>
        obtain ⟨ky, e⟩ := p
        rw [eqMapItems_cons] at h
        obtain ⟨c, l1, h1, h⟩ := bindLow_ok_iff.mp h
        obtain ⟨cs, l2, h2, h⟩ := bindLow_ok_iff.mp h
        simp only [Except.ok.injEq, Prod.mk.injEq] at h
        obtain ⟨rfl, rfl⟩ := h
        exact Seg.append (Seg.append
          (ihE e (by simp at hsz; omega) (reg + 1) lid false c l1 h1)
          (Seg.one _ (.SETKEY reg (reg + 1) ky) rfl rfl))
          (ihMap rest (by simp at hsz; omega) reg l1 cs l2 h2)
    · -- callArgsBinTo
      intro es hsz argReg setReg so idx lid code lid' h
      cases es with
      | nil =>
        rw [eqCallArgs_nil] at h
        simp only [Except.ok.injEq, Prod.mk.injEq] at h
        obtain ⟨rfl, rfl⟩ := h
        exact Seg.plain _ [] rfl (by intro i hi; cases hi)
      | cons e rest =>
        rw [eqCallArgs_cons] at h
        obtain ⟨c, l1, h1, h⟩ := bindLow_ok_iff.mp h
        obtain ⟨cs, l2, h2, h⟩ := bindLow_ok_iff.mp h
        simp only [Except.ok.injEq, Prod.mk.injEq] at h
        obtain ⟨rfl, rfl⟩ := h
        exact Seg.append (Seg.append
          (ihE e (by simp at hsz; omega) argReg lid false c l1 h1)
          (Seg.setIdx _ so setReg idx argReg))
          (ihCall rest (by simp at hsz; omega) argReg setReg so (idx + 1) l1 cs l2 h2)
    · -- letsRhssBinTo
      intro es hsz tmp lid code lid' h
      cases es with
      | nil =>
        rw [eqLetsRhss_nil] at h
        simp only [Except.ok.injEq, Prod.mk.injEq] at h
        obtain ⟨rfl, rfl⟩ := h
        exact Seg.plain _ [] rfl (by intro i hi; cases hi)
      | cons e rest =>
        rw [eqLetsRhss_cons] at h
        obtain ⟨c, l1, h1, h⟩ := bindLow_ok_iff.mp h
        obtain ⟨cs, l2, h2, h⟩ := bindLow_ok_iff.mp h
        simp only [Except.ok.injEq, Prod.mk.injEq] at h
        obtain ⟨rfl, rfl⟩ := h
        exact Seg.append (ihE e (by simp at hsz; omega) tmp lid false c l1 h1)
          (ihRhss rest (by simp at hsz; omega) (tmp + 1) l1 cs l2 h2)
    · -- letsLhssBinTo
      intro es hsz tmp lid code lid' h
      cases es with
      | nil =>
        rw [eqLetsLhss_nil] at h
        simp only [Except.ok.injEq, Prod.mk.injEq] at h
        obtain ⟨rfl, rfl⟩ := h
        exact Seg.plain _ [] rfl (by intro i hi; cases hi)
      | cons e rest =>
        rw [eqLetsLhss_cons] at h
        obtain ⟨c, l1, h1, h⟩ := bindLow_ok_iff.mp h
        obtain ⟨cs, l2, h2, h⟩ := bindLow_ok_iff.mp h
        simp only [Except.ok.injEq, Prod.mk.injEq] at h
        obtain ⟨rfl, rfl⟩ := h
        exact Seg.append (ihLet e (by simp at hsz; omega) tmp lid c l1 h1)
          (ihLhss rest (by simp at hsz; omega) (tmp + 1) l1 cs l2 h2)
    · -- Stmt.BinTo
      intro s hsz reg lid code lid' h
      cases s with
      | lets lhss op rhss =>
        rw [eqStmtBinTo_lets] at h
        obtain ⟨c1, l1, h1, h⟩ := bindLow_ok_iff.mp h
        obtain ⟨c2, l2, h2, h⟩ := bindLow_ok_iff.mp h
        simp only [Except.ok.injEq, Prod.mk.injEq] at h
        obtain ⟨rfl, rfl⟩ := h
        exact Seg.append (ihRhss rhss (by simp at hsz; omega) (reg + 1) lid c1 l1 h1)
          (ihLhss lhss (by simp at hsz; omega) (reg + 1) l1 c2 l2 h2)
      | exprStmt e =>
        rw [eqStmtBinTo_exprStmt] at h
        exact ihE e (by simp at hsz; omega) reg lid true code lid' h
    · -- stmtsBinTo
      intro ss hsz reg lid code lid' h
      cases ss with
      | nil =>
        rw [eqStmts_nil] at h
        simp only [Except.ok.injEq, Prod.mk.injEq] at h
        obtain ⟨rfl, rfl⟩ := h
        exact Seg.plain _ [] rfl (by intro i hi; cases hi)
      | cons s rest =>
        rw [eqStmts_cons] at h
        obtain ⟨c, l1, h1, h⟩ := bindLow_ok_iff.mp h
        obtain ⟨cs, l2, h2, h⟩ := bindLow_ok_iff.mp h
        simp only [Except.ok.injEq, Prod.mk.injEq] at h
        obtain ⟨rfl, rfl⟩ := h
        exact Seg.append (ihStmt s (by simp at hsz; omega) reg lid c l1 h1)
          (ihStmts rest (by simp at hsz; omega) reg l1 cs l2 h2)

/-- **C7.**  In any completed lowering run the label ids defined by the
emitted `LABEL` instructions are pairwise distinct and lie in the fresh
range `(lid, lid']` handed out by the single pre-incremented counter,
and every emitted jump (`JMP`/`JTRUE`/`JFALSE`) targets a label defined
by exactly one later `LABEL` in the buffer. -/
theorem C7_label_invariants (e : Expr) (reg lid : Nat) (inStmt : Bool)
    (code : List BinInstr) (lid' : Nat)
    (h : Expr.BinTo e reg lid inStmt = .ok (code, lid')) :
    (labDefs code).Nodup
  ∧ jumpsMatchedB code = true
  ∧ (∀ l ∈ labDefs code, lid < l ∧ l ≤ lid') := by
  have hseg := (binToSeg (sizeOf e)).1 e (le_refl _) reg lid inStmt code lid' h
  exact ⟨hseg.nodup, hseg.matched, hseg.defsIn⟩

/-- Witness for `C7_label_invariants`: the two-label buffer of a
lowered ternary. -/
theorem C7_label_invariants_witness :
    Expr.BinTo (.ternary (.ident "a" 1) (.number "1") (.number "2")) 0 0 false
      = .ok ([.GET 0 1, .JFALSE 0 1, .LOAD 0 (.str "1") false, .CASTNUM 0,
              .JMP 2, .LABEL 1, .LOAD 0 (.str "2") false, .CASTNUM 0, .LABEL 2], 2)
  ∧ ((labDefs [.GET 0 1, .JFALSE 0 1, .LOAD 0 (.str "1") false, .CASTNUM 0,
        .JMP 2, .LABEL 1, .LOAD 0 (.str "2") false, .CASTNUM 0, .LABEL 2]).Nodup
     ∧ jumpsMatchedB [.GET 0 1, .JFALSE 0 1, .LOAD 0 (.str "1") false, .CASTNUM 0,
        .JMP 2, .LABEL 1, .LOAD 0 (.str "2") false, .CASTNUM 0, .LABEL 2] = true
     ∧ (∀ l ∈ labDefs [.GET 0 1, .JFALSE 0 1, .LOAD 0 (.str "1") false, .CASTNUM 0,
          .JMP 2, .LABEL 1, .LOAD 0 (.str "2") false, .CASTNUM 0, .LABEL 2],
        0 < l ∧ l ≤ 2)) :=
  ⟨rfl, C7_label_invariants (.ternary (.ident "a" 1) (.number "1") (.number "2"))
    0 0 false _ 2 rfl⟩

/-- Fixed-point property of one fuel-bounded pass: any produced
expression re-simplifies to itself at the same fuel (and likewise for
the list, entry and statement traversals). -/

theorem sFix : ∀ n : Nat,
    (∀ e e', simplifyF n e = some e' → simplifyF n e' = some e')
  ∧ (∀ es es', simplifyListF n es = some es' → simplifyListF n es' = some es')
  ∧ (∀ ps ps', simplifyEntriesF n ps = some ps' → simplifyEntriesF n ps' = some ps')
  ∧ (∀ s s', simplifyStmtF n s = some s' → simplifyStmtF n s' = some s')
  ∧ (∀ ss ss', simplifyStmtsF n ss = some ss' → simplifyStmtsF n ss' = some ss') := by
  intro n
  induction n with
  | zero =>
    refine ⟨?_, ?_, ?_, ?_, ?_⟩ <;> intro x y h <;>
      simp [simplifyF, simplifyListF, simplifyEntriesF, simplifyStmtF, simplifyStmtsF] at h
  | succ n ih =>
    obtain ⟨ihE, ihL, ihP, ihS, ihSS⟩ := ih
    refine ⟨?_, ?_, ?_, ?_, ?_⟩
    · intro e e' h
      cases e with
      | noneE =>
        simp only [simplifyF, Option.some.injEq] at h
        subst h; simp [simplifyF]
      | ident l i =>
        simp only [simplifyF, Option.some.injEq] at h
        subst h; simp [simplifyF]
      | native v =>
        simp only [simplifyF, Option.some.injEq] at h
        subst h; simp [simplifyF]
      | string lit =>
        simp only [simplifyF, Option.some.injEq] at h
        subst h; simp [simplifyF]
      | number lit =>
        simp only [simplifyF] at h
        split at h
        · split at h
          · simp only [Option.some.injEq] at h
            subst h; simp [simplifyF]
          · simp only [Option.some.injEq] at h
            subst h; simp only [simplifyF]; simp [*]
        · split at h
          · simp only [Option.some.injEq] at h
            subst h; simp [simplifyF]
          · simp only [Option.some.injEq] at h
            subst h; simp only [simplifyF]; simp [*]
      | pair k v =>
        simp only [simplifyF] at h
        split at h
        · exact absurd h (by simp)
        · next v' hv =>
          simp only [Option.some.injEq] at h
          subst h
          simp [simplifyF, ihE _ _ hv]
      | array es =>
        simp only [simplifyF] at h
        split at h
        · exact absurd h (by simp)
        · next es' hes =>
          split at h
          · next vs hns =>
            simp only [Option.some.injEq] at h
            subst h; simp [simplifyF]
          · next hns =>
            simp only [Option.some.injEq] at h
            subst h
            simp [simplifyF, ihL _ _ hes, hns]
      | mapE ps =>
        simp only [simplifyF] at h
        split at h
        · exact absurd h (by simp)
        · next ps' hps =>
          split at h
          · next m hns =>
            simp only [Option.some.injEq] at h
            subst h; simp [simplifyF]
          · next hns =>
            simp only [Option.some.injEq] at h
            subst h
            simp [simplifyF, ihP _ _ hps, hns]
      | unary op e1 =>
        simp only [simplifyF] at h
        split at h
        · exact absurd h (by simp)
        · next ex hex =>
          split at h
          · next v =>
            split at h
            · next hu =>
              split at h
              · exact absurd h (by simp)
              · next c rest hop =>
                split at h
                · next rv hrv =>
                  simp only [Option.some.injEq] at h
                  subst h; simp [simplifyF]
                · next herr =>
                  simp only [Option.some.injEq] at h
                  subst h
                  simp [simplifyF, ihE _ _ hex, hu, hop, herr]
            · exact absurd h (by simp)
          · next hneg =>
            simp only [Option.some.injEq] at h
            subst h
            simp only [simplifyF, ihE _ _ hex]
      | addr e1 =>
        simp only [simplifyF] at h
        split at h
        · exact absurd h (by simp)
        · next e2 he =>
          simp only [Option.some.injEq] at h
          subst h
          simp [simplifyF, ihE _ _ he]
      | deref e1 =>
        simp only [simplifyF] at h
        split at h
        · exact absurd h (by simp)
        · next e2 he =>
          simp only [Option.some.injEq] at h
          subst h
          simp [simplifyF, ihE _ _ he]
      | paren s =>
        simp only [simplifyF] at h
        split at h
        · exact absurd h (by simp)
        · next s' hs =>
          split at h
          · next v =>
            simp only [Option.some.injEq] at h
            subst h; simp [simplifyF]
          · next hneg =>
            simp only [Option.some.injEq] at h
            subst h
            simp only [simplifyF, ihE _ _ hs]
      | binOp lhss op rhss =>
        simp only [simplifyF] at h
        split at h
        · exact absurd h (by simp)
        · next ls hls =>
          split at h
          · exact absurd h (by simp)
          · next rs hrs =>
            split at h
            · next v1 v2 =>
              split at h
              · next hcap =>
                split at h
                · next rv hrv =>
                  simp only [Option.some.injEq] at h
                  subst h; simp [simplifyF]
                · next herr =>
                  simp only [Option.some.injEq] at h
                  subst h
                  simp [simplifyF, ihL _ _ hls, ihL _ _ hrs, hcap, herr]
              · next hcap =>
                simp only [Option.some.injEq] at h
                subst h
                simp [simplifyF, ihL _ _ hls, ihL _ _ hrs, hcap]
            · next hneg =>
              simp only [Option.some.injEq] at h
              subst h
              simp only [simplifyF, ihL _ _ hls, ihL _ _ hrs]
      | ternary c l r =>
        simp only [simplifyF] at h
        split at h
        · exact absurd h (by simp)
        · next c1 hc =>
          have hcc : simplifyF n c1 = some c1 := ihE _ _ hc
          split at h
          · exact absurd h (by simp)
          · next l1 hl =>
            have el1 : l1 = c1 := by rw [hl] at hcc; exact Option.some.inj hcc
            split at h
            · exact absurd h (by simp)
            · next r1 hr =>
              have hcc2 : simplifyF n c1 = some c1 := ihE _ _ hc
              have er1 : r1 = c1 := by
                rw [← el1]; exact (Option.some.inj hr).symm
              rw [el1, er1] at h
              split at h
              · next v =>
                split at h
                · next b hab =>
                  simp only [ite_self, Option.some.injEq] at h
                  subst h
                  simp [simplifyF]
                · next hab =>
                  simp only [Option.some.injEq] at h
                  subst h
                  simp [simplifyF, hcc2, hab]
              · next hneg =>
                simp only [Option.some.injEq] at h
                subst h
                simp only [simplifyF, hcc2]
      | call nm args va g =>
        simp only [simplifyF] at h
        split at h
        · exact absurd h (by simp)
        · next args' ha =>
          simp only [Option.some.injEq] at h
          subst h
          simp [simplifyF, ihL _ _ ha]
      | anonCall f args va g =>
        simp only [simplifyF] at h
        split at h
        · exact absurd h (by simp)
        · next f' hf =>
          split at h
          · exact absurd h (by simp)
          · next args' ha =>
            simp only [Option.some.injEq] at h
            subst h
            simp [simplifyF, ihE _ _ hf, ihL _ _ ha]
      | member e1 nm =>
        simp only [simplifyF] at h
        split at h
        · exact absurd h (by simp)
        · next e2 he =>
          simp only [Option.some.injEq] at h
          subst h
          simp [simplifyF, ihE _ _ he]
      | item v i =>
        simp only [simplifyF] at h
        split at h
        · exact absurd h (by simp)
        · next v' hv =>
          split at h
          · exact absurd h (by simp)
          · next i' hi =>
            split at h
            · next xs ii =>
              split at h
              · exact absurd h (by simp)
              · next hnneg =>
                split at h
                · next x hx =>
                  simp only [Option.some.injEq] at h
                  subst h; simp [simplifyF]
                · exact absurd h (by simp)
            · next m s =>
              simp only [Option.some.injEq] at h
              subst h; simp [simplifyF]
            · next hneg1 hneg2 =>
              simp only [Option.some.injEq] at h
              subst h
              simp only [simplifyF, ihE _ _ hv, ihE _ _ hi]
      | slice v b e2 =>
        simp only [simplifyF] at h
        split at h
        · exact absurd h (by simp)
        · next v' hv =>
          split at h
          · exact absurd h (by simp)
          · next b' hb =>
            split at h
            · exact absurd h (by simp)
            · next e3 he =>
              split at h
              · next xs ib ie =>
                split at h
                · next hbnd =>
                  simp only [Option.some.injEq] at h
                  subst h; simp [simplifyF]
                · exact absurd h (by simp)
              · next hneg =>
                simp only [Option.some.injEq] at h
                subst h
                simp only [simplifyF, ihE _ _ hv, ihE _ _ hb, ihE _ _ he]
      | func nm ss args va =>
        simp only [simplifyF] at h
        split at h
        · exact absurd h (by simp)
        · next ss' hss =>
          simp only [Option.some.injEq] at h
          subst h
          simp [simplifyF, ihSS _ _ hss]
      | letE l r =>
        simp only [simplifyF] at h
        split at h
        · exact absurd h (by simp)
        · next l' hl =>
          split at h
          · exact absurd h (by simp)
          · next r' hr =>
            simp only [Option.some.injEq] at h
            subst h
            simp [simplifyF, ihE _ _ hl, ihE _ _ hr]
      | assoc l op r =>
        simp only [simplifyF] at h
        split at h
        · exact absurd h (by simp)
        · next l' hl =>
          cases r with
          | none => exact absurd h (by simp)
          | some r0 =>
            simp only [] at h
            split at h
            · exact absurd h (by simp)
            · next r' hr =>
              simp only [Option.some.injEq] at h
              subst h
              simp [simplifyF, ihE _ _ hl, ihE _ _ hr]
      | constE s =>
        simp only [simplifyF] at h
        split at h <;>
          (simp only [Option.some.injEq] at h; subst h; simp only [simplifyF])
      | chan l r =>
        cases l with
        | none => simp [simplifyF] at h
        | some l0 =>
          simp only [simplifyF] at h
          split at h
          · exact absurd h (by simp)
          · next l' hl =>
            split at h
            · exact absurd h (by simp)
            · next r' hr =>
              simp only [Option.some.injEq] at h
              subst h
              simp [simplifyF, ihE _ _ hl, ihE _ _ hr]
      | typeCast t te ce =>
        cases te with
        | none => simp [simplifyF] at h
        | some te0 =>
          simp only [simplifyF] at h
          split at h
          · exact absurd h (by simp)
          · next te' hte =>
            split at h
            · exact absurd h (by simp)
            · next ce' hce =>
              simp only [Option.some.injEq] at h
              subst h
              simp [simplifyF, ihE _ _ hte, ihE _ _ hce]
      | makeE t te =>
        cases te with
        | none => simp [simplifyF] at h
        | some te0 =>
          simp only [simplifyF] at h
          split at h
          · exact absurd h (by simp)
          · next te' hte =>
            simp only [Option.some.injEq] at h
            subst h
            simp [simplifyF, ihE _ _ hte]
      | makeChan se =>
        cases se with
        | none => simp [simplifyF] at h
        | some se0 =>
          simp only [simplifyF] at h
          split at h
          · exact absurd h (by simp)
          · next se' hse =>
            simp only [Option.some.injEq] at h
            subst h
            simp [simplifyF, ihE _ _ hse]
      | makeArray le ce =>
        simp only [simplifyF] at h
        split at h
        · exact absurd h (by simp)
        · next le' hle =>
          cases ce with
          | none => exact absurd h (by simp)
          | some ce0 =>
            simp only [] at h
            split at h
            · exact absurd h (by simp)
            · next ce' hce =>
              simp only [Option.some.injEq] at h
              subst h
              simp [simplifyF, ihE _ _ hle, ihE _ _ hce]
    · intro es es' h
      cases es with
      | nil =>
        simp only [simplifyListF, Option.some.injEq] at h
        subst h; simp [simplifyListF]
      | cons e rest =>
        simp only [simplifyListF] at h
        split at h
        · exact absurd h (by simp)
        · next e1 he =>
          split at h
          · exact absurd h (by simp)
          · next rest1 hrest =>
            simp only [Option.some.injEq] at h
            subst h
            simp [simplifyListF, ihE _ _ he, ihL _ _ hrest]
    · intro ps ps' h
      cases ps with
      | nil =>
        simp only [simplifyEntriesF, Option.some.injEq] at h
        subst h; simp [simplifyEntriesF]
      | cons p rest =>
        obtain ⟨k, v⟩ := p
        simp only [simplifyEntriesF] at h
        split at h
        · exact absurd h (by simp)
        · next v1 hv =>
          split at h
          · exact absurd h (by simp)
          · next rest1 hrest =>
            simp only [Option.some.injEq] at h
            subst h
            simp [simplifyEntriesF, ihE _ _ hv, ihP _ _ hrest]
    · intro s s' h
      cases s with
      | lets l op r =>
        simp only [simplifyStmtF] at h
        split at h
        · exact absurd h (by simp)
        · next l' hl =>
          split at h
          · exact absurd h (by simp)
          · next r' hr =>
            simp only [Option.some.injEq] at h
            subst h
            simp [simplifyStmtF, ihL _ _ hl, ihL _ _ hr]
      | exprStmt e =>
        simp only [simplifyStmtF] at h
        split at h
        · exact absurd h (by simp)
        · next e1 he =>
          simp only [Option.some.injEq] at h
          subst h
          simp [simplifyStmtF, ihE _ _ he]
    · intro ss ss' h
      cases ss with
      | nil =>
        simp only [simplifyStmtsF, Option.some.injEq] at h
        subst h; simp [simplifyStmtsF]
      | cons s rest =>
        simp only [simplifyStmtsF] at h
        split at h
        · exact absurd h (by simp)
        · next s1 hs =>
          split at h
          · exact absurd h (by simp)
          · next rest1 hrest =>
            simp only [Option.some.injEq] at h
            subst h
            simp [simplifyStmtsF, ihS _ _ hs, ihSS _ _ hrest]

/-- The simplification budget never grows: a produced expression needs
no more fuel than its source. -/

theorem sBound : ∀ n : Nat,
    (∀ e e', simplifyF n e = some e' → e'.sfuel ≤ e.sfuel)
  ∧ (∀ es es', simplifyListF n es = some es' → sfuelList es' ≤ sfuelList es)
  ∧ (∀ ps ps', simplifyEntriesF n ps = some ps' → sfuelEntries ps' ≤ sfuelEntries ps)
  ∧ (∀ s s', simplifyStmtF n s = some s' → s'.sfuel ≤ s.sfuel)
  ∧ (∀ ss ss', simplifyStmtsF n ss = some ss' → sfuelStmts ss' ≤ sfuelStmts ss) := by
  intro n
  induction n with
  | zero =>
    refine ⟨?_, ?_, ?_, ?_, ?_⟩ <;> intro x y h <;>
      simp [simplifyF, simplifyListF, simplifyEntriesF, simplifyStmtF, simplifyStmtsF] at h
  | succ n ih =>
    obtain ⟨ihE, ihL, ihP, ihS, ihSS⟩ := ih
    refine ⟨?_, ?_, ?_, ?_, ?_⟩
    · intro e e' h
      cases e with
      | noneE =>
        simp only [simplifyF, Option.some.injEq] at h
        subst h; exact le_refl _
      | ident l i =>
        simp only [simplifyF, Option.some.injEq] at h
        subst h; exact le_refl _
      | native v =>
        simp only [simplifyF, Option.some.injEq] at h
        subst h; exact le_refl _
      | string lit =>
        simp only [simplifyF, Option.some.injEq] at h
        subst h; simp [Expr.sfuel]
      | number lit =>
        simp only [simplifyF] at h
        split at h <;> split at h <;>
          (simp only [Option.some.injEq] at h; subst h; simp [Expr.sfuel])
      | pair k v =>
        simp only [simplifyF] at h
        split at h
        · exact absurd h (by simp)
        · next v' hv =>
          simp only [Option.some.injEq] at h
          subst h
          have := ihE _ _ hv
          simp only [Expr.sfuel]
          omega
      | array es =>
        simp only [simplifyF] at h
        split at h
        · exact absurd h (by simp)
        · next es' hes =>
          have := ihL _ _ hes
          split at h <;>
            (simp only [Option.some.injEq] at h; subst h; simp only [Expr.sfuel]; omega)
      | mapE ps =>
        simp only [simplifyF] at h
        split at h
        · exact absurd h (by simp)
        · next ps' hps =>
          have := ihP _ _ hps
          split at h <;>
            (simp only [Option.some.injEq] at h; subst h; simp only [Expr.sfuel]; omega)
      | unary op e1 =>
        simp only [simplifyF] at h
        split at h
        · exact absurd h (by simp)
        · next ex hex =>
          have hbx := ihE _ _ hex
          split at h
          · next v =>
            simp only [Expr.sfuel] at hbx
            split at h
            · split at h
              · exact absurd h (by simp)
              · split at h <;>
                  (simp only [Option.some.injEq] at h; subst h; simp only [Expr.sfuel]; omega)
            · exact absurd h (by simp)
          · next hneg =>
            simp only [Option.some.injEq] at h
            subst h
            simp only [Expr.sfuel]
            omega
      | addr e1 =>
        simp only [simplifyF] at h
        split at h
        · exact absurd h (by simp)
        · next e2 he =>
          simp only [Option.some.injEq] at h
          subst h
          have := ihE _ _ he
          simp only [Expr.sfuel]
          omega
      | deref e1 =>
        simp only [simplifyF] at h
        split at h
        · exact absurd h (by simp)
        · next e2 he =>
          simp only [Option.some.injEq] at h
          subst h
          have := ihE _ _ he
          simp only [Expr.sfuel]
          omega
      | paren s =>
        simp only [simplifyF] at h
        split at h
        · exact absurd h (by simp)
        · next s' hs =>
          have := ihE _ _ hs
          split at h <;>
            (simp only [Option.some.injEq] at h; subst h;
             simp only [Expr.sfuel] at *; omega)
      | binOp lhss op rhss =>
        simp only [simplifyF] at h
        split at h
        · exact absurd h (by simp)
        · next ls hls =>
          split at h
          · exact absurd h (by simp)
          · next rs hrs =>
            have h1 := ihL _ _ hls
            have h2 := ihL _ _ hrs
            split at h
            · next v1 v2 =>
              split at h
              · split at h <;>
                  (simp only [Option.some.injEq] at h; subst h; simp only [Expr.sfuel]; omega)
              · simp only [Option.some.injEq] at h
                subst h; simp only [Expr.sfuel]; omega
            · simp only [Option.some.injEq] at h
              subst h; simp only [Expr.sfuel]; omega
      | ternary c l r =>
        simp only [simplifyF] at h
        split at h
        · exact absurd h (by simp)
        · next c1 hc =>
          have b1 := ihE _ _ hc
          split at h
          · exact absurd h (by simp)
          · next l1 hl =>
            have b2 := ihE _ _ hl
            split at h
            · exact absurd h (by simp)
            · next r1 hr =>
              have b3 : r1.sfuel ≤ c1.sfuel := by
                have hr1 : r1 = l1 := (Option.some.inj hr).symm
                rw [hr1]; exact b2
              split at h
              · next v =>
                split at h
                · next b hab =>
                  simp only [Option.some.injEq] at h
                  subst h
                  cases b <;> simp_all [Expr.sfuel] <;> omega
                · simp only [Option.some.injEq] at h
                  subst h; simp only [Expr.sfuel] at *; omega
              · simp only [Option.some.injEq] at h
                subst h; simp only [Expr.sfuel] at *; omega
      | call nm args va g =>
        simp only [simplifyF] at h
        split at h
        · exact absurd h (by simp)
        · next args' ha =>
          simp only [Option.some.injEq] at h
          subst h
          have := ihL _ _ ha
          simp only [Expr.sfuel]; omega
      | anonCall f args va g =>
        simp only [simplifyF] at h
        split at h
        · exact absurd h (by simp)
        · next f' hf =>
          split at h
          · exact absurd h (by simp)
          · next args' ha =>
            simp only [Option.some.injEq] at h
            subst h
            have h1 := ihE _ _ hf
            have h2 := ihL _ _ ha
            simp only [Expr.sfuel]; omega
      | member e1 nm =>
        simp only [simplifyF] at h
        split at h
        · exact absurd h (by simp)
        · next e2 he =>
          simp only [Option.some.injEq] at h
          subst h
          have := ihE _ _ he
          simp only [Expr.sfuel]; omega
      | item v i =>
        simp only [simplifyF] at h
        split at h
        · exact absurd h (by simp)
        · next v' hv =>
          split at h
          · exact absurd h (by simp)
          · next i' hi =>
            have h1 := ihE _ _ hv
            have h2 := ihE _ _ hi
            split at h
            · next xs ii =>
              split at h
              · exact absurd h (by simp)
              · split at h
                · simp only [Option.some.injEq] at h
                  subst h; simp only [Expr.sfuel]; omega
                · exact absurd h (by simp)
            · next m s =>
              simp only [Option.some.injEq] at h
              subst h; simp only [Expr.sfuel]; omega
            · simp only [Option.some.injEq] at h
              subst h; simp only [Expr.sfuel] at *; omega
      | slice v b e2 =>
        simp only [simplifyF] at h
        split at h
        · exact absurd h (by simp)
        · next v' hv =>
          split at h
          · exact absurd h (by simp)
          · next b' hb =>
            split at h
            · exact absurd h (by simp)
            · next e3 he =>
              have h1 := ihE _ _ hv
              have h2 := ihE _ _ hb
              have h3 := ihE _ _ he
              split at h
              · next xs ib ie =>
                split at h
                · simp only [Option.some.injEq] at h
                  subst h; simp only [Expr.sfuel]; omega
                · exact absurd h (by simp)
              · simp only [Option.some.injEq] at h
                subst h; simp only [Expr.sfuel] at *; omega
      | func nm ss args va =>
        simp only [simplifyF] at h
        split at h
        · exact absurd h (by simp)
        · next ss' hss =>
          simp only [Option.some.injEq] at h
          subst h
          have := ihSS _ _ hss
          simp only [Expr.sfuel]; omega
      | letE l r =>
        simp only [simplifyF] at h
        split at h
        · exact absurd h (by simp)
        · next l' hl =>
          split at h
          · exact absurd h (by simp)
          · next r' hr =>
            simp only [Option.some.injEq] at h
            subst h
            have h1 := ihE _ _ hl
            have h2 := ihE _ _ hr
            simp only [Expr.sfuel]; omega
      | assoc l op r =>
        simp only [simplifyF] at h
        split at h
        · exact absurd h (by simp)
        · next l' hl =>
          cases r with
          | none => exact absurd h (by simp)
          | some r0 =>
            simp only [] at h
            split at h
            · exact absurd h (by simp)
            · next r' hr =>
              simp only [Option.some.injEq] at h
              subst h
              have h1 := ihE _ _ hl
              have h2 := ihE _ _ hr
              simp only [Expr.sfuel, sfuelOpt]; omega
      | constE s =>
        simp only [simplifyF] at h
        split at h <;>
          (simp only [Option.some.injEq] at h; subst h; simp [Expr.sfuel])
      | chan l r =>
        cases l with
        | none => simp [simplifyF] at h
        | some l0 =>
          simp only [simplifyF] at h
          split at h
          · exact absurd h (by simp)
          · next l' hl =>
            split at h
            · exact absurd h (by simp)
            · next r' hr =>
              simp only [Option.some.injEq] at h
              subst h
              have h1 := ihE _ _ hl
              have h2 := ihE _ _ hr
              simp only [Expr.sfuel, sfuelOpt]; omega
      | typeCast t te ce =>
        cases te with
        | none => simp [simplifyF] at h
        | some te0 =>
          simp only [simplifyF] at h
          split at h
          · exact absurd h (by simp)
          · next te' hte =>
            split at h
            · exact absurd h (by simp)
            · next ce' hce =>
              simp only [Option.some.injEq] at h
              subst h
              have h1 := ihE _ _ hte
              have h2 := ihE _ _ hce
              simp only [Expr.sfuel, sfuelOpt]; omega
      | makeE t te =>
        cases te with
        | none => simp [simplifyF] at h
        | some te0 =>
          simp only [simplifyF] at h
          split at h
          · exact absurd h (by simp)
          · next te' hte =>
            simp only [Option.some.injEq] at h
            subst h
            have := ihE _ _ hte
            simp only [Expr.sfuel, sfuelOpt]; omega
      | makeChan se =>
        cases se with
        | none => simp [simplifyF] at h
        | some se0 =>
          simp only [simplifyF] at h
          split at h
          · exact absurd h (by simp)
          · next se' hse =>
            simp only [Option.some.injEq] at h
            subst h
            have := ihE _ _ hse
            simp only [Expr.sfuel, sfuelOpt]; omega
      | makeArray le ce =>
        simp only [simplifyF] at h
        split at h
        · exact absurd h (by simp)
        · next le' hle =>
          cases ce with
          | none => exact absurd h (by simp)
          | some ce0 =>
            simp only [] at h
            split at h
            · exact absurd h (by simp)
            · next ce' hce =>
              simp only [Option.some.injEq] at h
              subst h
              have h1 := ihE _ _ hle
              have h2 := ihE _ _ hce
              simp only [Expr.sfuel, sfuelOpt]; omega
    · intro es es' h
      cases es with
      | nil =>
        simp only [simplifyListF, Option.some.injEq] at h
        subst h; exact le_refl _
      | cons e rest =>
        simp only [simplifyListF] at h
        split at h
        · exact absurd h (by simp)
        · next e1 he =>
          split at h
          · exact absurd h (by simp)
          · next rest1 hrest =>
            simp only [Option.some.injEq] at h
            subst h
            have h1 := ihE _ _ he
            have h2 := ihL _ _ hrest
            simp only [sfuelList]; omega
    · intro ps ps' h
      cases ps with
      | nil =>
        simp only [simplifyEntriesF, Option.some.injEq] at h
        subst h; exact le_refl _
      | cons p rest =>
        obtain ⟨k, v⟩ := p
        simp only [simplifyEntriesF] at h
        split at h
        · exact absurd h (by simp)
        · next v1 hv =>
          split at h
          · exact absurd h (by simp)
          · next rest1 hrest =>
            simp only [Option.some.injEq] at h
            subst h
            have h1 := ihE _ _ hv
            have h2 := ihP _ _ hrest
            simp only [sfuelEntries]; omega
    · intro s s' h
      cases s with
      | lets l op r =>
        simp only [simplifyStmtF] at h
        split at h
        · exact absurd h (by simp)
        · next l' hl =>
          split at h
          · exact absurd h (by simp)
          · next r' hr =>
            simp only [Option.some.injEq] at h
            subst h
            have h1 := ihL _ _ hl
            have h2 := ihL _ _ hr
            simp only [Stmt.sfuel]; omega
      | exprStmt e =>
        simp only [simplifyStmtF] at h
        split at h
        · exact absurd h (by simp)
        · next e1 he =>
          simp only [Option.some.injEq] at h
          subst h
          have := ihE _ _ he
          simp only [Stmt.sfuel]; omega
    · intro ss ss' h
      cases ss with
      | nil =>
        simp only [simplifyStmtsF, Option.some.injEq] at h
        subst h; exact le_refl _
      | cons s rest =>
        simp only [simplifyStmtsF] at h
        split at h
        · exact absurd h (by simp)
        · next s1 hs =>
          split at h
          · exact absurd h (by simp)
          · next rest1 hrest =>
            simp only [Option.some.injEq] at h
            subst h
            have h1 := ihS _ _ hs
            have h2 := ihSS _ _ hrest
            simp only [sfuelStmts]; omega

/-- Fuel irrelevance: any fuel at least the expression's budget
computes the same result. -/

theorem sStable : ∀ m : Nat,
    (∀ n (e : Expr), e.sfuel ≤ n → n ≤ m → simplifyF m e = simplifyF n e)
  ∧ (∀ n es, sfuelList es ≤ n → n ≤ m → simplifyListF m es = simplifyListF n es)
  ∧ (∀ n ps, sfuelEntries ps ≤ n → n ≤ m → simplifyEntriesF m ps = simplifyEntriesF n ps)
  ∧ (∀ n (s : Stmt), s.sfuel ≤ n → n ≤ m → simplifyStmtF m s = simplifyStmtF n s)
  ∧ (∀ n ss, sfuelStmts ss ≤ n → n ≤ m → simplifyStmtsF m ss = simplifyStmtsF n ss) := by
  intro m
  induction m with
  | zero =>
    refine ⟨?_, ?_, ?_, ?_, ?_⟩ <;> intro n x hb hnm <;>
      (obtain rfl : n = 0 := by omega) <;> rfl
  | succ m ih =>
    obtain ⟨ihE, ihL, ihP, ihS, ihSS⟩ := ih
    refine ⟨?_, ?_, ?_, ?_, ?_⟩
    · intro n e hb hnm
      cases n with
      | zero =>
        exact absurd hb (by cases e <;> simp only [Expr.sfuel] <;> omega)
      | succ n =>
        have hn : n ≤ m := by omega
        cases e with
        | noneE => simp only [simplifyF]
        | ident l i => simp only [simplifyF]
        | native v => simp only [simplifyF]
        | string lit => simp only [simplifyF]
        | number lit => simp only [simplifyF]
        | constE s => simp only [simplifyF]
        | pair k v =>
          have h1 : v.sfuel ≤ n := by simp only [Expr.sfuel] at hb; omega
          simp only [simplifyF, ihE n _ h1 hn]
        | array es =>
          have h1 : sfuelList es ≤ n := by simp only [Expr.sfuel] at hb; omega
          simp only [simplifyF, ihL n _ h1 hn]
        | mapE ps =>
          have h1 : sfuelEntries ps ≤ n := by simp only [Expr.sfuel] at hb; omega
          simp only [simplifyF, ihP n _ h1 hn]
        | unary op e1 =>
          have h1 : e1.sfuel ≤ n := by simp only [Expr.sfuel] at hb; omega
          simp only [simplifyF, ihE n _ h1 hn]
        | addr e1 =>
          have h1 : e1.sfuel ≤ n := by simp only [Expr.sfuel] at hb; omega
          simp only [simplifyF, ihE n _ h1 hn]
        | deref e1 =>
          have h1 : e1.sfuel ≤ n := by simp only [Expr.sfuel] at hb; omega
          simp only [simplifyF, ihE n _ h1 hn]
        | paren s =>
          have h1 : s.sfuel ≤ n := by simp only [Expr.sfuel] at hb; omega
          simp only [simplifyF, ihE n _ h1 hn]
        | binOp lhss op rhss =>
          have h1 : sfuelList lhss ≤ n := by simp only [Expr.sfuel] at hb; omega
          have h2 : sfuelList rhss ≤ n := by simp only [Expr.sfuel] at hb; omega
          simp only [simplifyF, ihL n _ h1 hn, ihL n _ h2 hn]
        | ternary c l r =>
          have h1 : c.sfuel ≤ n := by simp only [Expr.sfuel] at hb; omega
          simp only [simplifyF, ihE n _ h1 hn]
          cases hc : simplifyF n c with
          | none => rfl
          | some c1 =>
            have b1 : c1.sfuel ≤ n := le_trans ((sBound n).1 _ _ hc) h1
            simp only [ihE n _ b1 hn]
        | call nm args va g =>
          have h1 : sfuelList args ≤ n := by simp only [Expr.sfuel] at hb; omega
          simp only [simplifyF, ihL n _ h1 hn]
        | anonCall f args va g =>
          have h1 : f.sfuel ≤ n := by simp only [Expr.sfuel] at hb; omega
          have h2 : sfuelList args ≤ n := by simp only [Expr.sfuel] at hb; omega
          simp only [simplifyF, ihE n _ h1 hn, ihL n _ h2 hn]
        | member e1 nm =>
          have h1 : e1.sfuel ≤ n := by simp only [Expr.sfuel] at hb; omega
          simp only [simplifyF, ihE n _ h1 hn]
        | item v i =>
          have h1 : v.sfuel ≤ n := by simp only [Expr.sfuel] at hb; omega
          have h2 : i.sfuel ≤ n := by simp only [Expr.sfuel] at hb; omega
          simp only [simplifyF, ihE n _ h1 hn, ihE n _ h2 hn]
        | slice v b e2 =>
          have h1 : v.sfuel ≤ n := by simp only [Expr.sfuel] at hb; omega
          have h2 : b.sfuel ≤ n := by simp only [Expr.sfuel] at hb; omega
          have h3 : e2.sfuel ≤ n := by simp only [Expr.sfuel] at hb; omega
          simp only [simplifyF, ihE n _ h1 hn, ihE n _ h2 hn, ihE n _ h3 hn]
        | func nm ss args va =>
          have h1 : sfuelStmts ss ≤ n := by simp only [Expr.sfuel] at hb; omega
          simp only [simplifyF, ihSS n _ h1 hn]
        | letE l r =>
          have h1 : l.sfuel ≤ n := by simp only [Expr.sfuel] at hb; omega
          have h2 : r.sfuel ≤ n := by simp only [Expr.sfuel] at hb; omega
          simp only [simplifyF, ihE n _ h1 hn, ihE n _ h2 hn]
        | assoc l op r =>
          have h1 : l.sfuel ≤ n := by simp only [Expr.sfuel, sfuelOpt] at hb; omega
          cases r with
          | none => simp only [simplifyF, ihE n _ h1 hn]
          | some r0 =>
            have h2 : r0.sfuel ≤ n := by simp only [Expr.sfuel, sfuelOpt] at hb; omega
            simp only [simplifyF, ihE n _ h1 hn, ihE n _ h2 hn]
        | chan l r =>
          have h2 : r.sfuel ≤ n := by simp only [Expr.sfuel, sfuelOpt] at hb; omega
          cases l with
          | none => simp only [simplifyF]
          | some l0 =>
            have h1 : l0.sfuel ≤ n := by simp only [Expr.sfuel, sfuelOpt] at hb; omega
            simp only [simplifyF, ihE n _ h1 hn, ihE n _ h2 hn]
        | typeCast t te ce =>
          have h2 : ce.sfuel ≤ n := by simp only [Expr.sfuel, sfuelOpt] at hb; omega
          cases te with
          | none => simp only [simplifyF]
          | some te0 =>
            have h1 : te0.sfuel ≤ n := by simp only [Expr.sfuel, sfuelOpt] at hb; omega
            simp only [simplifyF, ihE n _ h1 hn, ihE n _ h2 hn]
        | makeE t te =>
          cases te with
          | none => simp only [simplifyF]
          | some te0 =>
            have h1 : te0.sfuel ≤ n := by simp only [Expr.sfuel, sfuelOpt] at hb; omega
            simp only [simplifyF, ihE n _ h1 hn]
        | makeChan se =>
          cases se with
          | none => simp only [simplifyF]
          | some se0 =>
            have h1 : se0.sfuel ≤ n := by simp only [Expr.sfuel, sfuelOpt] at hb; omega
            simp only [simplifyF, ihE n _ h1 hn]
        | makeArray le ce =>
          have h1 : le.sfuel ≤ n := by simp only [Expr.sfuel, sfuelOpt] at hb; omega
          cases ce with
          | none => simp only [simplifyF, ihE n _ h1 hn]
          | some ce0 =>
            have h2 : ce0.sfuel ≤ n := by simp only [Expr.sfuel, sfuelOpt] at hb; omega
            simp only [simplifyF, ihE n _ h1 hn, ihE n _ h2 hn]
    · intro n es hb hnm
      cases n with
      | zero =>
        exact absurd hb (by cases es <;> simp only [sfuelList] <;> omega)
      | succ n =>
        have hn : n ≤ m := by omega
        cases es with
        | nil => simp only [simplifyListF]
        | cons e rest =>
          have h1 : e.sfuel ≤ n := by simp only [sfuelList] at hb; omega
          have h2 : sfuelList rest ≤ n := by simp only [sfuelList] at hb; omega
          simp only [simplifyListF, ihE n _ h1 hn, ihL n _ h2 hn]
    · intro n ps hb hnm
      cases n with
      | zero =>
        exact absurd hb (by cases ps <;> simp only [sfuelEntries] <;> omega)
      | succ n =>
        have hn : n ≤ m := by omega
        cases ps with
        | nil => simp only [simplifyEntriesF]
        | cons p rest =>
          obtain ⟨k, v⟩ := p
          have h1 : v.sfuel ≤ n := by simp only [sfuelEntries] at hb; omega
          have h2 : sfuelEntries rest ≤ n := by simp only [sfuelEntries] at hb; omega
          simp only [simplifyEntriesF, ihE n _ h1 hn, ihP n _ h2 hn]
    · intro n s hb hnm
      cases n with
      | zero =>
        exact absurd hb (by cases s <;> simp only [Stmt.sfuel] <;> omega)
      | succ n =>
        have hn : n ≤ m := by omega
        cases s with
        | lets l op r =>
          have h1 : sfuelList l ≤ n := by simp only [Stmt.sfuel] at hb; omega
          have h2 : sfuelList r ≤ n := by simp only [Stmt.sfuel] at hb; omega
          simp only [simplifyStmtF, ihL n _ h1 hn, ihL n _ h2 hn]
        | exprStmt e =>
          have h1 : e.sfuel ≤ n := by simp only [Stmt.sfuel] at hb; omega
          simp only [simplifyStmtF, ihE n _ h1 hn]
    · intro n ss hb hnm
      cases n with
      | zero =>
        exact absurd hb (by cases ss <;> simp only [sfuelStmts] <;> omega)
      | succ n =>
        have hn : n ≤ m := by omega
        cases ss with
        | nil => simp only [simplifyStmtsF]
        | cons s rest =>
          have h1 : s.sfuel ≤ n := by simp only [sfuelStmts] at hb; omega
          have h2 : sfuelStmts rest ≤ n := by simp only [sfuelStmts] at hb; omega
          simp only [simplifyStmtsF, ihS n _ h1 hn, ihSS n _ h2 hn]

/-- **C4.** `Simplify` is idempotent: for every expression `e`,
running `Simplify` again on the result of `Simplify e` changes
nothing — a single bottom-up pass reaches a fixed point.  The
composition is stated through `Option.bind`, so a run that panics
composes to the same panic. -/
theorem C4_simplify_idempotent (e : Expr) :
    (Expr.Simplify e).bind Expr.Simplify = Expr.Simplify e := by
  unfold Expr.Simplify
  cases h : simplifyF e.sfuel e with
  | none => rfl
  | some e' =>
    have hfix : simplifyF e.sfuel e' = some e' := (sFix e.sfuel).1 _ _ h
    have hble : e'.sfuel ≤ e.sfuel := (sBound e.sfuel).1 _ _ h
    have hst := (sStable e.sfuel).1 e'.sfuel e' (le_refl _) hble
    show Expr.Simplify e' = some e'
    unfold Expr.Simplify
    rw [← hst]
    exact hfix

/-- Constructor tag of an instruction (used to compare emitted streams
without a decidable equality on embedded runtime values). -/
def instrTag : BinInstr → Nat
  | .LOAD .. => 0
  | .CASTNUM _ => 1
  | .MAKESLICE .. => 2
  | .MAKEMAP .. => 3
  | .MAKECHAN _ => 4
  | .MAKEARR .. => 5
  | .MAKE _ => 6
  | .SETIDX .. => 7
  | .SETKEY .. => 8
  | .GET .. => 9
  | .SET .. => 10
  | .UNARY .. => 11
  | .ADDRID .. => 12
  | .ADDRMBR .. => 13
  | .UNREFID .. => 14
  | .UNREFMBR .. => 15
  | .OPER .. => 16
  | .CALL .. => 17
  | .FUNC .. => 18
  | .GETMEMBER .. => 19
  | .SETMEMBER .. => 20
  | .GETIDX .. => 21
  | .SETITEM .. => 22
  | .GETSUBSLICE .. => 23
  | .SETSLICE .. => 24
  | .CHANRECV .. => 25
  | .CHANSEND .. => 26
  | .ISKIND .. => 27
  | .MV .. => 28
  | .CASTTYPE .. => 29
  | .SETNAME _ => 30
  | .JMP _ => 31
  | .JTRUE .. => 32
  | .JFALSE .. => 33
  | .LABEL _ => 34

/-- Tag stream of a lowering result. -/
def lowTags : Except LowerErr (List BinInstr × Nat) → List Nat
  | .ok (c, _) => c.map instrTag
  | .error _ => []

/-- The `SETKEY` keys of a lowering result, in emission order. -/
def lowKeys : Except LowerErr (List BinInstr × Nat) → List String
  | .ok (c, _) => c.filterMap fun i =>
      match i with
      | .SETKEY _ _ k => some k
      | _ => none
  | .error _ => []

/-- Length of the emitted instruction sequence. -/
def lowLen : Except LowerErr (List BinInstr × Nat) → Nat
  | .ok (c, _) => c.length
  | .error _ => 0

/-- **C1** fails on the code: `Simplify` can raise.  Two concrete
panics, evaluated on the embedding: the constant-index fold of
`ItemExpr.Simplify` indexes `vv.Slice()[ii.Int()]` out of range on
`[][0]` (a Go runtime panic), and `UnaryExpr.Simplify`'s single-value
`.(core.VMUnarer)` assertion (its `ok` is the stale outer one) panics
on a folded operand without the unary capability — instead of
returning the original subtree unchanged. -/
theorem C1_simplify_panics :
    Expr.Simplify (.item (.array []) (.number "0")) = none
  ∧ Expr.Simplify (.unary "-" (.string "a")) = none := ⟨rfl, rfl⟩

/-- **C2** fails on the code (the spec flags this as a transcription
bug): `TernaryOpExpr.Simplify` assigns both branches from the
simplified condition, so for `истина ? x : y` the whole ternary
simplifies to `Native(true)` — the condition — rather than to the
then-branch `x`, and lowering the simplified tree differs from
lowering `x` alone. -/
theorem C2_ternary_bug :
    Expr.Simplify (.ternary (.constE "истина") (.ident "x" 1) (.ident "y" 2))
      = some (.native (.bool true))
  ∧ Expr.Simplify (.ternary (.constE "истина") (.ident "x" 1) (.ident "y" 2))
      ≠ some (.ident "x" 1)
  ∧ Expr.BinTo (.native (.bool true)) 0 0 false ≠ Expr.BinTo (.ident "x" 1) 0 0 false := by
  refine ⟨rfl, ?_, ?_⟩
  · intro h
    rw [show Expr.Simplify (.ternary (.constE "истина") (.ident "x" 1) (.ident "y" 2))
          = some (.native (.bool true)) from rfl] at h
    simp at h
  · intro h
    exact absurd (congrArg lowTags h) (by decide)

/-- **C3 (counterexample).**  The entries of a Go map literal are
enumerated in an unspecified order; two enumerations of the same
two-entry map (a permutation) make `MapExpr.BinTo` append different
instruction sequences, so lowering is not a function of the map value
alone. -/
theorem C3_map_order_counterexample :
    ([("a", Expr.number "1"), ("b", Expr.number "2")] : List (String × Expr)).Perm
        [("b", Expr.number "2"), ("a", Expr.number "1")]
  ∧ Expr.BinTo (.mapE [("a", .number "1"), ("b", .number "2")]) 0 0 false
      ≠ Expr.BinTo (.mapE [("b", .number "2"), ("a", .number "1")]) 0 0 false := by
  constructor
  · exact List.Perm.swap _ _ _
  · intro h
    exact absurd (congrArg lowKeys h) (by decide)

/-- **C3 (amended).**  Lowering is a pure function of the AST with the
map-entry enumeration order fixed; for map literals with at most one
key the enumeration order cannot matter, so two lowering runs over the
same such map append identical sequences. -/
theorem C3_map_lowering_det (m1 m2 : List (String × Expr)) (reg lid : Nat) (b : Bool)
    (hperm : m1.Perm m2) (hlen : m1.length ≤ 1) :
    Expr.BinTo (.mapE m1) reg lid b = Expr.BinTo (.mapE m2) reg lid b := by
  have hm : m1 = m2 := by
    cases m1 with
    | nil => exact (List.Perm.eq_nil hperm.symm).symm
    | cons a as =>
      cases as with
      | nil => exact List.singleton_perm.mp hperm
      | cons a2 as2 => simp at hlen
  rw [hm]

/-- Witness for `C3_map_lowering_det` at a one-entry map. -/
theorem C3_map_lowering_det_witness :
    Expr.BinTo (.mapE [("k", Expr.number "1")]) 0 0 false
      = Expr.BinTo (.mapE [("k", Expr.number "1")]) 0 0 false :=
  C3_map_lowering_det _ _ 0 0 false (List.Perm.refl _) (by decide)

/-- **C5.**  Lowering `a || b` emits `a`'s code into `reg`, a
`JTRUE reg, L` with the freshly allocated label `L` (the pre-incremented
counter), then `b`'s code into `reg`, then `LABEL L`; dually `&&` uses
`JFALSE`.  The right operand's instructions sit strictly between the
conditional jump and its label, which is how the VM skips them when the
left value decides the result. -/
theorem C5_short_circuit (l r : Expr) (reg lid : Nat) (b : Bool) :
    (Expr.BinTo (.binOp [l] "||" [r]) reg lid b =
      match Expr.BinTo l reg lid false with
      | .error err => .error err
      | .ok (c1, l1) =>
        match Expr.BinTo r reg (l1 + 1) false with
        | .error err => .error err
        | .ok (c2, l2) =>
          .ok (c1 ++ [.JTRUE reg (l1 + 1)] ++ c2 ++ [.LABEL (l1 + 1)], l2))
  ∧ (Expr.BinTo (.binOp [l] "&&" [r]) reg lid b =
      match Expr.BinTo l reg lid false with
      | .error err => .error err
      | .ok (c1, l1) =>
        match Expr.BinTo r reg (l1 + 1) false with
        | .error err => .error err
        | .ok (c2, l2) =>
          .ok (c1 ++ [.JFALSE reg (l1 + 1)] ++ c2 ++ [.LABEL (l1 + 1)], l2)) := by
  constructor <;> cases b <;> rfl

/-- **C6.**  In statement context a `==` `BinOpExpr` is lowered as the
`Lets` assignment statement over the same operand lists; in every
other case the lowering requires exactly one expression on each side
and aborts with the compile diagnostic otherwise. -/
theorem C6_eql_rewrite :
    (∀ lhss rhss reg lid,
       Expr.BinTo (.binOp lhss "==" rhss) reg lid true
         = Stmt.BinTo (.lets lhss "=" rhss) reg lid)
  ∧ (∀ lhss (op : String) rhss reg lid (b : Bool),
       ¬(b = true ∧ operMap op = .EQL) →
       lhss.length ≠ 1 ∨ rhss.length ≠ 1 →
       Expr.BinTo (.binOp lhss op rhss) reg lid b
         = .error (.diag "С каждой стороны операции может быть только одно выражение")) := by
  constructor
  · intro lhss rhss reg lid
    by_cases hs : ∃ l r, lhss = [l] ∧ rhss = [r]
    · obtain ⟨l, r, rfl, rfl⟩ := hs
      rw [eqBinTo_binOp_single, eqStmtBinTo_lets,
          show operMap "==" = Oper.EQL from rfl, lowSel_eql]
    · rw [eqBinTo_binOp_multi lhss "==" rhss reg lid true hs, eqStmtBinTo_lets,
          show operMap "==" = Oper.EQL from rfl, lowSel_eql]
  · intro lhss op rhss reg lid b hc hl
    have hmulti : ¬∃ l r, lhss = [l] ∧ rhss = [r] := by
      rintro ⟨l, r, rfl, rfl⟩
      rcases hl with h | h <;> simp at h
    rw [eqBinTo_binOp_multi lhss op rhss reg lid b hmulti, lowSel_not _ _ _ _ hc]

/-- Witness for `C6_eql_rewrite`: the rewrite at `a == 1` in statement
context, and the diagnostic for an empty-sided `+`. -/
theorem C6_eql_rewrite_witness :
    Expr.BinTo (.binOp [.ident "a" 1] "==" [.number "1"]) 0 0 true
      = Stmt.BinTo (.lets [.ident "a" 1] "=" [.number "1"]) 0 0
  ∧ Expr.BinTo (.binOp [] "+" []) 0 0 false
      = .error (.diag "С каждой стороны операции может быть только одно выражение") :=
  ⟨C6_eql_rewrite.1 [.ident "a" 1] [.number "1"] 0 0,
   C6_eql_rewrite.2 [] "+" [] 0 0 false (by simp [operMap]) (Or.inl (by decide))⟩

/-- **C8 (counterexample).**  `ParenExpr.BinTo` lowers its inner
expression with `inStmt` hard-coded to `false`, so with the *same*
arguments in statement context a parenthesised `a == 1` lowers as a
comparison while the bare `a == 1` lowers as an assignment. -/
theorem C8_paren_counterexample :
    Expr.BinTo (.paren (.binOp [.ident "a" 1] "==" [.number "2"])) 0 0 true
      ≠ Expr.BinTo (.binOp [.ident "a" 1] "==" [.number "2"]) 0 0 true := by
  intro h
  exact absurd (congrArg lowLen h) (by decide)

/-- **C8 (amended).**  Lowering `Paren(e)` appends exactly the
instructions of lowering `e` with the same register and label counter
but always in non-statement context; the original claim's "same
arguments" holds whenever the context is non-statement (and fails only
through the `inStmt` flag, see the counterexample). -/
theorem C8_paren_lowering (e : Expr) (reg lid : Nat) (b : Bool) :
    Expr.BinTo (.paren e) reg lid b = Expr.BinTo e reg lid false := rfl

/-- **C9 (counterexample).**  `ConstExpr.Simplify` has no case for
`nil`: the node is left unchanged rather than canonicalized to
`Native(Nil)` (only `BinTo`'s default later maps it — like any other
unknown text — to `Nil`). -/
theorem C9_const_counterexample :
    Expr.Simplify (.constE "nil") = some (.constE "nil")
  ∧ Expr.Simplify (.constE "nil") ≠ some (.native .nilv) := by
  refine ⟨rfl, ?_⟩
  intro h
  rw [show Expr.Simplify (.constE "nil") = some (.constE "nil") from rfl] at h
  simp at h

/-- The single-node run of `Simplify` on a `ConstExpr`, unfolded. -/
theorem simplify_const (s : String) :
    Expr.Simplify (.constE s)
      = match goToLower s with
        | "истина" | "true" => some (.native (.bool true))
        | "ложь" | "false" => some (.native (.bool false))
        | "null" => some (.native .null)
        | _ => some (.constE s) := rfl

/-- **C9 (amended).**  `Simplify` on a `ConstExpr` canonicalizes
`true`/`истина`, `false`/`ложь` and `null` case-insensitively to the
matching `Native` value and leaves any other text — including `nil` —
unchanged. -/
theorem C9_const_simplify (s : String) :
    (goToLower s = "истина" ∨ goToLower s = "true" →
       Expr.Simplify (.constE s) = some (.native (.bool true)))
  ∧ (goToLower s = "ложь" ∨ goToLower s = "false" →
       Expr.Simplify (.constE s) = some (.native (.bool false)))
  ∧ (goToLower s = "null" → Expr.Simplify (.constE s) = some (.native .null))
  ∧ (goToLower s ≠ "истина" → goToLower s ≠ "true" →
     goToLower s ≠ "ложь" → goToLower s ≠ "false" → goToLower s ≠ "null" →
       Expr.Simplify (.constE s) = some (.constE s)) := by
  refine ⟨?_, ?_, ?_, ?_⟩
  · rintro (h | h) <;> (rw [simplify_const, h]; rfl)
  · rintro (h | h) <;> (rw [simplify_const, h]; rfl)
  · intro h
    rw [simplify_const, h]
    rfl
  · intro h1 h2 h3 h4 h5
    rw [simplify_const]
    split <;> first | rfl | simp_all

/-- Witness for `C9_const_simplify`: mixed-case Cyrillic and Latin
keywords canonicalize; `nil` stays. -/
theorem C9_const_simplify_witness :
    Expr.Simplify (.constE "Истина") = some (.native (.bool true))
  ∧ Expr.Simplify (.constE "FALSE") = some (.native (.bool false))
  ∧ Expr.Simplify (.constE "nil") = some (.constE "nil") :=
  ⟨(C9_const_simplify "Истина").1 (Or.inl (by decide)),
   (C9_const_simplify "FALSE").2.1 (Or.inr (by decide)),
   (C9_const_simplify "nil").2.2.2 (by decide) (by decide) (by decide) (by decide)
     (by decide)⟩

/-- **C10.**  Every assignment path downcasts its target without a
check: a non-l-value in the target position of `Let`, of the container
of `Item`/`Slice` assignment, or of the read branch of `Chan`, makes
lowering abort with a raw Go panic (`goPanic`), not with the
`InvalidOperation`-style diagnostic that `Addr`/`Deref` raise. -/
theorem C10_unchecked_let_target :
    (∀ t : Expr, t.isCanLet = false → ∀ reg lid,
       Expr.BinLetTo t reg lid = .error .goPanic)
  ∧ (∀ (t rhs : Expr) (reg lid : Nat) (b : Bool) c l1, t.isCanLet = false →
       Expr.BinTo rhs reg lid false = .ok (c, l1) →
       Expr.BinTo (.letE t rhs) reg lid b = .error .goPanic)
  ∧ (∀ (v i : Expr) (reg lid : Nat) cv l1 ci l2, v.isCanLet = false →
       Expr.BinTo v (reg + 1) (lid + 1) false = .ok (cv, l1) →
       Expr.BinTo i (reg + 2) l1 false = .ok (ci, l2) →
       Expr.BinLetTo (.item v i) reg lid = .error .goPanic)
  ∧ (∀ (v b2 e : Expr) (reg lid : Nat) cv l1 cb l2 ce l3, v.isCanLet = false →
       Expr.BinTo v (reg + 1) (lid + 1) false = .ok (cv, l1) →
       Expr.BinTo b2 (reg + 2) l1 false = .ok (cb, l2) →
       Expr.BinTo e (reg + 3) l2 false = .ok (ce, l3) →
       Expr.BinLetTo (.slice v b2 e) reg lid = .error .goPanic)
  ∧ (∀ (t rhs : Expr) (reg lid : Nat) (b : Bool) cr l1 cl l2, t.isCanLet = false →
       Expr.BinTo rhs (reg + 1) lid false = .ok (cr, l1) →
       Expr.BinTo t (reg + 2) l1 false = .ok (cl, l2) →
       Expr.BinTo (.chan (some t) rhs) reg lid b = .error .goPanic)
  ∧ (∀ (v i : Expr) (reg lid : Nat) (b : Bool),
       Expr.BinTo (.addr (.item v i)) reg lid b
         = .error (.diag "Неверная операция над значением")) := by
  refine ⟨binLetTo_goPanic, ?_, ?_, ?_, ?_, ?_⟩
  · intro t rhs reg lid b c l1 ht hrhs
    simp [hrhs, binLetTo_goPanic t ht]
  · intro v i reg lid cv l1 ci l2 hv h1 h2
    simp [h1, h2, binLetTo_goPanic v hv]
  · intro v b2 e reg lid cv l1 cb l2 ce l3 hv h1 h2 h3
    simp [h1, h2, h3, binLetTo_goPanic v hv]
  · intro t rhs reg lid b cr l1 cl l2 ht h1 h2
    simp [h1, h2, binLetTo_goPanic t ht]
  · intro v i reg lid b
    exact eqBinTo_addr_other (.item v i) reg lid b
      (fun _ _ h => Expr.noConfusion h) (fun _ _ h => Expr.noConfusion h)

/-- Witness for `C10_unchecked_let_target` at call-expression targets. -/
theorem C10_unchecked_let_target_witness :
    Expr.BinLetTo (.call 3 [] false false) 0 0 = .error .goPanic
  ∧ Expr.BinTo (.letE (.call 3 [] false false) (.string "s")) 0 0 false = .error .goPanic
  ∧ Expr.BinLetTo (.item (.call 3 [] false false) (.number "0")) 0 0 = .error .goPanic
  ∧ Expr.BinLetTo (.slice (.call 3 [] false false) (.number "0") (.number "1")) 0 0
      = .error .goPanic
  ∧ Expr.BinTo (.chan (some (.call 3 [] false false)) (.ident "c" 2)) 0 0 false
      = .error .goPanic
  ∧ Expr.BinTo (.addr (.item (.ident "a" 1) (.number "0"))) 0 0 false
      = .error (.diag "Неверная операция над значением") :=
  ⟨C10_unchecked_let_target.1 (.call 3 [] false false) rfl 0 0,
   C10_unchecked_let_target.2.1 _ _ 0 0 false _ _ rfl rfl,
   C10_unchecked_let_target.2.2.1 _ _ 0 0 _ _ _ _ rfl rfl rfl,
   C10_unchecked_let_target.2.2.2.1 _ _ _ 0 0 _ _ _ _ _ _ rfl rfl rfl rfl,
   C10_unchecked_let_target.2.2.2.2.1 _ _ 0 0 false _ _ _ _ rfl rfl rfl,
   C10_unchecked_let_target.2.2.2.2.2 _ _ 0 0 false⟩

end Gonec
